import Mathlib

set_option maxHeartbeats 1000000

/-!
Verification development for the ts-concurrency library.

Each definition below is a shallow embedding of a function or class of the
TypeScript source (src/src/condition.ts, mutex.ts, semaphore.ts, channel.ts,
recurrent-job.ts, and the unnamed parts holding the quota governor and the
two select implementations).  JavaScript numbers that only ever hold safe
integers are modelled as Int/Nat; the single-threaded cooperative scheduler
is modelled as an explicit small-step machine whose atomic steps are the
synchronous segments between awaits.
-/

namespace TsConc

/-! ## Condition (src/src/condition.ts)

The wait-set `handlers` is an array of resolver callbacks.  We model each
callback by the id of the waiting task; `none` models the JavaScript value
`undefined`, which enters the array because `removeFromHandlers` reads the
out-of-bounds index `this.handlers.length` when swap-removing. -/

/-- An entry of the `handlers` array: `some tid` is the `resolveByNotify`
callback of task `tid`; `none` is `undefined`. -/
abbrev Handler := Option Nat

/-- Model of `Condition.removeFromHandlers`: find the index with `indexOf`
(strict equality, `undefined` included); if absent, return unchanged; if the
array has one element, splice everything; otherwise copy
`this.handlers[this.handlers.length]` (an out-of-bounds read, hence
`undefined`) over the found index and splice off the last element. -/
def removeFromHandlers (handlers : List Handler) (h : Handler) : List Handler :=
  match handlers.findIdx? (· == h) with
  | none => handlers
  | some i =>
    if handlers.length = 1 then []
    else (handlers.set i (handlers.getD handlers.length none)).dropLast

/-- Result of one call to `Condition.notifyOne` with random draw `k`
(the source computes `Math.floor(Math.random() * length)`; we take the
index `k % length`, which ranges over the same values): the invoked handler
(if any) and the wait-set after `removeFromHandlers`. -/
def notifyOnePick (handlers : List Handler) (k : Nat) : Handler × List Handler :=
  if handlers.length < 1 then (none, handlers)
  else
    let h := handlers.getD (k % handlers.length) none
    (h, removeFromHandlers handlers h)

/-- Result of the registration half of `Condition.wait`: the handler list
after the call returns to the scheduler, and whether the promise was
resolved during the call itself (`some b` would mean resolved with `b`). -/
structure WaitEntryResult where
  handlers : List Handler
  immediateResult : Option Bool
deriving DecidableEq, Repr

/-- Model of the synchronous part of `Condition.wait`: it runs
`abortSignal?.addEventListener("abort", resolveByAbort)` and then pushes
`resolveByNotify`.  An `AbortSignal` dispatches its abort event only at the
moment `abort()` is called, so a listener added to an already-aborted signal
is never invoked: the entry does not resolve anything, whatever
`signalAlreadyAborted` is, and the waiter can only be resolved later by a
notify (value `true`).  (Contrast `sleep` in src/src/sleep.ts, which starts
with an explicit `if (signal?.aborted === true) return false`.) -/
def waitEntry (handlers : List Handler) (tid : Nat) (signalAlreadyAborted : Bool) :
    WaitEntryResult :=
  { handlers := handlers ++ [some tid], immediateResult := none }

/-! ## Mutex (src/src/mutex.ts) -/

/-- State of a `Mutex`: the `locked` flag and the monotonically increasing
`lockHandle` counter.  The internal Condition only schedules waiters and
does not affect these two fields. -/
structure MutexState where
  locked : Bool
  lockHandle : Int
deriving DecidableEq, Repr

/-- A fresh `Mutex`. -/
def MutexState.fresh : MutexState := { locked := false, lockHandle := 0 }

/-- Success path of `Mutex.acquire` (runs when `locked` is false): set
`locked`, increment `lockHandle` and return the new value. -/
def MutexState.acquireOk (m : MutexState) : Int × MutexState :=
  (m.lockHandle + 1, { locked := true, lockHandle := m.lockHandle + 1 })

/-- Model of `Mutex.release`: no-op if the handle is undefined, if not
locked, or if `lockHandle` differs; otherwise clear `locked` (and
`notifyOne` the Condition, which does not change these fields). -/
def MutexState.release (m : MutexState) (handle : Option Int) : MutexState :=
  match handle with
  | none => m
  | some h =>
    if !m.locked then m
    else if m.lockHandle ≠ h then m
    else { m with locked := false }

/-- Validity of a mutex handle: the handle most recently issued while the
mutex is locked. -/
def MutexState.validHandle (m : MutexState) (h : Int) : Prop :=
  m.locked = true ∧ m.lockHandle = h

/-- One scheduler-visible mutex operation.  `acquireOk` is an acquire whose
final wakeup found the mutex unlocked; `acquireCancelled` is an acquire
whose wait was aborted (it returns undefined and changes nothing);
`release h` is a release call with an arbitrary handle argument. -/
inductive MutexOp
  | acquireOk
  | acquireCancelled
  | release (h : Option Int)
deriving DecidableEq, Repr

/-- Apply one mutex operation.  An `acquireOk` scheduled while the mutex is
still locked stays in its wait loop, hence no state change. -/
def MutexState.applyOp (m : MutexState) : MutexOp → MutexState
  | .acquireOk => if m.locked then m else (m.acquireOk).2
  | .acquireCancelled => m
  | .release h => m.release h

/-- Run a sequence of mutex operations from a fresh mutex. -/
def MutexState.runOps (ops : List MutexOp) : MutexState :=
  ops.foldl MutexState.applyOp MutexState.fresh

/-! ## Semaphore (src/src/semaphore.ts) -/

/-- State of a `Semaphore`: `slots`, the `nextHandle` counter and the
outstanding-handle set, plus the ghost list `issued` of every handle ever
returned by a successful acquire (in order of issue). -/
structure SemState where
  slots : Int
  nextHandle : Int
  handles : Finset Int
  issued : List Int
deriving DecidableEq

/-- A fresh `Semaphore` with `n` slots (`new Semaphore(n)`). -/
def SemState.fresh (n : Nat) : SemState :=
  { slots := (n : Int), nextHandle := 0, handles := ∅, issued := [] }

/-- Success path of `Semaphore.acquire` (runs when `slots ≥ 1`): decrement
`slots`, allocate `nextHandle++`, add it to the outstanding set. -/
def SemState.acquireOk (s : SemState) : Int × SemState :=
  (s.nextHandle,
   { slots := s.slots - 1, nextHandle := s.nextHandle + 1,
     handles := insert s.nextHandle s.handles,
     issued := s.issued ++ [s.nextHandle] })

/-- Model of `Semaphore.release`: no-op if the handle is undefined or not in
the outstanding set; otherwise delete it, increment `slots` (and
`notifyOne`, which does not change these fields). -/
def SemState.release (s : SemState) (handle : Option Int) : SemState :=
  match handle with
  | none => s
  | some h =>
    if h ∈ s.handles then
      { s with handles := s.handles.erase h, slots := s.slots + 1 }
    else s

/-- One scheduler-visible semaphore operation, mirroring `MutexOp`. -/
inductive SemOp
  | acquireOk
  | acquireCancelled
  | release (h : Option Int)
deriving DecidableEq, Repr

/-- Apply one semaphore operation.  An `acquireOk` scheduled while
`slots < 1` stays in its wait loop, hence no state change. -/
def SemState.applyOp (s : SemState) : SemOp → SemState
  | .acquireOk => if s.slots < 1 then s else (s.acquireOk).2
  | .acquireCancelled => s
  | .release h => s.release h

/-- Run a sequence of semaphore operations from a fresh `Semaphore(n)`. -/
def SemState.runOps (n : Nat) (ops : List SemOp) : SemState :=
  ops.foldl SemState.applyOp (SemState.fresh n)

/-- The state invariant of `Semaphore` claimed by the specification. -/
def SemState.Inv (n : Nat) (s : SemState) : Prop :=
  s.slots + s.handles.card = (n : Int) ∧ 0 ≤ s.slots ∧ 0 ≤ s.nextHandle ∧
    (∀ h ∈ s.handles, h < s.nextHandle) ∧ s.issued.Nodup ∧
    (∀ h ∈ s.issued, h < s.nextHandle) ∧ (∀ h ∈ s.handles, h ∈ s.issued)

/-! ## Semaphore.withSlot (src/src/semaphore.ts)

`withSlot` tests the acquired handle with `if (!handle)`: JavaScript
falsiness, which is true both for `undefined` and for the number `0`. -/

/-- JavaScript falsiness of `handle : number | undefined`. -/
def jsFalsyHandle : Option Int → Bool
  | none => true
  | some h => h == 0

/-- Observable outcome of one `withSlot` call. -/
structure WithSlotOutcome where
  aborted : Bool
  fnRan : Bool
  after : SemState
deriving DecidableEq

/-- Model of `Semaphore.withSlot(fn)` with no cancel token, in a state with
a free slot: `acquire` succeeds and returns `some handle`; `withSlot` then
returns aborted when `!handle` is truthy (without running `fn`), else runs
`fn`; the `finally` block releases the handle on every path. -/
def SemState.withSlotFree (s : SemState) : WithSlotOutcome :=
  if s.slots < 1 then { aborted := false, fnRan := false, after := s }
  else
    let (h, s1) := s.acquireOk
    if jsFalsyHandle (some h) then
      { aborted := true, fnRan := false, after := s1.release (some h) }
    else
      { aborted := false, fnRan := true, after := s1.release (some h) }

/-! ## RecurrentJob (src/src/recurrent-job.ts) -/

/-- The three states of `RecurrentJobState`. -/
inductive RJState
  | Inert
  | InProgress
  | Again
deriving DecidableEq, Repr

/-- Observable state of a `RecurrentJob`: the state machine, whether
`doingPromise` is set, plus ghost counters for started runs and for
`notifyAll` calls on the idle Condition. -/
structure RJob where
  state : RJState
  hasDoingPromise : Bool
  runsStarted : Nat
  idleNotifies : Nat
deriving DecidableEq, Repr

/-- Model of `RecurrentJob.request`: the state switch (Inert to InProgress,
InProgress to Again, Again unchanged) and then, if `doingPromise` is
undefined, start a run. -/
def RJob.request (j : RJob) : RJob :=
  let j1 :=
    match j.state with
    | .Inert => { j with state := RJState.InProgress }
    | .InProgress => { j with state := RJState.Again }
    | .Again => j
  if j1.hasDoingPromise then j1
  else { j1 with hasDoingPromise := true, runsStarted := j1.runsStarted + 1 }

/-- Model of the `finally` block of `RecurrentJob.doOperation`, which runs
when the current run of the operation ends: clear `doingPromise` unless the
state is Again; then InProgress goes to Inert with a `notifyAll`, and Again
goes back to InProgress starting a fresh run. -/
def RJob.finishRun (j : RJob) : RJob :=
  let j1 := if j.state ≠ RJState.Again then { j with hasDoingPromise := false } else j
  match j1.state with
  | .InProgress => { j1 with state := RJState.Inert, idleNotifies := j1.idleNotifies + 1 }
  | .Again =>
      { j1 with state := RJState.InProgress, hasDoingPromise := true,
                runsStarted := j1.runsStarted + 1 }
  | .Inert => j1

/-! ## QuotaGovernor (unnamed part 001) -/

/-- Number.MAX_SAFE_INTEGER, used as the stand-in for infinity when
`lastTime` is absent. -/
def maxSafeInteger : ℚ := 2 ^ 53 - 1

/-- State of a `QuotaGovernor`. -/
structure QuotaGovernor where
  waitPeriodMS : ℚ
  lastTime : Option ℚ
  outstanding : Nat
deriving DecidableEq, Repr

/-- Model of `new QuotaGovernor(ratePerSecond)`. -/
def QuotaGovernor.fresh (ratePerSecond : ℚ) : QuotaGovernor :=
  { waitPeriodMS := 1000 / ratePerSecond, lastTime := none, outstanding := 0 }

/-- Observable outcome of one `QuotaGovernor.wait` call. -/
structure QuotaWaitOutcome where
  sleepFor : ℚ
  returned : Bool
  after : QuotaGovernor
deriving DecidableEq, Repr

/-- Model of an uncancelled `QuotaGovernor.wait()` call that runs with no
interleaved waiters: `prior` is the outstanding count on entry (then
incremented); the catch-up delta is `MAX_SAFE_INTEGER` when `lastTime` is
absent and `now - lastTime` otherwise; the total sleep is
`max(waitPeriod - delta, 0) + waitPeriod * prior`; `sleep` with no signal
resolves `true`; the `finally` block records `lastTime := now2` (the clock
after the sleep) and decrements `outstanding`. -/
def QuotaGovernor.waitModel (g : QuotaGovernor) (now now2 : ℚ) : QuotaWaitOutcome :=
  let prior : Nat := g.outstanding
  let g1 := { g with outstanding := g.outstanding + 1 }
  let delta : ℚ :=
    match g1.lastTime with
    | none => maxSafeInteger
    | some t => now - t
  let waitAfterPeriod := max (g1.waitPeriodMS - delta) 0
  let sleepFor := waitAfterPeriod + g1.waitPeriodMS * (prior : ℚ)
  { sleepFor := sleepFor, returned := true,
    after := { g1 with lastTime := some now2, outstanding := g1.outstanding - 1 } }

/-! ## Channel (src/src/channel.ts, and the channel file in unnamed part 002)

The channel logic is async code under a single-threaded cooperative
scheduler.  We model it as a small-step machine: each `Act.runTask` step
executes one synchronous segment of one task (the code between two awaits,
which JavaScript runs atomically), `Act.abortSig` fires an `AbortSignal`
(running every live abort listener synchronously), and `Act.closeChan`
executes `Channel.close`.  Resolving a promise (`resolve(true/false)` inside
a Condition handler) and running the awaiting continuation are distinct
events: resolution flips the task to a `Resumed` stage, and the continuation
runs at the next `runTask` step of that task. -/

abbrev Val := Nat

/-- Error kinds thrown by channel code.  `fatalE` models the `TypeError`
raised when `notifyOne`/`notifyAll` invokes an `undefined` entry left in a
wait-set by the `removeFromHandlers` out-of-bounds slip. -/
inductive ChanErr
  | closedE
  | readCancelledE
  | writeCancelledE
  | fatalE
deriving DecidableEq, Repr

/-- Number.MIN_SAFE_INTEGER, initial value of both serial counters. -/
def minSafeInteger : Int := -(2 ^ 53 - 1)

/-- State of one `Channel` instance.  `readLog` and `writeLog` are ghost
instrumentation: `readLog` records, in completion order, the value returned
by each `read` that returned successfully (the source returns `this.value!`,
so the recorded value is `Option Val`); `writeLog` records, in completion
order, the argument of each `write` that returned without throwing. -/
structure ChanState where
  readSerial : Int
  writeSerial : Int
  readCV : List Handler
  writeReadCV : List Handler
  writeWriteCV : List Handler
  valueInTransit : Bool
  closed : Bool
  value : Option Val
  readLog : List (Option Val)
  writeLog : List Val
deriving DecidableEq, Repr

/-- A fresh `Channel`. -/
def ChanState.fresh : ChanState :=
  { readSerial := minSafeInteger, writeSerial := minSafeInteger,
    readCV := [], writeReadCV := [], writeWriteCV := [],
    valueInTransit := false, closed := false, value := none,
    readLog := [], writeLog := [] }

/-- Control state of a `Channel.write` task. -/
inductive WStage
  | start
  | admitWait
  | admitResumed (b : Bool)
  | commitWait (target : Int)
  | commitResumed (target : Int) (b : Bool)
  | wdone (r : Option ChanErr)
deriving DecidableEq, Repr

instance {ε α : Type} [DecidableEq ε] [DecidableEq α] : DecidableEq (Except ε α) := fun x y =>
  match x, y with
  | .ok a, .ok b => if h : a = b then .isTrue (by rw [h]) else .isFalse (by simp [h])
  | .error a, .error b => if h : a = b then .isTrue (by rw [h]) else .isFalse (by simp [h])
  | .ok _, .error _ => .isFalse (by simp)
  | .error _, .ok _ => .isFalse (by simp)

/-- Control state of a read (`read`, or `readInternal` inside select). -/
inductive RStage
  | start
  | rwait
  | resumed (b : Bool)
  | rdone (r : Except ChanErr (Option Val))
deriving DecidableEq, Repr

/-- Control state of one select arm: the read, then the `.then`
continuation (which fires `controller.abort()` and starts the handler), the
handler body, and the settled chain (`none` = resolved, possibly with a
swallowed `ReadCancelledException`; `some e` = rejected with `e`). -/
inductive ArmStage
  | reading (st : RStage)
  | thenPhase (v : Option Val)
  | handlerRun (v : Option Val) (stepsLeft : Nat)
  | armDone (r : Option ChanErr)
deriving DecidableEq, Repr

/-- Read-policy hook of `readInternal`: `always` is `alwaysTakeRead` (plain
`read`); `flagged` is the `shouldTakeRead` closure of the Promise.all select
variant, backed by the shared `didRead` flag. -/
inductive TakeKind
  | always
  | flagged
deriving DecidableEq, Repr

/-- A task of the machine.  `writer c v sig` is `channels[c].write(v, sig)`;
`reader c sig` is `channels[c].read(sig)`; `arm allVariant c idx hsteps
hfail` is the select-arm chain on `channels[c]` for handler `idx`, where
`allVariant` selects the Promise.all/shouldTakeRead implementation (true) or
the Promise.race implementation with `.catch` before `.then` (false),
`hsteps` is the number of suspension steps the handler body takes, and
`hfail` is the error the handler throws (if any).  Arms register waits with
the select controller signal `Config.selSig`. -/
inductive Task
  | writer (c : Nat) (v : Val) (sig : Option Nat) (st : WStage)
  | reader (c : Nat) (sig : Option Nat) (st : RStage)
  | arm (allVariant : Bool) (c : Nat) (idx : Nat) (hsteps : Nat)
        (hfail : Option ChanErr) (st : ArmStage)
deriving DecidableEq, Repr

/-- Global configuration: the channels, the tasks, the set of fired abort
signals, the select state (`didRead` flag, controller signal id), ghost
counters for select observability (`armsTook` counts successful
`shouldTakeRead` claims, `handlersRun`/`handlersCompleted` count handler
starts and completions, `handlerValues` the values handlers were invoked
with), and `closeCrashed` records a `TypeError` escaping `close`. -/
structure Config where
  channels : List ChanState
  tasks : List Task
  fired : List Nat
  didRead : Bool
  selSig : Nat
  armsTook : Nat
  handlersRun : Nat
  handlersCompleted : Nat
  handlerValues : List (Option Val)
  closeCrashed : Bool
deriving DecidableEq, Repr

/-- Resolution of a pending Condition wait: flip the matching wait stage to
the corresponding resumed stage with outcome `b`; any other task shape is
left unchanged. -/
def resumeTask : Task → Bool → Task
  | .writer c v sig .admitWait, b => .writer c v sig (.admitResumed b)
  | .writer c v sig (.commitWait t), b => .writer c v sig (.commitResumed t b)
  | .reader c sig .rwait, b => .reader c sig (.resumed b)
  | .arm av c idx hs hf (.reading .rwait), b => .arm av c idx hs hf (.reading (.resumed b))
  | t, _ => t

/-- Resolve the wait of task `tid` with outcome `b`. -/
def resolveId (tasks : List Task) (tid : Nat) (b : Bool) : List Task :=
  match tasks.get? tid with
  | none => tasks
  | some t => tasks.set tid (resumeTask t b)

/-- Model of `Condition.notifyOne` as run inside a task segment with random
draw `k`: pick index `k % length`, remove the picked entry with
`removeFromHandlers`, then invoke it.  Returns the new wait-set, the updated
tasks and whether the invocation crashed (picked entry was `undefined`). -/
def notifyOneRun (cv : List Handler) (k : Nat) (tasks : List Task) :
    List Handler × List Task × Bool :=
  if cv.length < 1 then (cv, tasks, false)
  else
    let h := cv.getD (k % cv.length) none
    let cv2 := removeFromHandlers cv h
    match h with
    | none => (cv2, tasks, true)
    | some tid => (cv2, resolveId tasks tid true, false)

/-- Model of the loop of `Condition.notifyAll` over the spliced-out handler
list: invoke each in order, resolving its waiter with `true`; an `undefined`
entry raises a `TypeError`, which skips the remaining invocations. -/
def notifyAllRun : List Handler → List Task → List Task × Bool
  | [], tasks => (tasks, false)
  | none :: _, tasks => (tasks, true)
  | some tid :: rest, tasks => notifyAllRun rest (resolveId tasks tid true)

/-- Replace channel `c` of the configuration. -/
def setCh (cfg : Config) (c : Nat) (ch : ChanState) : Config :=
  { cfg with channels := cfg.channels.set c ch }

/-- Abort-listener run for one task when signal `s` fires: if the task is
currently suspended in a Condition wait registered with `s` (arms register
with the controller signal `selSig`), its `resolveByAbort` runs: remove its
own record from that wait-set (`removeFromHandlers`, slip included) and
resolve the wait with `false`. -/
def abortOneTask (selSig : Nat) (channels : List ChanState) (tasks : List Task)
    (s : Nat) (i : Nat) : List ChanState × List Task :=
  match tasks.get? i with
  | some (.writer c v (some s2) .admitWait) =>
    if s2 = s then
      match channels.get? c with
      | some ch =>
        (channels.set c { ch with writeWriteCV := removeFromHandlers ch.writeWriteCV (some i) },
         tasks.set i (.writer c v (some s2) (.admitResumed false)))
      | none => (channels, tasks)
    else (channels, tasks)
  | some (.writer c v (some s2) (.commitWait t)) =>
    if s2 = s then
      match channels.get? c with
      | some ch =>
        (channels.set c { ch with writeReadCV := removeFromHandlers ch.writeReadCV (some i) },
         tasks.set i (.writer c v (some s2) (.commitResumed t false)))
      | none => (channels, tasks)
    else (channels, tasks)
  | some (.reader c (some s2) .rwait) =>
    if s2 = s then
      match channels.get? c with
      | some ch =>
        (channels.set c { ch with readCV := removeFromHandlers ch.readCV (some i) },
         tasks.set i (.reader c (some s2) (.resumed false)))
      | none => (channels, tasks)
    else (channels, tasks)
  | some (.arm av c idx hs hf (.reading .rwait)) =>
    if selSig = s then
      match channels.get? c with
      | some ch =>
        (channels.set c { ch with readCV := removeFromHandlers ch.readCV (some i) },
         tasks.set i (.arm av c idx hs hf (.reading (.resumed false))))
      | none => (channels, tasks)
    else (channels, tasks)
  | _ => (channels, tasks)

/-- Firing an `AbortSignal`: a signal fires at most once; at that moment
every live listener runs.  A wait registered after the signal fired has a
dead listener (`addEventListener` on an aborted signal never calls back), so
exactly the currently suspended waits on `s` are resolved `false`. -/
def fireAbort (cfg : Config) (s : Nat) : Config :=
  if s ∈ cfg.fired then cfg
  else
    let cfg1 := { cfg with fired := s :: cfg.fired }
    let p := (List.range cfg1.tasks.length).foldl
      (fun acc i => abortOneTask cfg1.selSig acc.1 acc.2 s i)
      (cfg1.channels, cfg1.tasks)
    { cfg1 with channels := p.1, tasks := p.2 }

/-- Model of `Channel.close`: no-op when already closed; else set `closed`
and `notifyAll` the read, write-completion and write-admission Conditions in
that order.  Each `notifyAll` splices its wait-set empty before invoking the
handlers; a `TypeError` from an `undefined` entry propagates out of `close`,
skipping the remaining notifications (later wait-sets are then not even
spliced). -/
def doClose (cfg : Config) (c : Nat) : Config :=
  match cfg.channels.get? c with
  | none => cfg
  | some ch =>
    if ch.closed then cfg
    else
      let ch1 := { ch with closed := true, readCV := [] }
      let (tasks1, crash1) := notifyAllRun ch.readCV cfg.tasks
      if crash1 then { setCh cfg c ch1 with tasks := tasks1, closeCrashed := true }
      else
        let ch2 := { ch1 with writeReadCV := [] }
        let (tasks2, crash2) := notifyAllRun ch.writeReadCV tasks1
        if crash2 then { setCh cfg c ch2 with tasks := tasks2, closeCrashed := true }
        else
          let ch3 := { ch2 with writeWriteCV := [] }
          let (tasks3, crash3) := notifyAllRun ch.writeWriteCV tasks2
          if crash3 then { setCh cfg c ch3 with tasks := tasks3, closeCrashed := true }
          else { setCh cfg c ch3 with tasks := tasks3 }

/-- Output of one synchronous segment of a read. -/
structure RSegOut where
  ch : ChanState
  didRead : Bool
  armsTook : Nat
  st : RStage
  tasks : List Task
deriving DecidableEq, Repr

/-- Synchronous segment of `readInternal` starting at the top of its wait
loop: register on `readCV` when there is nothing to read and the channel is
open; raise closed when closed; consult the read policy (the `shouldTakeRead`
closure reads and sets the shared `didRead` flag) and raise read-cancelled
if it declines; otherwise capture `this.value`, increment `readSerial`,
`notifyOne` the write-completion Condition and return the captured value. -/
def readerBody (ch : ChanState) (didRead : Bool) (armsTook : Nat)
    (take : TakeKind) (tid : Nat) (k : Nat) (tasks : List Task) : RSegOut :=
  if ch.readSerial ≥ ch.writeSerial ∧ ch.closed = false then
    ⟨{ ch with readCV := ch.readCV ++ [some tid] }, didRead, armsTook, .rwait, tasks⟩
  else if ch.closed then
    ⟨ch, didRead, armsTook, .rdone (.error .closedE), tasks⟩
  else
    let takeRes : Bool × Bool × Nat :=
      match take with
      | .always => (true, didRead, armsTook)
      | .flagged => if didRead then (false, didRead, armsTook) else (true, true, armsTook + 1)
    if takeRes.1 = false then
      ⟨ch, takeRes.2.1, takeRes.2.2, .rdone (.error .readCancelledE), tasks⟩
    else
      let result := ch.value
      let ch2 := { ch with readSerial := ch.readSerial + 1 }
      let n := notifyOneRun ch2.writeReadCV k tasks
      let ch3 := { ch2 with writeReadCV := n.1 }
      if n.2.2 then ⟨ch3, takeRes.2.1, takeRes.2.2, .rdone (.error .fatalE), n.2.1⟩
      else ⟨{ ch3 with readLog := ch3.readLog ++ [result] },
            takeRes.2.1, takeRes.2.2, .rdone (.ok result), n.2.1⟩

/-- Output of one synchronous segment of a write. -/
structure WSegOut where
  ch : ChanState
  st : WStage
  tasks : List Task
deriving DecidableEq, Repr

/-- Unconditional epilogue of `write` (after the completion-wait loop exits
with `fromNotify = b`): bump `readSerial` when cancelled, clear the value
slot and `valueInTransit`, `notifyOne` the write-admission Condition, then
throw write-cancelled, throw closed, or return. -/
def writerEpilogue (ch : ChanState) (v : Val) (b : Bool) (k2 : Nat)
    (tasks : List Task) : WSegOut :=
  let ch1 := if b = false then { ch with readSerial := ch.readSerial + 1 } else ch
  let ch2 := { ch1 with value := none, valueInTransit := false }
  let n := notifyOneRun ch2.writeWriteCV k2 tasks
  let ch3 := { ch2 with writeWriteCV := n.1 }
  if n.2.2 then ⟨ch3, .wdone (some .fatalE), n.2.1⟩
  else if b = false then ⟨ch3, .wdone (some .writeCancelledE), n.2.1⟩
  else if ch3.closed then ⟨ch3, .wdone (some .closedE), n.2.1⟩
  else ⟨{ ch3 with writeLog := ch3.writeLog ++ [v] }, .wdone none, n.2.1⟩

/-- Synchronous segment of `write` starting at the top of the admission
loop: register on the write-admission Condition while a value is in transit
and the channel is open; raise closed when closed; otherwise publish the
value (set `valueInTransit`, store the value, increment `writeSerial`),
`notifyOne` the read Condition and enter the completion-wait loop — which
registers on the write-completion Condition when `readSerial` is still short
of the target, and otherwise falls straight through to the epilogue. -/
def writerBody (ch : ChanState) (v : Val) (tid k1 k2 : Nat)
    (tasks : List Task) : WSegOut :=
  if ch.valueInTransit = true ∧ ch.closed = false then
    ⟨{ ch with writeWriteCV := ch.writeWriteCV ++ [some tid] }, .admitWait, tasks⟩
  else if ch.closed then ⟨ch, .wdone (some .closedE), tasks⟩
  else
    let ch1 := { ch with valueInTransit := true, value := some v,
                         writeSerial := ch.writeSerial + 1 }
    let target := ch1.writeSerial
    let n := notifyOneRun ch1.readCV k1 tasks
    let ch2 := { ch1 with readCV := n.1 }
    if n.2.2 then ⟨ch2, .wdone (some .fatalE), n.2.1⟩
    else if ch2.readSerial < target ∧ ch2.closed = false then
      ⟨{ ch2 with writeReadCV := ch2.writeReadCV ++ [some tid] }, .commitWait target, n.2.1⟩
    else writerEpilogue ch2 v true k2 n.2.1

/-- Continuation of `write` after its completion wait resolved with `b`:
re-check the loop condition (`readSerial < target && !closed && fromNotify`)
and either wait again or run the epilogue. -/
def writerCommitResume (ch : ChanState) (v : Val) (t : Int) (b : Bool)
    (tid k2 : Nat) (tasks : List Task) : WSegOut :=
  if ch.readSerial < t ∧ ch.closed = false ∧ b = true then
    ⟨{ ch with writeReadCV := ch.writeReadCV ++ [some tid] }, .commitWait t, tasks⟩
  else writerEpilogue ch v b k2 tasks

/-- Continuation of a select-arm chain once its read settled: the
Promise.all variant runs `.then` (handler) on success and `.catch` on
failure, swallowing read-cancelled; the Promise.race variant runs `.catch`
first — swallowing read-cancelled into the value `undefined` — and then
`.then`, so a cancelled read still reaches the handler, with no value. -/
def armReadDoneNext (allVariant : Bool) (r : Except ChanErr (Option Val)) : ArmStage :=
  match allVariant, r with
  | true, .ok v => .thenPhase v
  | true, .error e => if e = ChanErr.readCancelledE then .armDone none else .armDone (some e)
  | false, .ok v => .thenPhase v
  | false, .error e => if e = ChanErr.readCancelledE then .thenPhase none else .armDone (some e)

/-- Settling of a select-arm chain when its handler body finishes: in the
Promise.all variant the trailing `.catch` also swallows a read-cancelled
thrown by the handler itself; in the Promise.race variant there is no catch
after the handler, so every handler error rejects the chain. -/
def armHandlerOutcome (allVariant : Bool) (hfail : Option ChanErr) : ArmStage :=
  match hfail with
  | none => .armDone none
  | some e =>
    if allVariant = true ∧ e = ChanErr.readCancelledE then .armDone none
    else .armDone (some e)

/-- One `runTask` scheduler step: execute the next synchronous segment of
task `i`, with `k1`/`k2` the random draws consumed by up to two `notifyOne`
calls inside the segment.  Suspended and settled tasks have no runnable
segment. -/
def runTaskStep (cfg : Config) (i k1 k2 : Nat) : Config :=
  match cfg.tasks.get? i with
  | none => cfg
  | some (.writer c v sig st) =>
    match cfg.channels.get? c with
    | none => cfg
    | some ch =>
      match st with
      | .start =>
        let o := writerBody ch v i k1 k2 cfg.tasks
        { setCh cfg c o.ch with tasks := o.tasks.set i (.writer c v sig o.st) }
      | .admitResumed b =>
        if b then
          let o := writerBody ch v i k1 k2 cfg.tasks
          { setCh cfg c o.ch with tasks := o.tasks.set i (.writer c v sig o.st) }
        else
          { cfg with tasks :=
              cfg.tasks.set i (.writer c v sig (.wdone (some .writeCancelledE))) }
      | .commitResumed t b =>
        let o := writerCommitResume ch v t b i k2 cfg.tasks
        { setCh cfg c o.ch with tasks := o.tasks.set i (.writer c v sig o.st) }
      | _ => cfg
  | some (.reader c sig st) =>
    match cfg.channels.get? c with
    | none => cfg
    | some ch =>
      match st with
      | .start =>
        let o := readerBody ch cfg.didRead cfg.armsTook .always i k1 cfg.tasks
        { setCh cfg c o.ch with
          tasks := o.tasks.set i (.reader c sig o.st),
          didRead := o.didRead,
          armsTook := o.armsTook }
      | .resumed b =>
        if b then
          let o := readerBody ch cfg.didRead cfg.armsTook .always i k1 cfg.tasks
          { setCh cfg c o.ch with
            tasks := o.tasks.set i (.reader c sig o.st),
            didRead := o.didRead,
            armsTook := o.armsTook }
        else
          { cfg with tasks :=
              cfg.tasks.set i (.reader c sig (.rdone (.error .readCancelledE))) }
      | _ => cfg
  | some (.arm av c idx hs hf ast) =>
    match ast with
    | .reading .start =>
      match cfg.channels.get? c with
      | none => cfg
      | some ch =>
        let take := if av then TakeKind.flagged else TakeKind.always
        let o := readerBody ch cfg.didRead cfg.armsTook take i k1 cfg.tasks
        { setCh cfg c o.ch with
          tasks := o.tasks.set i (.arm av c idx hs hf (.reading o.st)),
          didRead := o.didRead,
          armsTook := o.armsTook }
    | .reading (.resumed b) =>
      if b then
        match cfg.channels.get? c with
        | none => cfg
        | some ch =>
          let take := if av then TakeKind.flagged else TakeKind.always
          let o := readerBody ch cfg.didRead cfg.armsTook take i k1 cfg.tasks
          { setCh cfg c o.ch with
            tasks := o.tasks.set i (.arm av c idx hs hf (.reading o.st)),
            didRead := o.didRead,
            armsTook := o.armsTook }
      else
        { cfg with tasks :=
            cfg.tasks.set i (.arm av c idx hs hf (.reading (.rdone (.error .readCancelledE)))) }
    | .reading (.rdone r) =>
      { cfg with tasks := cfg.tasks.set i (.arm av c idx hs hf (armReadDoneNext av r)) }
    | .thenPhase v =>
      let cfg2 := fireAbort cfg cfg.selSig
      { cfg2 with
        tasks := cfg2.tasks.set i (.arm av c idx hs hf (.handlerRun v hs)),
        handlersRun := cfg2.handlersRun + 1,
        handlerValues := cfg2.handlerValues ++ [v] }
    | .handlerRun v n =>
      match n with
      | 0 =>
        { cfg with
          tasks := cfg.tasks.set i (.arm av c idx hs hf (armHandlerOutcome av hf)),
          handlersCompleted := cfg.handlersCompleted + 1 }
      | m + 1 =>
        { cfg with tasks := cfg.tasks.set i (.arm av c idx hs hf (.handlerRun v m)) }
    | _ => cfg

/-- A scheduler action. -/
inductive Act
  | runTask (i k1 k2 : Nat)
  | abortSig (s : Nat)
  | closeChan (c : Nat)
deriving DecidableEq, Repr

/-- One scheduler step. -/
def step (cfg : Config) : Act → Config
  | .runTask i k1 k2 => runTaskStep cfg i k1 k2
  | .abortSig s => fireAbort cfg s
  | .closeChan c => doClose cfg c

/-- Run a list of scheduler actions. -/
def run (cfg : Config) (acts : List Act) : Config := acts.foldl step cfg

/-! Observables of select configurations. -/

/-- Test: the task is a select arm. -/
def Task.isArmB : Task → Bool
  | .arm _ _ _ _ _ _ => true
  | _ => false

/-- Test the stage of an arm task. -/
def isArmStage (p : ArmStage → Bool) : Task → Bool
  | .arm _ _ _ _ _ st => p st
  | _ => false

/-- Number of arm tasks of a task list whose stage satisfies `p`. -/
def armCountL (tasks : List Task) (p : ArmStage → Bool) : Nat :=
  (tasks.filter (isArmStage p)).length

/-- Number of arm tasks whose stage satisfies `p`. -/
def armCount (cfg : Config) (p : ArmStage → Bool) : Nat :=
  armCountL cfg.tasks p

/-- Stage predicates used by the select observables. -/
def stAnyArm : ArmStage → Bool
  | _ => true

def stThenPhase : ArmStage → Bool
  | .thenPhase _ => true
  | _ => false

def stHandlerRun : ArmStage → Bool
  | .handlerRun _ _ => true
  | _ => false

def stRdoneOk : ArmStage → Bool
  | .reading (.rdone (.ok _)) => true
  | _ => false

def stArmDone : ArmStage → Bool
  | .armDone _ => true
  | _ => false

def stArmDoneOk : ArmStage → Bool
  | .armDone none => true
  | _ => false

def stArmDoneErr : ArmStage → Bool
  | .armDone (some _) => true
  | _ => false

/-- Promise.all over the arm chains has resolved: every chain resolved. -/
def selectResolvedOk (cfg : Config) : Bool :=
  armCount cfg stArmDoneOk = armCount cfg stAnyArm

/-- Promise.all over the arm chains has rejected: some chain rejected. -/
def selectRejected (cfg : Config) : Bool :=
  0 < armCount cfg stArmDoneErr

/-- The select call has returned (normally or by rethrowing). -/
def selectReturned (cfg : Config) : Bool :=
  selectResolvedOk cfg || selectRejected cfg

/-- Every sibling read chain has finalised. -/
def allArmsFinalised (cfg : Config) : Bool :=
  armCount cfg stArmDone = armCount cfg stAnyArm

/-! Invariant machinery for the serialization and select properties. -/

/-- Test: the task is suspended in the read wait-set of channel `c`. -/
def Task.isReadWaitOnB : Task → Nat → Bool
  | .reader c2 _ .rwait, c => c2 == c
  | .arm _ c2 _ _ _ (.reading .rwait), c => c2 == c
  | _, _ => false

/-- Test: the task is suspended in the write-admission wait-set of `c`. -/
def Task.isAdmitWaitOnB : Task → Nat → Bool
  | .writer c2 _ _ .admitWait, c => c2 == c
  | _, _ => false

/-- Test: the task is suspended in the write-completion wait-set of `c`. -/
def Task.isCommitWaitOnB : Task → Nat → Bool
  | .writer c2 _ _ (.commitWait _), c => c2 == c
  | _, _ => false

/-- Test: the task is a completion-waiting writer registered with abort
signal `s`. -/
def Task.isCommitWaitSigB : Task → Nat → Bool
  | .writer _ _ (some s2) (.commitWait _), s => s2 == s
  | _, _ => false

/-- Test: the task is a writer on channel `c` whose completion wait has
resolved but whose continuation has not run yet. -/
def Task.isResumedCommitOnB : Task → Nat → Bool
  | .writer c2 _ _ (.commitResumed _ _), c => c2 == c
  | _, _ => false

/-- Commit-phase data of a writer on channel `c`: its value, its target
serial, and the (pending or delivered) completion-wait outcome. -/
def Task.commitOn : Task → Nat → Option (Val × Int × Bool)
  | .writer c2 v _ (.commitWait t), c => if c2 = c then some (v, t, true) else none
  | .writer c2 v _ (.commitResumed t b), c => if c2 = c then some (v, t, b) else none
  | _, _ => none

/-- The commit-phase writers of channel `c`. -/
def committers (tasks : List Task) (c : Nat) : List (Val × Int × Bool) :=
  tasks.filterMap (Task.commitOn · c)

/-- The genuine (non-`undefined`) entries of a wait-set. -/
def cvEntries (cv : List Handler) : List Nat := cv.filterMap id

/-- Test task `tid` of the task list against `p`. -/
def taskAt (tasks : List Task) (tid : Nat) (p : Task → Bool) : Bool :=
  match tasks.get? tid with
  | some t => p t
  | none => false

/-- Well-formedness of one wait-set: genuine entries are pairwise distinct
and each names a task suspended in the matching wait. -/
def cvValidFor (tasks : List Task) (cv : List Handler) (p : Task → Bool) : Prop :=
  (cvEntries cv).Nodup ∧ ∀ tid ∈ cvEntries cv, taskAt tasks tid p = true

/-- No writer on channel `c` is in the resumed commit stage. -/
def noResumedCommit (tasks : List Task) (c : Nat) : Prop :=
  ∀ t ∈ tasks, Task.isResumedCommitOnB t c = false

/-- The completed reads not yet matched by a completed write. -/
def chTail (ch : ChanState) : List (Option Val) := ch.readLog.drop ch.writeLog.length

/-- Rendezvous phase of an open channel: either idle (no value in transit,
serials equal, logs matched, no commit-phase writer), or a value is in
transit and every commit-phase writer carries that value with the current
write serial and a truthful wakeup, with the three sub-phases published /
consumed / consume-crashed. -/
def chPhaseCore (tasks : List Task) (c : Nat) (ch : ChanState) : Prop :=
  (ch.valueInTransit = false ∧ ch.value = none ∧ ch.readSerial = ch.writeSerial ∧
    chTail ch = [] ∧ committers tasks c = []) ∨
  (ch.valueInTransit = true ∧ ch.value.isSome = true ∧
    (∀ x ∈ committers tasks c,
      some x.1 = ch.value ∧ x.2.1 = ch.writeSerial ∧ x.2.2 = true) ∧
    (committers tasks c).length ≤ 1 ∧
    ((ch.readSerial + 1 = ch.writeSerial ∧ chTail ch = [] ∧ noResumedCommit tasks c) ∨
     (ch.readSerial = ch.writeSerial ∧ chTail ch = [ch.value]) ∨
     (ch.readSerial = ch.writeSerial ∧ chTail ch = [] ∧ noResumedCommit tasks c)))

/-- Per-channel invariant: the successful writes, in order, are a prefix of
the successful reads, and open channels are in a coherent rendezvous
phase. -/
def chPhase (tasks : List Task) (c : Nat) (ch : ChanState) : Prop :=
  ch.readLog.take ch.writeLog.length = ch.writeLog.map some ∧
  (ch.closed = false → chPhaseCore tasks c ch)

/-- Full invariant of one channel, wait-set well-formedness included. -/
def chanInvAt (cfg : Config) (c : Nat) (ch : ChanState) : Prop :=
  cvValidFor cfg.tasks ch.readCV (Task.isReadWaitOnB · c) ∧
  cvValidFor cfg.tasks ch.writeReadCV (Task.isCommitWaitOnB · c) ∧
  cvValidFor cfg.tasks ch.writeWriteCV (Task.isAdmitWaitOnB · c) ∧
  chPhase cfg.tasks c ch

/-- Machine invariant. -/
def INV (cfg : Config) : Prop :=
  ∀ c < cfg.channels.length, chanInvAt cfg c (cfg.channels.getD c ChanState.fresh)

/-- `chanInvAt` with the task list passed directly. -/
def chanInvT (ts : List Task) (c : Nat) (ch : ChanState) : Prop :=
  cvValidFor ts ch.readCV (Task.isReadWaitOnB · c) ∧
  cvValidFor ts ch.writeReadCV (Task.isCommitWaitOnB · c) ∧
  cvValidFor ts ch.writeWriteCV (Task.isAdmitWaitOnB · c) ∧
  chPhase ts c ch

/-- `INV` on a channel-list/task-list pair. -/
def INVp (chs : List ChanState) (ts : List Task) : Prop :=
  ∀ c < chs.length, chanInvT ts c (chs.getD c ChanState.fresh)

/-- Firing signal `s` is serialization-safe: it cancels no completion-phase
write (admission-phase writes and reads may be cancelled freely). -/
def abortSafeB (tasks : List Task) (s : Nat) : Bool :=
  tasks.all (fun t => ! Task.isCommitWaitSigB t s)

/-- The random draw `k2` of a write-epilogue step does not invoke a
corrupted (`undefined`) entry of the write-admission wait-set: such an
invocation would raise a `TypeError` out of a completing write (a
consequence of the swap-remove slip in `removeFromHandlers`). -/
def epiloguePickSafeB (cfg : Config) (i k2 : Nat) : Bool :=
  match cfg.tasks.get? i with
  | some (.writer c _ _ (.commitResumed t b)) =>
    match cfg.channels.get? c with
    | some ch =>
      if ch.readSerial < t ∧ ch.closed = false ∧ b = true then true
      else
        decide (ch.writeWriteCV = []) ||
          !(ch.writeWriteCV.getD (k2 % ch.writeWriteCV.length) none == none)
    | none => true
  | _ => true

/-- Stepping a select-arm `.then` continuation fires the controller signal;
the fire must be serialization-safe. -/
def armThenAbortSafeB (cfg : Config) (i : Nat) : Bool :=
  match cfg.tasks.get? i with
  | some (.arm _ _ _ _ _ (.thenPhase _)) => abortSafeB cfg.tasks cfg.selSig
  | _ => true

/-- Serialization-safety of one action in a configuration. -/
def safeActB (cfg : Config) : Act → Bool
  | .runTask i _ k2 => epiloguePickSafeB cfg i k2 && armThenAbortSafeB cfg i
  | .abortSig s => abortSafeB cfg.tasks s
  | .closeChan _ => true

/-- Serialization-safety of a whole action sequence. -/
def safeRunB : Config → List Act → Bool
  | _, [] => true
  | cfg, a :: rest => safeActB cfg a && safeRunB (step cfg a) rest

/-- Test: the task is an arm of the Promise.race select variant. -/
def armAllVariantB : Task → Bool
  | .arm av _ _ _ _ _ => av
  | _ => true

/-- Every arm task of the list is a Promise.all arm. -/
def AllArmsAllL (tasks : List Task) : Prop := ∀ t ∈ tasks, armAllVariantB t = true

/-- The select under scrutiny is the Promise.all variant: every arm task
uses the `shouldTakeRead` hook. -/
def AllArmsAll (cfg : Config) : Prop := AllArmsAllL cfg.tasks

/-- Stage predicates that do not distinguish a suspended arm read from a
resumed one; the three counted stages all satisfy this. -/
def rstagePreserved (p : ArmStage → Bool) : Prop :=
  ∀ b : Bool, p (.reading (.resumed b)) = p (.reading .rwait)

/-- Task-list transformations that leave the select counting unchanged. -/
def selTasksOK (ts0 ts : List Task) : Prop :=
  armCountL ts stThenPhase = armCountL ts0 stThenPhase ∧
  armCountL ts stHandlerRun = armCountL ts0 stHandlerRun ∧
  armCountL ts stRdoneOk = armCountL ts0 stRdoneOk ∧
  (AllArmsAllL ts0 → AllArmsAllL ts)

/-- Inductive invariant of the Promise.all select: at most one read claim;
no claim while `didRead` is unset; handler starts split into completions
plus running handlers; and every handler start, pending `.then`
continuation or taken-but-unhandled read is covered by a claim. -/
def SelInv (cfg : Config) : Prop :=
  AllArmsAll cfg ∧
  cfg.armsTook ≤ 1 ∧
  (cfg.didRead = false → cfg.armsTook = 0) ∧
  cfg.handlersRun = cfg.handlersCompleted + armCount cfg stHandlerRun ∧
  cfg.handlersRun + armCount cfg stThenPhase + armCount cfg stRdoneOk ≤ cfg.armsTook

/-! Concrete scenarios used by the counterexample and witness theorems. -/

/-- A configuration on one fresh channel: a cancellable write of 5, plain
writes of 6 and 7, and two plain reads. -/
def serializationCfg : Config :=
  { channels := [ChanState.fresh],
    tasks := [Task.writer 0 5 (some 0) .start,
              Task.writer 0 6 none .start,
              Task.writer 0 7 none .start,
              Task.reader 0 none .start,
              Task.reader 0 none .start],
    fired := [], didRead := false, selSig := 99,
    armsTook := 0, handlersRun := 0, handlersCompleted := 0,
    handlerValues := [], closeCrashed := false }

/-- Schedule: the write of 5 publishes and suspends; its signal fires; a
read consumes the 5; the cancelled write bumps `readSerial` and throws; the
write of 6 then finds `readSerial` already at its target and completes
without any read; the write of 7 and the second read rendezvous normally. -/
def serializationScript : List Act :=
  [Act.runTask 0 0 0, Act.abortSig 0, Act.runTask 3 0 0, Act.runTask 0 0 0,
   Act.runTask 1 0 0, Act.runTask 2 0 0, Act.runTask 4 0 0, Act.runTask 2 0 0]

/-- A cancellation-free rendezvous on one fresh channel: one write of 3 and
one read. -/
def plainRendezvousCfg : Config :=
  { channels := [ChanState.fresh],
    tasks := [Task.writer 0 3 none .start, Task.reader 0 none .start],
    fired := [], didRead := false, selSig := 99,
    armsTook := 0, handlersRun := 0, handlersCompleted := 0,
    handlerValues := [], closeCrashed := false }

/-- Schedule for `plainRendezvousCfg`: write publishes, read consumes,
write completes. -/
def plainRendezvousScript : List Act :=
  [Act.runTask 0 0 0, Act.runTask 1 0 0, Act.runTask 0 0 0]

/-- A Promise.all select over a channel that gets closed and a channel that
stays empty. -/
def selectLateCfg : Config :=
  { channels := [ChanState.fresh, ChanState.fresh],
    tasks := [Task.arm true 0 0 0 none (.reading .start),
              Task.arm true 1 1 0 none (.reading .start)],
    fired := [], didRead := false, selSig := 5,
    armsTook := 0, handlersRun := 0, handlersCompleted := 0,
    handlerValues := [], closeCrashed := false }

/-- Schedule: channel 0 closes; arm 0 reads it, observes closed and its
chain rejects (the `.catch` does not swallow `ChannelClosedException`), so
the Promise.all rejects while the arm 1 read is still suspended. -/
def selectLateScript : List Act :=
  [Act.closeChan 0, Act.runTask 0 0 0, Act.runTask 0 0 0, Act.runTask 1 0 0]

/-- Two channels, each with a writer about to post (15 and 27), and a select
over both in the given implementation variant (true = Promise.all with
`shouldTakeRead`, false = Promise.race with `.catch` before `.then`). -/
def selectTwoPostedCfg (allVariant : Bool) : Config :=
  { channels := [ChanState.fresh, ChanState.fresh],
    tasks := [Task.writer 0 15 none .start,
              Task.writer 1 27 none .start,
              Task.arm allVariant 0 0 0 none (.reading .start),
              Task.arm allVariant 1 1 0 none (.reading .start)],
    fired := [], didRead := false, selSig := 5,
    armsTook := 0, handlersRun := 0, handlersCompleted := 0,
    handlerValues := [], closeCrashed := false }

/-- Schedule for `selectTwoPostedCfg`: both writers post, both arm reads
run, then each chain runs to rest. -/
def selectTwoPostedScript : List Act :=
  [Act.runTask 0 0 0, Act.runTask 1 0 0,
   Act.runTask 2 0 0, Act.runTask 3 0 0,
   Act.runTask 2 0 0, Act.runTask 3 0 0,
   Act.runTask 2 0 0, Act.runTask 3 0 0,
   Act.runTask 2 0 0, Act.runTask 3 0 0,
   Act.runTask 2 0 0, Act.runTask 3 0 0,
   Act.runTask 0 0 0, Act.runTask 1 0 0]

/-- One channel with one writer posting 42 and a single-option select in the
given variant. -/
def selectSingleCfg (allVariant : Bool) : Config :=
  { channels := [ChanState.fresh],
    tasks := [Task.writer 0 42 none .start,
              Task.arm allVariant 0 0 0 none (.reading .start)],
    fired := [], didRead := false, selSig := 5,
    armsTook := 0, handlersRun := 0, handlersCompleted := 0,
    handlerValues := [], closeCrashed := false }

/-- Schedule for `selectSingleCfg`: the writer posts, the arm reads and its
chain runs to rest, the writer completes. -/
def selectSingleScript : List Act :=
  [Act.runTask 0 0 0, Act.runTask 1 0 0, Act.runTask 1 0 0,
   Act.runTask 1 0 0, Act.runTask 1 0 0, Act.runTask 0 0 0]

/-- A channel with one suspended reader, one completion-waiting writer (its
value 9 in transit) and one admission-waiting writer. -/
def closeDemoChan : ChanState :=
  { ChanState.fresh with
    readCV := [some 0], writeReadCV := [some 1], writeWriteCV := [some 2],
    valueInTransit := true, value := some 9,
    writeSerial := minSafeInteger + 1 }

/-- The same channel immediately after `close`. -/
def closeDemoChanClosed : ChanState :=
  { closeDemoChan with
    closed := true,
    readCV := [],
    writeReadCV := [],
    writeWriteCV := [] }

/-- A configuration holding `closeDemoChan` plus a reader and a writer that
have not started; used to witness the close properties. -/
def closeDemoCfg : Config :=
  { channels := [closeDemoChan],
    tasks := [Task.reader 0 none .rwait,
              Task.writer 0 9 none (.commitWait (minSafeInteger + 1)),
              Task.writer 0 11 none .admitWait,
              Task.reader 0 none .start,
              Task.writer 0 12 none .start],
    fired := [], didRead := false, selSig := 99,
    armsTook := 0, handlersRun := 0, handlersCompleted := 0,
    handlerValues := [], closeCrashed := false }

/-- The demo configuration right after `close` ran. -/
def closeDemoCfg2 : Config := step closeDemoCfg (Act.closeChan 0)

/-! ## Theorems -/

/-- C1: with two pending waits, `notifyOne` drawing index 0 resolves waiter
0 as notified, but `removeFromHandlers` leaves the wait-set as
`[undefined]`: the record of waiter 1 is removed from the set (it can never
again be selected by `notifyOne`, `notifyAll` or cancellation cleanup, which
all act on the set) and the invalid entry `undefined` remains, which a later
`notifyOne` selects and invokes (a `TypeError`).  This refutes the claim
that the remaining record stays in the set and that no invalid entry enters
it. -/
theorem notifyOne_swapRemove_corrupts :
    (notifyOnePick [some 0, some 1] 0).1 = some 0 ∧
    (notifyOnePick [some 0, some 1] 0).2 = [none] ∧
    some 1 ∉ (notifyOnePick [some 0, some 1] 0).2 ∧
    (notifyOnePick (notifyOnePick [some 0, some 1] 0).2 0).1 = none := by
  decide

/-- C5: a `Condition.wait` entered with an already-aborted signal registers
the waiter but does not cancel immediately: no resolution happens during
the call (`immediateResult = none`, where the claim requires an immediate
`false`), and the registered waiter is later resolved by a notify — as
notified, not as cancelled. -/
theorem wait_preAborted_registers_without_cancelling :
    waitEntry [] 7 true = { handlers := [some 7], immediateResult := none } ∧
    (notifyOnePick (waitEntry [] 7 true).handlers 0).1 = some 7 := by
  decide

/-- C6: on a fresh semaphore with a free slot and no cancellation, the very
first `withSlot` call acquires handle 0, and the `if (!handle)` test treats
the number 0 as absent: `withSlot` returns aborted and never runs `fn`
(the slot is still released by the `finally`).  The next `withSlot`, which
acquires handle 1, behaves as specified. -/
theorem withSlot_first_acquisition_aborts :
    ((SemState.fresh 1).withSlotFree).aborted = true ∧
    ((SemState.fresh 1).withSlotFree).fnRan = false ∧
    ((SemState.fresh 1).withSlotFree).after.slots = 1 ∧
    ((SemState.fresh 1).withSlotFree).after.handles = ∅ ∧
    (((SemState.fresh 1).withSlotFree).after.withSlotFree).aborted = false ∧
    (((SemState.fresh 1).withSlotFree).after.withSlotFree).fnRan = true := by
  refine ⟨rfl, rfl, rfl, ?_, rfl, rfl⟩
  decide

/-- C8: `request` from Inert moves to InProgress and starts a run; any
N ≥ 1 requests during an in-flight run leave the job in Again having
started nothing; the end of the current run then starts exactly one
additional run (InProgress); and the end of that run, with no further
requests, returns the job to Inert and notifies the idle waiters. -/
theorem recurrentJob_coalesces (k m N : Nat) (hN : 1 ≤ N) :
    RJob.request { state := .Inert, hasDoingPromise := false,
                   runsStarted := k, idleNotifies := m }
      = { state := .InProgress, hasDoingPromise := true,
          runsStarted := k + 1, idleNotifies := m } ∧
    RJob.request^[N] { state := .InProgress, hasDoingPromise := true,
                       runsStarted := k, idleNotifies := m }
      = { state := .Again, hasDoingPromise := true,
          runsStarted := k, idleNotifies := m } ∧
    RJob.finishRun { state := .Again, hasDoingPromise := true,
                     runsStarted := k, idleNotifies := m }
      = { state := .InProgress, hasDoingPromise := true,
          runsStarted := k + 1, idleNotifies := m } ∧
    RJob.finishRun { state := .InProgress, hasDoingPromise := true,
                     runsStarted := k + 1, idleNotifies := m }
      = { state := .Inert, hasDoingPromise := false,
          runsStarted := k + 1, idleNotifies := m + 1 } := by
  refine ⟨rfl, ?_, rfl, rfl⟩
  obtain ⟨n, rfl⟩ : ∃ n, N = n + 1 := ⟨N - 1, (Nat.succ_pred_eq_of_pos hN).symm⟩
  rw [Function.iterate_succ_apply]
  exact Function.iterate_fixed rfl n

/-- C8 witness: three overlapping requests during a run coalesce into one
additional run. -/
theorem recurrentJob_coalesces_witness :
    (1 ≤ 3) ∧
    RJob.request^[3] { state := .InProgress, hasDoingPromise := true,
                       runsStarted := 1, idleNotifies := 0 }
      = { state := .Again, hasDoingPromise := true,
          runsStarted := 1, idleNotifies := 0 } :=
  ⟨by decide, (recurrentJob_coalesces 1 0 3 (by decide)).2.1⟩

/-- C10: a first `wait()` on a fresh governor (no prior admission, no other
outstanding wait, no cancellation) computes a sleep of exactly 0 ms — the
absent `lastTime` yields the `MAX_SAFE_INTEGER` delta so the catch-up term
clamps to 0 (whenever the wait period is at most `MAX_SAFE_INTEGER`), and
`prior = 0` zeroes the queueing term — returns true, records `lastTime`, and
leaves `outstanding` at 0. -/
theorem quotaGovernor_first_wait (rate now now2 : ℚ)
    (hper : 1000 / rate ≤ maxSafeInteger) :
    ((QuotaGovernor.fresh rate).waitModel now now2).sleepFor = 0 ∧
    ((QuotaGovernor.fresh rate).waitModel now now2).returned = true ∧
    ((QuotaGovernor.fresh rate).waitModel now now2).after
      = { waitPeriodMS := 1000 / rate, lastTime := some now2, outstanding := 0 } := by
  refine ⟨?_, rfl, rfl⟩
  show max (1000 / rate - maxSafeInteger) 0 + 1000 / rate * ((0 : Nat) : ℚ) = 0
  rw [max_eq_right (by linarith), Nat.cast_zero, mul_zero, add_zero]

/-- C10 witness: rate 10 per second (wait period 100 ms). -/
theorem quotaGovernor_first_wait_witness :
    (1000 / (10 : ℚ) ≤ maxSafeInteger) ∧
    ((QuotaGovernor.fresh 10).waitModel 500 510).sleepFor = 0 :=
  ⟨by norm_num [maxSafeInteger], (quotaGovernor_first_wait 10 500 510
      (by norm_num [maxSafeInteger])).1⟩

/-! Semaphore invariant induction for the handle-integrity claim. -/

theorem semInv_fresh (n : Nat) : SemState.Inv n (SemState.fresh n) := by
  simp [SemState.Inv, SemState.fresh]

theorem semInv_step {n : Nat} {s : SemState} (op : SemOp) (h : SemState.Inv n s) :
    SemState.Inv n (s.applyOp op) := by
  obtain ⟨hsum, hpos, hnext, hlt, hnodup, hiss, hsub⟩ := h
  cases op with
  | acquireCancelled => exact ⟨hsum, hpos, hnext, hlt, hnodup, hiss, hsub⟩
  | acquireOk =>
    by_cases hs : s.slots < 1
    · simp only [SemState.applyOp, if_pos hs]
      exact ⟨hsum, hpos, hnext, hlt, hnodup, hiss, hsub⟩
    · simp only [SemState.applyOp, if_neg hs, SemState.acquireOk]
      have hmem : s.nextHandle ∉ s.handles := fun hm => absurd (hlt _ hm) (lt_irrefl _)
      have hmemIss : s.nextHandle ∉ s.issued := fun hm => absurd (hiss _ hm) (lt_irrefl _)
      refine ⟨?_, by dsimp only; omega, by dsimp only; omega, ?_, ?_, ?_, ?_⟩
      · dsimp only
        rw [Finset.card_insert_of_not_mem hmem]
        push_cast
        omega
      · intro h hm
        dsimp only at hm ⊢
        rcases Finset.mem_insert.mp hm with h1 | h1
        · omega
        · have := hlt _ h1; omega
      · simpa [List.nodup_append] using ⟨hnodup, hmemIss⟩
      · intro h hm
        dsimp only at hm ⊢
        rcases List.mem_append.mp hm with h1 | h1
        · have := hiss _ h1; omega
        · simp only [List.mem_singleton] at h1; omega
      · intro h hm
        rcases Finset.mem_insert.mp hm with h1 | h1
        · subst h1; simp
        · exact List.mem_append_left _ (hsub _ h1)
  | release x =>
    cases x with
    | none => exact ⟨hsum, hpos, hnext, hlt, hnodup, hiss, hsub⟩
    | some hdl =>
      by_cases hm : hdl ∈ s.handles
      · simp only [SemState.applyOp, SemState.release, if_pos hm]
        refine ⟨?_, by dsimp only; omega, hnext, ?_, hnodup, hiss, ?_⟩
        · dsimp only
          rw [Finset.card_erase_of_mem hm]
          have hcard : 1 ≤ s.handles.card := Finset.card_pos.mpr ⟨hdl, hm⟩
          omega
        · intro h hh; exact hlt _ (Finset.mem_of_mem_erase hh)
        · intro h hh; exact hsub _ (Finset.mem_of_mem_erase hh)
      · simp only [SemState.applyOp, SemState.release, if_neg hm]
        exact ⟨hsum, hpos, hnext, hlt, hnodup, hiss, hsub⟩

theorem semInv_runOps (n : Nat) (ops : List SemOp) :
    SemState.Inv n (SemState.runOps n ops) := by
  suffices h : ∀ s, SemState.Inv n s → SemState.Inv n (ops.foldl SemState.applyOp s) by
    exact h _ (semInv_fresh n)
  induction ops with
  | nil => intro s hs; exact hs
  | cons a rest ih =>
    intro s hs
    exact ih _ (semInv_step a hs)

/-- C7: handle integrity.  Mutex: validity is being the current
`lockHandle` of a locked mutex, so at most one handle is valid, and
`release` leaves the state unchanged unless the mutex is locked and the
argument is the current handle.  Semaphore: after every operation sequence
from `new Semaphore(n)`, `slots + |outstanding| = n`, at most `n` handles
are outstanding, every handle ever issued is distinct, and `release` leaves
the state unchanged when the argument is `undefined` or not outstanding. -/
theorem handle_integrity :
    (∀ (m : MutexState) (h1 h2 : Int),
       m.validHandle h1 → m.validHandle h2 → h1 = h2) ∧
    (∀ (m : MutexState) (x : Option Int),
       ¬(m.locked = true ∧ x = some m.lockHandle) → m.release x = m) ∧
    (∀ (n : Nat) (ops : List SemOp),
       (SemState.runOps n ops).slots + ((SemState.runOps n ops).handles.card : Int)
         = (n : Int) ∧
       (SemState.runOps n ops).handles.card ≤ n ∧
       (SemState.runOps n ops).issued.Nodup ∧
       (∀ (x : Option Int), (∀ h, x = some h → h ∉ (SemState.runOps n ops).handles) →
          (SemState.runOps n ops).release x = SemState.runOps n ops)) := by
  refine ⟨?_, ?_, ?_⟩
  · rintro m h1 h2 ⟨_, rfl⟩ ⟨_, rfl⟩
    rfl
  · intro m x hx
    cases x with
    | none => rfl
    | some h =>
      simp only [MutexState.release]
      by_cases hl : m.locked
      · have hne : m.lockHandle ≠ h := by
          intro he; exact hx ⟨hl, by rw [he]⟩
        rw [if_neg (by simp [hl]), if_pos hne]
      · rw [if_pos (by simp [hl])]
  · intro n ops
    obtain ⟨hsum, hpos, _, _, hnodup, _, _⟩ := semInv_runOps n ops
    refine ⟨by exact_mod_cast hsum, ?_, hnodup, ?_⟩
    · have hcard : ((SemState.runOps n ops).handles.card : Int) ≤ (n : Int) := by omega
      exact_mod_cast hcard
    · intro x hx
      cases x with
      | none => rfl
      | some h =>
        simp only [SemState.release]
        rw [if_neg (hx h rfl)]

/-- C7 witness: a concrete mutex state and a concrete semaphore run. -/
theorem handle_integrity_witness :
    MutexState.fresh.release (some 3) = MutexState.fresh ∧
    (SemState.runOps 2 [.acquireOk, .release (some 0), .acquireOk]).handles.card ≤ 2 := by
  constructor
  · exact handle_integrity.2.1 MutexState.fresh (some 3) (by simp [MutexState.fresh])
  · exact (handle_integrity.2.2 2 [.acquireOk, .release (some 0), .acquireOk]).2.1

/-! Resolution lemmas for `close`. -/

theorem resumeTask_idem (t : Task) :
    resumeTask (resumeTask t true) true = resumeTask t true := by
  cases t with
  | writer c v sig st => cases st <;> rfl
  | reader c sig st => cases st <;> rfl
  | arm av c idx hs hf st =>
    cases st with
    | reading rst => cases rst <;> rfl
    | thenPhase v => rfl
    | handlerRun v n => rfl
    | armDone r => rfl

theorem resolveId_get_ne (tasks : List Task) (tid i : Nat) (b : Bool) (h : tid ≠ i) :
    (resolveId tasks tid b).get? i = tasks.get? i := by
  unfold resolveId
  cases hg : tasks.get? tid with
  | none => rfl
  | some t => exact List.get?_set_ne _ _ h

theorem resolveId_get_self (tasks : List Task) (i : Nat) (b : Bool) (t : Task)
    (h : tasks.get? i = some t) :
    (resolveId tasks i b).get? i = some (resumeTask t b) := by
  have hlt : i < tasks.length := by
    by_contra hge
    rw [List.get?_eq_none.mpr (Nat.le_of_not_lt hge)] at h
    exact Option.noConfusion h
  unfold resolveId
  rw [h, List.get?_set_eq_of_lt _ (by simpa using hlt)]

theorem notifyAllRun_noCrash (l : List Handler) (tasks : List Task)
    (h : none ∉ l) : (notifyAllRun l tasks).2 = false := by
  induction l generalizing tasks with
  | nil => rfl
  | cons a rest ih =>
    cases a with
    | none => exact absurd (List.mem_cons_self _ _) h
    | some j => exact ih _ (fun hm => h (List.mem_cons_of_mem _ hm))

theorem notifyAllRun_get_notMem (l : List Handler) (tasks : List Task) (i : Nat)
    (h : some i ∉ l) : (notifyAllRun l tasks).1.get? i = tasks.get? i := by
  induction l generalizing tasks with
  | nil => rfl
  | cons a rest ih =>
    cases a with
    | none => rfl
    | some j =>
      have hji : j ≠ i := by
        intro he; exact h (by rw [he]; exact List.mem_cons_self _ _)
      rw [show notifyAllRun (some j :: rest) tasks
            = notifyAllRun rest (resolveId tasks j true) from rfl,
          ih _ (fun hm => h (List.mem_cons_of_mem _ hm)),
          resolveId_get_ne _ _ _ _ hji]

theorem notifyAllRun_resolves (l : List Handler) (tasks : List Task) (i : Nat)
    (t : Task) (hn : none ∉ l) (hm : some i ∈ l) (hg : tasks.get? i = some t) :
    (notifyAllRun l tasks).1.get? i = some (resumeTask t true) := by
  induction l generalizing tasks t with
  | nil => exact absurd hm (List.not_mem_nil _)
  | cons a rest ih =>
    cases a with
    | none => exact absurd (List.mem_cons_self _ _) hn
    | some j =>
      have hn2 : none ∉ rest := fun hx => hn (List.mem_cons_of_mem _ hx)
      by_cases hji : j = i
      · subst hji
        have hres : (resolveId tasks j true).get? j = some (resumeTask t true) :=
          resolveId_get_self _ _ _ _ hg
        by_cases hmem : some j ∈ rest
        · have := ih (resolveId tasks j true) (resumeTask t true) hn2 hmem hres
          rw [show notifyAllRun (some j :: rest) tasks
                = notifyAllRun rest (resolveId tasks j true) from rfl]
          rw [this, resumeTask_idem]
        · rw [show notifyAllRun (some j :: rest) tasks
                = notifyAllRun rest (resolveId tasks j true) from rfl]
          rw [notifyAllRun_get_notMem _ _ _ hmem, hres]
      · have hmem : some i ∈ rest := by
          rcases List.mem_cons.mp hm with he | hr
          · exact absurd (Option.some.inj he.symm) hji
          · exact hr
        rw [show notifyAllRun (some j :: rest) tasks
              = notifyAllRun rest (resolveId tasks j true) from rfl]
        exact ih _ t hn2 hmem (by rw [resolveId_get_ne _ _ _ _ hji, hg])

/-! Close lemmas. -/

theorem doClose_noChannel (cfg : Config) (c : Nat)
    (hg : cfg.channels.get? c = none) : doClose cfg c = cfg := by
  unfold doClose; rw [hg]

theorem doClose_closed_noop (cfg : Config) (c : Nat) (ch : ChanState)
    (hg : cfg.channels.get? c = some ch) (hc : ch.closed = true) :
    doClose cfg c = cfg := by
  unfold doClose; rw [hg]; simp [hc]

theorem doClose_get_closed (cfg : Config) (c : Nat) (ch : ChanState)
    (hg : cfg.channels.get? c = some ch) :
    ∃ ch2, (doClose cfg c).channels.get? c = some ch2 ∧ ch2.closed = true := by
  have hlt : c < cfg.channels.length := by
    by_contra hge
    rw [List.get?_eq_none.mpr (Nat.le_of_not_lt hge)] at hg
    exact Option.noConfusion hg
  have hset : ∀ ch2 : ChanState, (cfg.channels.set c ch2).get? c = some ch2 :=
    fun ch2 => List.get?_set_eq_of_lt _ hlt
  simp only [doClose, hg, setCh]
  split
  · next hcl => exact ⟨ch, hg, hcl⟩
  · split
    · exact ⟨_, hset _, rfl⟩
    · split
      · exact ⟨_, hset _, rfl⟩
      · split
        · exact ⟨_, hset _, rfl⟩
        · exact ⟨_, hset _, rfl⟩

theorem notifyAllRun_get_fixed (l : List Handler) (tasks : List Task) (i : Nat)
    (t : Task) (hg : tasks.get? i = some t) (hfix : resumeTask t true = t) :
    (notifyAllRun l tasks).1.get? i = some t := by
  induction l generalizing tasks with
  | nil => exact hg
  | cons a rest ih =>
    cases a with
    | none => exact hg
    | some j =>
      by_cases hji : j = i
      · subst hji
        exact ih _ (by rw [resolveId_get_self _ _ _ _ hg, hfix])
      · exact ih _ (by rw [resolveId_get_ne _ _ _ _ hji, hg])

theorem closeChan_idem (cfg : Config) (c : Nat) :
    step (step cfg (.closeChan c)) (.closeChan c) = step cfg (.closeChan c) := by
  show doClose (doClose cfg c) c = doClose cfg c
  cases hg : cfg.channels.get? c with
  | none => rw [doClose_noChannel cfg c hg, doClose_noChannel cfg c hg]
  | some ch =>
    by_cases hc : ch.closed = true
    · rw [doClose_closed_noop cfg c ch hg hc, doClose_closed_noop cfg c ch hg hc]
    · obtain ⟨ch2, hg2, hc2⟩ := doClose_get_closed cfg c ch hg
      exact doClose_closed_noop _ c ch2 hg2 hc2

theorem close_resolves_reader (cfg : Config) (c : Nat) (ch : ChanState)
    (i : Nat) (sig : Option Nat)
    (hg : cfg.channels.get? c = some ch) (hc : ch.closed = false)
    (hn : none ∉ ch.readCV)
    (ht : cfg.tasks.get? i = some (.reader c sig .rwait))
    (hm : some i ∈ ch.readCV) :
    (step cfg (.closeChan c)).tasks.get? i
      = some (.reader c sig (.resumed true)) := by
  have h1 : (notifyAllRun ch.readCV cfg.tasks).1.get? i
      = some (Task.reader c sig (.resumed true)) :=
    notifyAllRun_resolves _ _ _ _ hn hm ht
  show (doClose cfg c).tasks.get? i = _
  simp only [doClose, hg, hc, Bool.false_eq_true, if_false,
             notifyAllRun_noCrash _ _ hn]
  split
  · dsimp only
    exact notifyAllRun_get_fixed _ _ _ _ h1 rfl
  · split
    · dsimp only
      exact notifyAllRun_get_fixed _ _ _ _
        (notifyAllRun_get_fixed _ _ _ _ h1 rfl) rfl
    · dsimp only
      exact notifyAllRun_get_fixed _ _ _ _
        (notifyAllRun_get_fixed _ _ _ _ h1 rfl) rfl

theorem close_resolves_commitWriter (cfg : Config) (c : Nat) (ch : ChanState)
    (i : Nat) (v : Val) (sig : Option Nat) (t : Int)
    (hg : cfg.channels.get? c = some ch) (hc : ch.closed = false)
    (hn1 : none ∉ ch.readCV) (hn2 : none ∉ ch.writeReadCV)
    (hi1 : some i ∉ ch.readCV)
    (ht : cfg.tasks.get? i = some (.writer c v sig (.commitWait t)))
    (hm : some i ∈ ch.writeReadCV) :
    (step cfg (.closeChan c)).tasks.get? i
      = some (.writer c v sig (.commitResumed t true)) := by
  have h1 : (notifyAllRun ch.readCV cfg.tasks).1.get? i
      = some (Task.writer c v sig (.commitWait t)) :=
    notifyAllRun_get_notMem _ _ _ hi1 |>.trans ht
  have h2 : (notifyAllRun ch.writeReadCV (notifyAllRun ch.readCV cfg.tasks).1).1.get? i
      = some (Task.writer c v sig (.commitResumed t true)) :=
    notifyAllRun_resolves _ _ _ _ hn2 hm h1
  show (doClose cfg c).tasks.get? i = _
  simp only [doClose, hg, hc, Bool.false_eq_true, if_false,
             notifyAllRun_noCrash _ _ hn1, notifyAllRun_noCrash _ _ hn2]
  split
  · dsimp only
    exact notifyAllRun_get_fixed _ _ _ _ h2 rfl
  · dsimp only
    exact notifyAllRun_get_fixed _ _ _ _ h2 rfl

theorem close_resolves_admitWriter (cfg : Config) (c : Nat) (ch : ChanState)
    (i : Nat) (v : Val) (sig : Option Nat)
    (hg : cfg.channels.get? c = some ch) (hc : ch.closed = false)
    (hn1 : none ∉ ch.readCV) (hn2 : none ∉ ch.writeReadCV)
    (hn3 : none ∉ ch.writeWriteCV)
    (hi1 : some i ∉ ch.readCV) (hi2 : some i ∉ ch.writeReadCV)
    (ht : cfg.tasks.get? i = some (.writer c v sig .admitWait))
    (hm : some i ∈ ch.writeWriteCV) :
    (step cfg (.closeChan c)).tasks.get? i
      = some (.writer c v sig (.admitResumed true)) := by
  have h1 : (notifyAllRun ch.readCV cfg.tasks).1.get? i
      = some (Task.writer c v sig .admitWait) :=
    notifyAllRun_get_notMem _ _ _ hi1 |>.trans ht
  have h2 : (notifyAllRun ch.writeReadCV (notifyAllRun ch.readCV cfg.tasks).1).1.get? i
      = some (Task.writer c v sig .admitWait) :=
    notifyAllRun_get_notMem _ _ _ hi2 |>.trans h1
  show (doClose cfg c).tasks.get? i = _
  simp only [doClose, hg, hc, Bool.false_eq_true, if_false,
             notifyAllRun_noCrash _ _ hn1, notifyAllRun_noCrash _ _ hn2,
             notifyAllRun_noCrash _ _ hn3]
  exact notifyAllRun_resolves _ _ _ _ hn3 hm h2

theorem set_get_of_get {α : Type} (l : List α) (i : Nat) (a0 a : α)
    (h : l.get? i = some a0) : (l.set i a).get? i = some a := by
  have hlt : i < l.length := by
    by_contra hge
    rw [List.get?_eq_none.mpr (Nat.le_of_not_lt hge)] at h
    exact Option.noConfusion h
  exact List.get?_set_eq_of_lt _ hlt

theorem readerStep_closed (cfg : Config) (c : Nat) (ch : ChanState)
    (i k1 k2 : Nat) (sig : Option Nat) (st : RStage)
    (hg : cfg.channels.get? c = some ch) (hc : ch.closed = true)
    (hst : st = .start ∨ st = .resumed true)
    (ht : cfg.tasks.get? i = some (.reader c sig st)) :
    (step cfg (.runTask i k1 k2)).tasks.get? i
      = some (.reader c sig (.rdone (.error .closedE))) ∧
    (step cfg (.runTask i k1 k2)).channels.get? c = some ch := by
  have hbody : readerBody ch cfg.didRead cfg.armsTook .always i k1 cfg.tasks
      = ⟨ch, cfg.didRead, cfg.armsTook, .rdone (.error .closedE), cfg.tasks⟩ := by
    unfold readerBody
    rw [if_neg (by simp [hc]), if_pos hc]
  rcases hst with rfl | rfl <;>
  · show (runTaskStep cfg i k1 k2).tasks.get? i = _ ∧
        (runTaskStep cfg i k1 k2).channels.get? c = _
    simp only [runTaskStep, ht, hg, hbody, if_true]
    exact ⟨set_get_of_get _ _ _ _ ht, set_get_of_get _ _ _ _ hg⟩

theorem writerStartStep_closed (cfg : Config) (c : Nat) (ch : ChanState)
    (i k1 k2 : Nat) (v : Val) (sig : Option Nat) (st : WStage)
    (hg : cfg.channels.get? c = some ch) (hc : ch.closed = true)
    (hst : st = .start ∨ st = .admitResumed true)
    (ht : cfg.tasks.get? i = some (.writer c v sig st)) :
    (step cfg (.runTask i k1 k2)).tasks.get? i
      = some (.writer c v sig (.wdone (some .closedE))) ∧
    (step cfg (.runTask i k1 k2)).channels.get? c = some ch := by
  have hbody : writerBody ch v i k1 k2 cfg.tasks
      = ⟨ch, .wdone (some .closedE), cfg.tasks⟩ := by
    unfold writerBody
    rw [if_neg (by simp [hc]), if_pos hc]
  rcases hst with rfl | rfl <;>
  · show (runTaskStep cfg i k1 k2).tasks.get? i = _ ∧
        (runTaskStep cfg i k1 k2).channels.get? c = _
    simp only [runTaskStep, ht, hg, hbody, if_true]
    exact ⟨set_get_of_get _ _ _ _ ht, set_get_of_get _ _ _ _ hg⟩

theorem writerCommitStep_closed (cfg : Config) (c : Nat) (ch : ChanState)
    (i k1 k2 : Nat) (v : Val) (sig : Option Nat) (t : Int)
    (hg : cfg.channels.get? c = some ch) (hc : ch.closed = true)
    (hw : ch.writeWriteCV = [])
    (ht : cfg.tasks.get? i = some (.writer c v sig (.commitResumed t true))) :
    (step cfg (.runTask i k1 k2)).tasks.get? i
      = some (.writer c v sig (.wdone (some .closedE))) ∧
    (step cfg (.runTask i k1 k2)).channels.get? c
      = some { ch with value := none, valueInTransit := false } ∧
    ((step cfg (.runTask i k1 k2)).channels.getD c ChanState.fresh).writeLog
      = ch.writeLog := by
  have hbody : writerCommitResume ch v t true i k2 cfg.tasks
      = ⟨{ ch with value := none, valueInTransit := false },
         .wdone (some .closedE), cfg.tasks⟩ := by
    unfold writerCommitResume writerEpilogue notifyOneRun
    rw [if_neg (by simp [hc])]
    simp only [hw, List.length_nil, Nat.lt_irrefl, if_true, if_neg (by simp : ¬(true = false))]
    simp [hc]
  show (runTaskStep cfg i k1 k2).tasks.get? i = _ ∧
      (runTaskStep cfg i k1 k2).channels.get? c = _ ∧
      ((runTaskStep cfg i k1 k2).channels.getD c ChanState.fresh).writeLog = _
  simp only [runTaskStep, ht, hg, hbody]
  refine ⟨set_get_of_get _ _ _ _ ht, set_get_of_get _ _ _ _ hg, ?_⟩
  have := set_get_of_get cfg.channels c ch
    { ch with value := none, valueInTransit := false } hg
  simp only [setCh, List.getD, this]
  rfl

/-- C4: close terminality.  (1) `close` is idempotent.  (2) A read pending
in the wait-set at the moment of an effective close is resolved notified,
as is a completion-waiting or admission-waiting write (hypotheses: the
records are present and the wait-sets processed up to them hold no
corrupted `undefined` entry).  (3) Once its channel is closed, a resolved
pending read or write settles, on its next scheduler step, by raising
channel-closed (a completion-phase writer also runs its epilogue without
logging a completed write).  (4) A read or write started after close
raises channel-closed on its first step, without touching the wait-sets
(no suspension).  Together: pending operations complete with channel-closed
and later operations fail immediately. -/
theorem channel_close_terminal :
    (∀ (cfg : Config) (c : Nat),
       step (step cfg (.closeChan c)) (.closeChan c) = step cfg (.closeChan c)) ∧
    (∀ (cfg : Config) (c : Nat) (ch : ChanState) (i : Nat) (sig : Option Nat),
       cfg.channels.get? c = some ch → ch.closed = false → none ∉ ch.readCV →
       cfg.tasks.get? i = some (.reader c sig .rwait) → some i ∈ ch.readCV →
       (step cfg (.closeChan c)).tasks.get? i
         = some (.reader c sig (.resumed true))) ∧
    (∀ (cfg : Config) (c : Nat) (ch : ChanState) (i : Nat) (v : Val)
       (sig : Option Nat) (t : Int),
       cfg.channels.get? c = some ch → ch.closed = false →
       none ∉ ch.readCV → none ∉ ch.writeReadCV → some i ∉ ch.readCV →
       cfg.tasks.get? i = some (.writer c v sig (.commitWait t)) →
       some i ∈ ch.writeReadCV →
       (step cfg (.closeChan c)).tasks.get? i
         = some (.writer c v sig (.commitResumed t true))) ∧
    (∀ (cfg : Config) (c : Nat) (ch : ChanState) (i : Nat) (v : Val)
       (sig : Option Nat),
       cfg.channels.get? c = some ch → ch.closed = false →
       none ∉ ch.readCV → none ∉ ch.writeReadCV → none ∉ ch.writeWriteCV →
       some i ∉ ch.readCV → some i ∉ ch.writeReadCV →
       cfg.tasks.get? i = some (.writer c v sig .admitWait) →
       some i ∈ ch.writeWriteCV →
       (step cfg (.closeChan c)).tasks.get? i
         = some (.writer c v sig (.admitResumed true))) ∧
    (∀ (cfg : Config) (c : Nat) (ch : ChanState) (i k1 k2 : Nat)
       (sig : Option Nat) (st : RStage),
       cfg.channels.get? c = some ch → ch.closed = true →
       st = .start ∨ st = .resumed true →
       cfg.tasks.get? i = some (.reader c sig st) →
       (step cfg (.runTask i k1 k2)).tasks.get? i
         = some (.reader c sig (.rdone (.error .closedE))) ∧
       (step cfg (.runTask i k1 k2)).channels.get? c = some ch) ∧
    (∀ (cfg : Config) (c : Nat) (ch : ChanState) (i k1 k2 : Nat) (v : Val)
       (sig : Option Nat) (st : WStage),
       cfg.channels.get? c = some ch → ch.closed = true →
       st = .start ∨ st = .admitResumed true →
       cfg.tasks.get? i = some (.writer c v sig st) →
       (step cfg (.runTask i k1 k2)).tasks.get? i
         = some (.writer c v sig (.wdone (some .closedE))) ∧
       (step cfg (.runTask i k1 k2)).channels.get? c = some ch) ∧
    (∀ (cfg : Config) (c : Nat) (ch : ChanState) (i k1 k2 : Nat) (v : Val)
       (sig : Option Nat) (t : Int),
       cfg.channels.get? c = some ch → ch.closed = true →
       ch.writeWriteCV = [] →
       cfg.tasks.get? i = some (.writer c v sig (.commitResumed t true)) →
       (step cfg (.runTask i k1 k2)).tasks.get? i
         = some (.writer c v sig (.wdone (some .closedE))) ∧
       ((step cfg (.runTask i k1 k2)).channels.getD c ChanState.fresh).writeLog
         = ch.writeLog) :=
  ⟨closeChan_idem,
   close_resolves_reader,
   fun cfg c ch i v sig t hg hc hn1 hn2 hi1 ht hm =>
     close_resolves_commitWriter cfg c ch i v sig t hg hc hn1 hn2 hi1 ht hm,
   fun cfg c ch i v sig hg hc hn1 hn2 hn3 hi1 hi2 ht hm =>
     close_resolves_admitWriter cfg c ch i v sig hg hc hn1 hn2 hn3 hi1 hi2 ht hm,
   fun cfg c ch i k1 k2 sig st hg hc hst ht =>
     readerStep_closed cfg c ch i k1 k2 sig st hg hc hst ht,
   fun cfg c ch i k1 k2 v sig st hg hc hst ht =>
     writerStartStep_closed cfg c ch i k1 k2 v sig st hg hc hst ht,
   fun cfg c ch i k1 k2 v sig t hg hc hw ht =>
     ⟨(writerCommitStep_closed cfg c ch i k1 k2 v sig t hg hc hw ht).1,
      (writerCommitStep_closed cfg c ch i k1 k2 v sig t hg hc hw ht).2.2⟩⟩

/-- C4 witness: a channel with a pending read, a completion-waiting write
and an admission-waiting write is closed; all three resolve notified; after
the close, the resolved and the late operations all settle channel-closed. -/
theorem channel_close_terminal_witness :
    step (step closeDemoCfg (.closeChan 0)) (.closeChan 0)
      = step closeDemoCfg (.closeChan 0) ∧
    closeDemoCfg2.tasks.get? 0 = some (.reader 0 none (.resumed true)) ∧
    closeDemoCfg2.tasks.get? 1
      = some (.writer 0 9 none (.commitResumed (minSafeInteger + 1) true)) ∧
    closeDemoCfg2.tasks.get? 2 = some (.writer 0 11 none (.admitResumed true)) ∧
    (step closeDemoCfg2 (.runTask 3 0 0)).tasks.get? 3
      = some (.reader 0 none (.rdone (.error .closedE))) ∧
    (step closeDemoCfg2 (.runTask 4 0 0)).tasks.get? 4
      = some (.writer 0 12 none (.wdone (some .closedE))) ∧
    (step closeDemoCfg2 (.runTask 0 0 0)).tasks.get? 0
      = some (.reader 0 none (.rdone (.error .closedE))) ∧
    (step closeDemoCfg2 (.runTask 2 0 0)).tasks.get? 2
      = some (.writer 0 11 none (.wdone (some .closedE))) ∧
    (step closeDemoCfg2 (.runTask 1 0 0)).tasks.get? 1
      = some (.writer 0 9 none (.wdone (some .closedE))) := by
  refine ⟨channel_close_terminal.1 closeDemoCfg 0,
    channel_close_terminal.2.1 closeDemoCfg 0 closeDemoChan 0 none
      (by decide) (by decide) (by decide) (by decide) (by decide),
    channel_close_terminal.2.2.1 closeDemoCfg 0 closeDemoChan 1 9 none
      (minSafeInteger + 1)
      (by decide) (by decide) (by decide) (by decide) (by decide) (by decide)
      (by decide),
    channel_close_terminal.2.2.2.1 closeDemoCfg 0 closeDemoChan 2 11 none
      (by decide) (by decide) (by decide) (by decide) (by decide) (by decide)
      (by decide) (by decide) (by decide),
    (channel_close_terminal.2.2.2.2.1 closeDemoCfg2 0 closeDemoChanClosed 3 0 0
      none .start (by decide) (by decide) (Or.inl rfl) (by decide)).1,
    (channel_close_terminal.2.2.2.2.2.1 closeDemoCfg2 0 closeDemoChanClosed 4 0 0
      12 none .start (by decide) (by decide) (Or.inl rfl) (by decide)).1,
    (channel_close_terminal.2.2.2.2.1 closeDemoCfg2 0 closeDemoChanClosed 0 0 0
      none (.resumed true) (by decide) (by decide) (Or.inr rfl) (by decide)).1,
    (channel_close_terminal.2.2.2.2.2.1 closeDemoCfg2 0 closeDemoChanClosed 2 0 0
      11 none (.admitResumed true) (by decide) (by decide) (Or.inr rfl)
      (by decide)).1,
    (channel_close_terminal.2.2.2.2.2.2 closeDemoCfg2 0 closeDemoChanClosed 1 0 0
      9 none (minSafeInteger + 1) (by decide) (by decide) (by decide)
      (by decide)).1⟩

/-! Select counting lemmas. -/

theorem filter_length_set {α : Type} (l : List α) (i : Nat) (a0 a : α) (p : α → Bool)
    (hg : l.get? i = some a0) :
    ((l.set i a).filter p).length + (if p a0 = true then 1 else 0)
      = (l.filter p).length + (if p a = true then 1 else 0) := by
  induction l generalizing i with
  | nil => exact absurd hg (by simp)
  | cons hd tl ih =>
    cases i with
    | zero =>
      have hga : hd = a0 := Option.some.inj hg
      subst hga
      simp only [List.set_cons_zero, List.filter_cons]
      by_cases h1 : p hd = true <;> by_cases h2 : p a = true <;>
        simp [h1, h2]
    | succ n =>
      have hg2 : tl.get? n = some a0 := hg
      have ihn := ih n hg2
      simp only [List.set_cons_succ, List.filter_cons]
      by_cases h1 : p hd = true
      · rw [if_pos h1, if_pos h1]
        simp only [List.length_cons]
        omega
      · rw [if_neg h1, if_neg h1]
        omega

theorem armCountL_set (tasks : List Task) (i : Nat) (t0 t : Task)
    (p : ArmStage → Bool) (hg : tasks.get? i = some t0)
    (hsame : isArmStage p t = isArmStage p t0) :
    armCountL (tasks.set i t) p = armCountL tasks p := by
  have := filter_length_set tasks i t0 t (isArmStage p) hg
  rw [hsame] at this
  unfold armCountL
  omega

theorem stThenPhase_rstage : rstagePreserved stThenPhase := fun _ => rfl

theorem stHandlerRun_rstage : rstagePreserved stHandlerRun := fun _ => rfl

theorem stRdoneOk_rstage : rstagePreserved stRdoneOk := fun _ => rfl

theorem isArmStage_resumeTask (p : ArmStage → Bool) (hp : rstagePreserved p)
    (t : Task) (b : Bool) : isArmStage p (resumeTask t b) = isArmStage p t := by
  cases t with
  | writer c v sig st => cases st <;> rfl
  | reader c sig st => cases st <;> rfl
  | arm av c idx hs hf st =>
    cases st with
    | reading rst => cases rst <;> first | rfl | exact hp b
    | thenPhase v => rfl
    | handlerRun v n => rfl
    | armDone r => rfl

theorem armAllVariantB_resumeTask (t : Task) (b : Bool) :
    armAllVariantB (resumeTask t b) = armAllVariantB t := by
  cases t with
  | writer c v sig st => cases st <;> rfl
  | reader c sig st => cases st <;> rfl
  | arm av c idx hs hf st =>
    cases st with
    | reading rst => cases rst <;> rfl
    | thenPhase v => rfl
    | handlerRun v n => rfl
    | armDone r => rfl

theorem allArmsL_set (tasks : List Task) (i : Nat) (t : Task)
    (h : AllArmsAllL tasks) (ht : armAllVariantB t = true) :
    AllArmsAllL (tasks.set i t) := by
  intro x hx
  rcases List.mem_or_eq_of_mem_set hx with hmem | rfl
  · exact h x hmem
  · exact ht

theorem selTasksOK_refl (ts : List Task) : selTasksOK ts ts :=
  ⟨rfl, rfl, rfl, fun h => h⟩

theorem selTasksOK_trans {ts0 ts1 ts2 : List Task}
    (h1 : selTasksOK ts0 ts1) (h2 : selTasksOK ts1 ts2) : selTasksOK ts0 ts2 :=
  ⟨h2.1.trans h1.1, h2.2.1.trans h1.2.1, h2.2.2.1.trans h1.2.2.1,
   fun h => h2.2.2.2 (h1.2.2.2 h)⟩

theorem selTasksOK_resolveId (tasks : List Task) (tid : Nat) (b : Bool) :
    selTasksOK tasks (resolveId tasks tid b) := by
  unfold resolveId
  cases hg : tasks.get? tid with
  | none => exact selTasksOK_refl _
  | some t =>
    refine ⟨armCountL_set _ _ _ _ _ hg (isArmStage_resumeTask _ stThenPhase_rstage t b),
      armCountL_set _ _ _ _ _ hg (isArmStage_resumeTask _ stHandlerRun_rstage t b),
      armCountL_set _ _ _ _ _ hg (isArmStage_resumeTask _ stRdoneOk_rstage t b), ?_⟩
    intro h
    exact allArmsL_set _ _ _ h (by
      rw [armAllVariantB_resumeTask]
      exact h t (List.get?_mem hg))

theorem selTasksOK_notifyOneRun (cv : List Handler) (k : Nat) (tasks : List Task) :
    selTasksOK tasks (notifyOneRun cv k tasks).2.1 := by
  unfold notifyOneRun
  split
  · exact selTasksOK_refl _
  · dsimp only
    split
    · exact selTasksOK_refl _
    · exact selTasksOK_resolveId _ _ _

theorem selTasksOK_notifyAllRun (l : List Handler) (tasks : List Task) :
    selTasksOK tasks (notifyAllRun l tasks).1 := by
  induction l generalizing tasks with
  | nil => exact selTasksOK_refl _
  | cons a rest ih =>
    cases a with
    | none => exact selTasksOK_refl _
    | some j => exact selTasksOK_trans (selTasksOK_resolveId _ _ _) (ih _)

theorem selTasksOK_abortOneTask (selSig : Nat) (channels : List ChanState)
    (tasks : List Task) (s i : Nat) :
    selTasksOK tasks (abortOneTask selSig channels tasks s i).2 := by
  have hset : ∀ (t0 : Task), tasks.get? i = some t0 →
      selTasksOK tasks (tasks.set i (resumeTask t0 false)) := by
    intro t0 hg
    refine ⟨armCountL_set _ _ _ _ _ hg
        (isArmStage_resumeTask _ stThenPhase_rstage t0 false),
      armCountL_set _ _ _ _ _ hg
        (isArmStage_resumeTask _ stHandlerRun_rstage t0 false),
      armCountL_set _ _ _ _ _ hg
        (isArmStage_resumeTask _ stRdoneOk_rstage t0 false), ?_⟩
    intro h
    exact allArmsL_set _ _ _ h (by
      rw [armAllVariantB_resumeTask]
      exact h t0 (List.get?_mem hg))
  cases hg : tasks.get? i with
  | none => simp only [abortOneTask, hg]; exact selTasksOK_refl _
  | some t =>
    cases t with
    | writer c v sig st =>
      cases sig with
      | none =>
        cases st <;> (simp only [abortOneTask, hg]; exact selTasksOK_refl _)
      | some s2 =>
        cases st with
        | admitWait =>
          simp only [abortOneTask, hg]
          split
          · split
            · exact hset _ hg
            · exact selTasksOK_refl _
          · exact selTasksOK_refl _
        | commitWait t =>
          simp only [abortOneTask, hg]
          split
          · split
            · exact hset _ hg
            · exact selTasksOK_refl _
          · exact selTasksOK_refl _
        | start => simp only [abortOneTask, hg]; exact selTasksOK_refl _
        | admitResumed b => simp only [abortOneTask, hg]; exact selTasksOK_refl _
        | commitResumed t b => simp only [abortOneTask, hg]; exact selTasksOK_refl _
        | wdone r => simp only [abortOneTask, hg]; exact selTasksOK_refl _
    | reader c sig st =>
      cases sig with
      | none =>
        cases st <;> (simp only [abortOneTask, hg]; exact selTasksOK_refl _)
      | some s2 =>
        cases st with
        | rwait =>
          simp only [abortOneTask, hg]
          split
          · split
            · exact hset _ hg
            · exact selTasksOK_refl _
          · exact selTasksOK_refl _
        | start => simp only [abortOneTask, hg]; exact selTasksOK_refl _
        | resumed b => simp only [abortOneTask, hg]; exact selTasksOK_refl _
        | rdone r => simp only [abortOneTask, hg]; exact selTasksOK_refl _
    | arm av c idx hs hf st =>
      cases st with
      | reading rst =>
        cases rst with
        | rwait =>
          simp only [abortOneTask, hg]
          split
          · split
            · exact hset _ hg
            · exact selTasksOK_refl _
          · exact selTasksOK_refl _
        | start => simp only [abortOneTask, hg]; exact selTasksOK_refl _
        | resumed b => simp only [abortOneTask, hg]; exact selTasksOK_refl _
        | rdone r => simp only [abortOneTask, hg]; exact selTasksOK_refl _
      | thenPhase v => simp only [abortOneTask, hg]; exact selTasksOK_refl _
      | handlerRun v n => simp only [abortOneTask, hg]; exact selTasksOK_refl _
      | armDone r => simp only [abortOneTask, hg]; exact selTasksOK_refl _

theorem selTasksOK_abortFold (selSig : Nat) (s : Nat) (l : List Nat)
    (st : List ChanState × List Task) :
    selTasksOK st.2
      (l.foldl (fun acc i => abortOneTask selSig acc.1 acc.2 s i) st).2 := by
  induction l generalizing st with
  | nil => exact selTasksOK_refl _
  | cons a rest ih =>
    exact selTasksOK_trans (selTasksOK_abortOneTask selSig st.1 st.2 s a) (ih _)

theorem fireAbort_tasks (cfg : Config) (s : Nat) :
    selTasksOK cfg.tasks (fireAbort cfg s).tasks ∧
    (fireAbort cfg s).didRead = cfg.didRead ∧
    (fireAbort cfg s).armsTook = cfg.armsTook ∧
    (fireAbort cfg s).handlersRun = cfg.handlersRun ∧
    (fireAbort cfg s).handlersCompleted = cfg.handlersCompleted := by
  unfold fireAbort
  split
  · exact ⟨selTasksOK_refl _, rfl, rfl, rfl, rfl⟩
  · exact ⟨selTasksOK_abortFold _ _ _ _, rfl, rfl, rfl, rfl⟩

theorem nonArm_stage (t : Task) (h : Task.isArmB t = false) (p : ArmStage → Bool) :
    isArmStage p t = false := by
  cases t with
  | writer c v sig st => rfl
  | reader c sig st => rfl
  | arm av c idx hs hf st => exact absurd h (by simp [Task.isArmB])

theorem nonArm_variant (t : Task) (h : Task.isArmB t = false) :
    armAllVariantB t = true := by
  cases t with
  | writer c v sig st => rfl
  | reader c sig st => rfl
  | arm av c idx hs hf st => exact absurd h (by simp [Task.isArmB])

theorem notifyOneRun_get_fixedPoint (cv : List Handler) (k : Nat)
    (tasks : List Task) (i : Nat) (t0 : Task) (hg : tasks.get? i = some t0)
    (hfix : resumeTask t0 true = t0) :
    (notifyOneRun cv k tasks).2.1.get? i = some t0 := by
  unfold notifyOneRun
  split
  · exact hg
  · dsimp only
    split
    · exact hg
    · next tid _ =>
      by_cases hti : tid = i
      · subst hti
        rw [resolveId_get_self _ _ _ _ hg, hfix]
      · rw [resolveId_get_ne _ _ _ _ hti]
        exact hg

theorem readerBody_tasks (ch : ChanState) (didRead : Bool) (armsTook : Nat)
    (take : TakeKind) (tid k : Nat) (tasks : List Task) :
    (readerBody ch didRead armsTook take tid k tasks).tasks = tasks ∨
    (readerBody ch didRead armsTook take tid k tasks).tasks
      = (notifyOneRun ch.writeReadCV k tasks).2.1 := by
  unfold readerBody
  dsimp only
  cases take <;> (repeat' split) <;>
    first
      | exact Or.inl rfl
      | exact Or.inr rfl

theorem readerBody_selOK (ch : ChanState) (didRead : Bool) (armsTook : Nat)
    (take : TakeKind) (tid k : Nat) (tasks : List Task) :
    selTasksOK tasks (readerBody ch didRead armsTook take tid k tasks).tasks := by
  rcases readerBody_tasks ch didRead armsTook take tid k tasks with h | h <;> rw [h]
  · exact selTasksOK_refl _
  · exact selTasksOK_notifyOneRun _ _ _

theorem readerBody_fixed (ch : ChanState) (didRead : Bool) (armsTook : Nat)
    (take : TakeKind) (tid k : Nat) (tasks : List Task) (i : Nat) (t0 : Task)
    (hg : tasks.get? i = some t0) (hfix : resumeTask t0 true = t0) :
    (readerBody ch didRead armsTook take tid k tasks).tasks.get? i = some t0 := by
  rcases readerBody_tasks ch didRead armsTook take tid k tasks with h | h <;> rw [h]
  · exact hg
  · exact notifyOneRun_get_fixedPoint _ _ _ _ _ hg hfix

theorem writerEpilogue_tasks (ch : ChanState) (v : Val) (b : Bool) (k2 : Nat)
    (tasks : List Task) :
    ∃ cv, (writerEpilogue ch v b k2 tasks).tasks = (notifyOneRun cv k2 tasks).2.1 := by
  unfold writerEpilogue
  dsimp only
  refine ⟨(if b = false then { ch with readSerial := ch.readSerial + 1 } else ch).writeWriteCV, ?_⟩
  (repeat' split) <;> rfl

theorem writerBody_tasks (ch : ChanState) (v : Val) (tid k1 k2 : Nat)
    (tasks : List Task) :
    (writerBody ch v tid k1 k2 tasks).tasks = tasks ∨
    (writerBody ch v tid k1 k2 tasks).tasks = (notifyOneRun ch.readCV k1 tasks).2.1 ∨
    ∃ cv, (writerBody ch v tid k1 k2 tasks).tasks
      = (notifyOneRun cv k2 (notifyOneRun ch.readCV k1 tasks).2.1).2.1 := by
  unfold writerBody
  dsimp only
  (repeat' split) <;>
    first
      | exact Or.inl rfl
      | exact Or.inr (Or.inl rfl)
      | exact Or.inr (Or.inr (writerEpilogue_tasks _ _ _ _ _))

theorem writerBody_selOK (ch : ChanState) (v : Val) (tid k1 k2 : Nat)
    (tasks : List Task) :
    selTasksOK tasks (writerBody ch v tid k1 k2 tasks).tasks := by
  rcases writerBody_tasks ch v tid k1 k2 tasks with h | h | ⟨cv, h⟩ <;> rw [h]
  · exact selTasksOK_refl _
  · exact selTasksOK_notifyOneRun _ _ _
  · exact selTasksOK_trans (selTasksOK_notifyOneRun _ _ _) (selTasksOK_notifyOneRun _ _ _)

theorem writerBody_fixed (ch : ChanState) (v : Val) (tid k1 k2 : Nat)
    (tasks : List Task) (i : Nat) (t0 : Task)
    (hg : tasks.get? i = some t0) (hfix : resumeTask t0 true = t0) :
    (writerBody ch v tid k1 k2 tasks).tasks.get? i = some t0 := by
  rcases writerBody_tasks ch v tid k1 k2 tasks with h | h | ⟨cv, h⟩ <;> rw [h]
  · exact hg
  · exact notifyOneRun_get_fixedPoint _ _ _ _ _ hg hfix
  · exact notifyOneRun_get_fixedPoint _ _ _ _ _
      (notifyOneRun_get_fixedPoint _ _ _ _ _ hg hfix) hfix

theorem writerCommitResume_tasks (ch : ChanState) (v : Val) (t : Int) (b : Bool)
    (tid k2 : Nat) (tasks : List Task) :
    (writerCommitResume ch v t b tid k2 tasks).tasks = tasks ∨
    ∃ cv, (writerCommitResume ch v t b tid k2 tasks).tasks
      = (notifyOneRun cv k2 tasks).2.1 := by
  unfold writerCommitResume
  (repeat' split) <;>
    first
      | exact Or.inl rfl
      | exact Or.inr (writerEpilogue_tasks _ _ _ _ _)

theorem writerCommitResume_selOK (ch : ChanState) (v : Val) (t : Int) (b : Bool)
    (tid k2 : Nat) (tasks : List Task) :
    selTasksOK tasks (writerCommitResume ch v t b tid k2 tasks).tasks := by
  rcases writerCommitResume_tasks ch v t b tid k2 tasks with h | ⟨cv, h⟩ <;> rw [h]
  · exact selTasksOK_refl _
  · exact selTasksOK_notifyOneRun _ _ _

theorem writerCommitResume_fixed (ch : ChanState) (v : Val) (t : Int) (b : Bool)
    (tid k2 : Nat) (tasks : List Task) (i : Nat) (t0 : Task)
    (hg : tasks.get? i = some t0) (hfix : resumeTask t0 true = t0) :
    (writerCommitResume ch v t b tid k2 tasks).tasks.get? i = some t0 := by
  rcases writerCommitResume_tasks ch v t b tid k2 tasks with h | ⟨cv, h⟩ <;> rw [h]
  · exact hg
  · exact notifyOneRun_get_fixedPoint _ _ _ _ _ hg hfix

theorem readerBody_always_counters (ch : ChanState) (didRead : Bool)
    (armsTook : Nat) (tid k : Nat) (tasks : List Task) :
    (readerBody ch didRead armsTook .always tid k tasks).didRead = didRead ∧
    (readerBody ch didRead armsTook .always tid k tasks).armsTook = armsTook := by
  unfold readerBody
  dsimp only
  (repeat' split) <;> exact ⟨rfl, rfl⟩

theorem selInv_of_parts (cfg cfg2 : Config) (hinv : SelInv cfg)
    (hdr2 : cfg2.didRead = cfg.didRead) (hat : cfg2.armsTook = cfg.armsTook)
    (hhr : cfg2.handlersRun = cfg.handlersRun)
    (hhc : cfg2.handlersCompleted = cfg.handlersCompleted)
    (hTP : armCount cfg2 stThenPhase = armCount cfg stThenPhase)
    (hHR : armCount cfg2 stHandlerRun = armCount cfg stHandlerRun)
    (hRO : armCount cfg2 stRdoneOk = armCount cfg stRdoneOk)
    (hAA : AllArmsAll cfg2) : SelInv cfg2 := by
  obtain ⟨_, htook, hdr, hrun, hbound⟩ := hinv
  refine ⟨hAA, ?_, ?_, ?_, ?_⟩
  · rw [hat]; exact htook
  · rw [hdr2, hat]; exact hdr
  · rw [hhr, hhc, hHR]; exact hrun
  · rw [hhr, hat, hTP, hRO]; exact hbound

theorem abortOneTask_shape (selSig : Nat) (channels : List ChanState)
    (tasks : List Task) (s i : Nat) :
    (abortOneTask selSig channels tasks s i).2 = tasks ∨
    ∃ t0, tasks.get? i = some t0 ∧
      (abortOneTask selSig channels tasks s i).2
        = tasks.set i (resumeTask t0 false) := by
  cases hg : tasks.get? i with
  | none => simp only [abortOneTask, hg]; left; trivial
  | some t =>
    cases t with
    | writer c v sig st =>
      cases sig with
      | none =>
        cases st <;> (simp only [abortOneTask, hg]; left; trivial)
      | some s2 =>
        cases st <;> simp only [abortOneTask, hg] <;> (repeat' split) <;>
          first
            | (left; trivial)
            | exact Or.inr ⟨_, rfl, rfl⟩
    | reader c sig st =>
      cases sig with
      | none =>
        cases st <;> (simp only [abortOneTask, hg]; left; trivial)
      | some s2 =>
        cases st <;> simp only [abortOneTask, hg] <;> (repeat' split) <;>
          first
            | (left; trivial)
            | exact Or.inr ⟨_, rfl, rfl⟩
    | arm av c idx hs hf st =>
      cases st with
      | reading rst =>
        cases rst <;> simp only [abortOneTask, hg] <;> (repeat' split) <;>
          first
            | (left; trivial)
            | exact Or.inr ⟨_, rfl, rfl⟩
      | thenPhase v =>
        simp only [abortOneTask, hg]; left; trivial
      | handlerRun v n =>
        simp only [abortOneTask, hg]; left; trivial
      | armDone r =>
        simp only [abortOneTask, hg]; left; trivial

theorem abortOneTask_get_fixed (selSig : Nat) (channels : List ChanState)
    (tasks : List Task) (s j i : Nat) (t0 : Task)
    (hg : tasks.get? i = some t0) (hfix : resumeTask t0 false = t0) :
    (abortOneTask selSig channels tasks s j).2.get? i = tasks.get? i := by
  rcases abortOneTask_shape selSig channels tasks s j with hsh | ⟨tj, hgj, hsh⟩ <;>
    rw [hsh]
  by_cases hji : j = i
  · subst hji
    have : tj = t0 := Option.some.inj (hgj.symm.trans hg)
    subst this
    rw [hfix, hg]
    exact set_get_of_get _ _ _ _ hg
  · exact List.get?_set_ne _ _ hji

theorem abortFold_get_fixed (selSig s : Nat) (l : List Nat)
    (st : List ChanState × List Task) (i : Nat) (t0 : Task)
    (hg : st.2.get? i = some t0) (hfix : resumeTask t0 false = t0) :
    (l.foldl (fun acc j => abortOneTask selSig acc.1 acc.2 s j) st).2.get? i
      = some t0 := by
  induction l generalizing st with
  | nil => exact hg
  | cons a rest ih =>
    apply ih
    rw [abortOneTask_get_fixed selSig st.1 st.2 s a i t0 hg hfix]
    exact hg

theorem fireAbort_get_fixed (cfg : Config) (s : Nat) (i : Nat) (t0 : Task)
    (hg : cfg.tasks.get? i = some t0) (hfix : resumeTask t0 false = t0) :
    (fireAbort cfg s).tasks.get? i = some t0 := by
  unfold fireAbort
  split
  · exact hg
  · exact abortFold_get_fixed cfg.selSig s _ (cfg.channels, cfg.tasks) i t0 hg hfix

theorem doClose_selTasks (cfg : Config) (c : Nat) :
    selTasksOK cfg.tasks (doClose cfg c).tasks ∧
    (doClose cfg c).didRead = cfg.didRead ∧
    (doClose cfg c).armsTook = cfg.armsTook ∧
    (doClose cfg c).handlersRun = cfg.handlersRun ∧
    (doClose cfg c).handlersCompleted = cfg.handlersCompleted := by
  unfold doClose
  cases hg : cfg.channels.get? c with
  | none => exact ⟨selTasksOK_refl _, rfl, rfl, rfl, rfl⟩
  | some ch =>
    dsimp only
    (repeat' split) <;>
      refine ⟨?_, rfl, rfl, rfl, rfl⟩ <;>
      first
        | exact selTasksOK_refl _
        | exact selTasksOK_notifyAllRun _ _
        | exact selTasksOK_trans (selTasksOK_notifyAllRun _ _)
            (selTasksOK_notifyAllRun _ _)
        | exact selTasksOK_trans (selTasksOK_trans (selTasksOK_notifyAllRun _ _)
            (selTasksOK_notifyAllRun _ _)) (selTasksOK_notifyAllRun _ _)

theorem selInv_leaf_mono (cfg cfg2 : Config) (ts1 : List Task) (i : Nat)
    (t0 t : Task) (h : SelInv cfg) (htasks : cfg2.tasks = ts1.set i t)
    (hdr2 : cfg2.didRead = cfg.didRead) (hat : cfg2.armsTook = cfg.armsTook)
    (hhr : cfg2.handlersRun = cfg.handlersRun)
    (hhc : cfg2.handlersCompleted = cfg.handlersCompleted)
    (hok : selTasksOK cfg.tasks ts1) (hg1 : ts1.get? i = some t0)
    (eHR : isArmStage stHandlerRun t = isArmStage stHandlerRun t0)
    (mono : (if isArmStage stThenPhase t = true then 1 else 0)
              + (if isArmStage stRdoneOk t = true then 1 else 0)
            ≤ (if isArmStage stThenPhase t0 = true then 1 else 0)
              + (if isArmStage stRdoneOk t0 = true then 1 else 0))
    (eAV : armAllVariantB t = true) : SelInv cfg2 := by
  obtain ⟨hall, htook, hdr, hrun, hbound⟩ := h
  have fTP := filter_length_set ts1 i t0 t (isArmStage stThenPhase) hg1
  have fHR := filter_length_set ts1 i t0 t (isArmStage stHandlerRun) hg1
  have fRO := filter_length_set ts1 i t0 t (isArmStage stRdoneOk) hg1
  have okTP : armCountL ts1 stThenPhase = armCountL cfg.tasks stThenPhase := hok.1
  have okHR : armCountL ts1 stHandlerRun = armCountL cfg.tasks stHandlerRun := hok.2.1
  have okRO : armCountL ts1 stRdoneOk = armCountL cfg.tasks stRdoneOk := hok.2.2.1
  refine ⟨?_, ?_, ?_, ?_, ?_⟩
  · show AllArmsAllL cfg2.tasks
    rw [htasks]
    exact allArmsL_set _ _ _ (hok.2.2.2 hall) eAV
  · rw [hat]; exact htook
  · rw [hdr2, hat]; exact hdr
  · show cfg2.handlersRun = cfg2.handlersCompleted + armCountL cfg2.tasks stHandlerRun
    rw [hhr, hhc, htasks]
    rw [eHR] at fHR
    simp only [armCount, armCountL] at *
    omega
  · show cfg2.handlersRun + armCountL cfg2.tasks stThenPhase
        + armCountL cfg2.tasks stRdoneOk ≤ cfg2.armsTook
    rw [hhr, hat, htasks]
    simp only [armCount, armCountL] at *
    omega

theorem selInv_take_leaf (cfg cfg2 : Config) (ts1 : List Task) (i : Nat)
    (t0 t : Task) (h : SelInv cfg) (htasks : cfg2.tasks = ts1.set i t)
    (hdro : cfg.didRead = false) (hdrt : cfg2.didRead = true)
    (hat : cfg2.armsTook = cfg.armsTook + 1)
    (hhr : cfg2.handlersRun = cfg.handlersRun)
    (hhc : cfg2.handlersCompleted = cfg.handlersCompleted)
    (hok : selTasksOK cfg.tasks ts1) (hg1 : ts1.get? i = some t0)
    (eTPt : isArmStage stThenPhase t = false)
    (eHRt : isArmStage stHandlerRun t = isArmStage stHandlerRun t0)
    (eTP0 : isArmStage stThenPhase t0 = false)
    (eRO0 : isArmStage stRdoneOk t0 = false)
    (eAV : armAllVariantB t = true) : SelInv cfg2 := by
  obtain ⟨hall, htook, hdr, hrun, hbound⟩ := h
  have hz : cfg.armsTook = 0 := hdr hdro
  have fTP := filter_length_set ts1 i t0 t (isArmStage stThenPhase) hg1
  have fHR := filter_length_set ts1 i t0 t (isArmStage stHandlerRun) hg1
  have fRO := filter_length_set ts1 i t0 t (isArmStage stRdoneOk) hg1
  have okTP : armCountL ts1 stThenPhase = armCountL cfg.tasks stThenPhase := hok.1
  have okHR : armCountL ts1 stHandlerRun = armCountL cfg.tasks stHandlerRun := hok.2.1
  have okRO : armCountL ts1 stRdoneOk = armCountL cfg.tasks stRdoneOk := hok.2.2.1
  rw [eTPt, eTP0] at fTP
  rw [eHRt] at fHR
  rw [eRO0] at fRO
  refine ⟨?_, ?_, ?_, ?_, ?_⟩
  · show AllArmsAllL cfg2.tasks
    rw [htasks]
    exact allArmsL_set _ _ _ (hok.2.2.2 hall) eAV
  · rw [hat, hz]
  · intro hfalse
    rw [hdrt] at hfalse
    cases hfalse
  · show cfg2.handlersRun = cfg2.handlersCompleted + armCountL cfg2.tasks stHandlerRun
    rw [hhr, hhc, htasks]
    simp only [armCount, armCountL] at *
    omega
  · show cfg2.handlersRun + armCountL cfg2.tasks stThenPhase
        + armCountL cfg2.tasks stRdoneOk ≤ cfg2.armsTook
    rw [hhr, hat, hz, htasks]
    simp only [armCount, armCountL] at *
    have hsplit : (if isArmStage stRdoneOk t = true then 1 else 0) ≤ 1 := by
      split <;> omega
    omega

theorem selInv_thenPhase_leaf (cfg : Config) (i : Nat) (av : Bool)
    (c idx hs : Nat) (hf : Option ChanErr) (v : Option Val) (h : SelInv cfg)
    (hgt : cfg.tasks.get? i = some (.arm av c idx hs hf (.thenPhase v))) :
    SelInv { fireAbort cfg cfg.selSig with
      tasks := (fireAbort cfg cfg.selSig).tasks.set i
        (.arm av c idx hs hf (.handlerRun v hs)),
      handlersRun := (fireAbort cfg cfg.selSig).handlersRun + 1,
      handlerValues := (fireAbort cfg cfg.selSig).handlerValues ++ [v] } := by
  obtain ⟨hall, htook, hdr, hrun, hbound⟩ := h
  obtain ⟨hokF, f1, f2, f3, f4⟩ := fireAbort_tasks cfg cfg.selSig
  have hav : armAllVariantB (Task.arm av c idx hs hf (.thenPhase v)) = true :=
    hall _ (List.get?_mem hgt)
  have hg1 : (fireAbort cfg cfg.selSig).tasks.get? i
      = some (.arm av c idx hs hf (.thenPhase v)) :=
    fireAbort_get_fixed cfg cfg.selSig i _ hgt rfl
  set ts1 := (fireAbort cfg cfg.selSig).tasks with hts1
  have fTP := filter_length_set ts1 i _ (Task.arm av c idx hs hf (.handlerRun v hs))
    (isArmStage stThenPhase) hg1
  have fHR := filter_length_set ts1 i _ (Task.arm av c idx hs hf (.handlerRun v hs))
    (isArmStage stHandlerRun) hg1
  have fRO := filter_length_set ts1 i _ (Task.arm av c idx hs hf (.handlerRun v hs))
    (isArmStage stRdoneOk) hg1
  have okTP : armCountL ts1 stThenPhase = armCountL cfg.tasks stThenPhase := hokF.1
  have okHR : armCountL ts1 stHandlerRun = armCountL cfg.tasks stHandlerRun := hokF.2.1
  have okRO : armCountL ts1 stRdoneOk = armCountL cfg.tasks stRdoneOk := hokF.2.2.1
  simp [isArmStage, stThenPhase, stHandlerRun, stRdoneOk] at fTP fHR fRO
  refine ⟨?_, ?_, ?_, ?_, ?_⟩
  · show AllArmsAllL (ts1.set i (Task.arm av c idx hs hf (.handlerRun v hs)))
    exact allArmsL_set _ _ _ (hokF.2.2.2 hall) hav
  · show (fireAbort cfg cfg.selSig).armsTook ≤ 1
    rw [f2]; exact htook
  · show (fireAbort cfg cfg.selSig).didRead = false →
        (fireAbort cfg cfg.selSig).armsTook = 0
    rw [f1, f2]; exact hdr
  · show (fireAbort cfg cfg.selSig).handlersRun + 1
        = (fireAbort cfg cfg.selSig).handlersCompleted
          + armCountL (ts1.set i (Task.arm av c idx hs hf (.handlerRun v hs)))
              stHandlerRun
    rw [f3, f4]
    simp only [armCount, armCountL] at *
    omega
  · show (fireAbort cfg cfg.selSig).handlersRun + 1
        + armCountL (ts1.set i (Task.arm av c idx hs hf (.handlerRun v hs)))
            stThenPhase
        + armCountL (ts1.set i (Task.arm av c idx hs hf (.handlerRun v hs)))
            stRdoneOk
        ≤ (fireAbort cfg cfg.selSig).armsTook
    rw [f2, f3]
    simp only [armCount, armCountL] at *
    omega

theorem selInv_handlerDone_leaf (cfg : Config) (i : Nat) (av : Bool)
    (c idx hs : Nat) (hf : Option ChanErr) (v : Option Val) (h : SelInv cfg)
    (hgt : cfg.tasks.get? i = some (.arm av c idx hs hf (.handlerRun v 0))) :
    SelInv { cfg with
      tasks := cfg.tasks.set i (.arm av c idx hs hf (armHandlerOutcome av hf)),
      handlersCompleted := cfg.handlersCompleted + 1 } := by
  obtain ⟨hall, htook, hdr, hrun, hbound⟩ := h
  have hav : armAllVariantB (Task.arm av c idx hs hf (armHandlerOutcome av hf)) = true := by
    have := hall _ (List.get?_mem hgt)
    exact this
  have hdone : ∃ r, armHandlerOutcome av hf = ArmStage.armDone r := by
    unfold armHandlerOutcome
    cases hf with
    | none => exact ⟨none, rfl⟩
    | some e =>
      dsimp only
      split
      · exact ⟨none, rfl⟩
      · exact ⟨some e, rfl⟩
  obtain ⟨r, hr⟩ := hdone
  rw [hr] at hav ⊢
  have fTP := filter_length_set cfg.tasks i _
    (Task.arm av c idx hs hf (ArmStage.armDone r)) (isArmStage stThenPhase) hgt
  have fHR := filter_length_set cfg.tasks i _
    (Task.arm av c idx hs hf (ArmStage.armDone r)) (isArmStage stHandlerRun) hgt
  have fRO := filter_length_set cfg.tasks i _
    (Task.arm av c idx hs hf (ArmStage.armDone r)) (isArmStage stRdoneOk) hgt
  simp [isArmStage, stThenPhase, stHandlerRun, stRdoneOk] at fTP fHR fRO
  refine ⟨?_, htook, hdr, ?_, ?_⟩
  · show AllArmsAllL (cfg.tasks.set i (Task.arm av c idx hs hf (ArmStage.armDone r)))
    exact allArmsL_set _ _ _ hall hav
  · show cfg.handlersRun = cfg.handlersCompleted + 1
        + armCountL (cfg.tasks.set i (Task.arm av c idx hs hf (ArmStage.armDone r)))
            stHandlerRun
    simp only [armCount, armCountL] at *
    omega
  · show cfg.handlersRun
        + armCountL (cfg.tasks.set i (Task.arm av c idx hs hf (ArmStage.armDone r)))
            stThenPhase
        + armCountL (cfg.tasks.set i (Task.arm av c idx hs hf (ArmStage.armDone r)))
            stRdoneOk
        ≤ cfg.armsTook
    simp only [armCount, armCountL] at *
    omega

theorem readerBody_flagged_cases (ch : ChanState) (didRead : Bool)
    (armsTook : Nat) (tid k : Nat) (tasks : List Task) :
    ((readerBody ch didRead armsTook .flagged tid k tasks).didRead = didRead ∧
     (readerBody ch didRead armsTook .flagged tid k tasks).armsTook = armsTook ∧
     ((readerBody ch didRead armsTook .flagged tid k tasks).st = .rwait ∨
      (readerBody ch didRead armsTook .flagged tid k tasks).st
        = .rdone (.error .closedE) ∨
      (readerBody ch didRead armsTook .flagged tid k tasks).st
        = .rdone (.error .readCancelledE))) ∨
    (didRead = false ∧
     (readerBody ch didRead armsTook .flagged tid k tasks).didRead = true ∧
     (readerBody ch didRead armsTook .flagged tid k tasks).armsTook = armsTook + 1 ∧
     ((readerBody ch didRead armsTook .flagged tid k tasks).st
        = .rdone (.error .fatalE) ∨
      ∃ r, (readerBody ch didRead armsTook .flagged tid k tasks).st
        = .rdone (.ok r))) := by
  unfold readerBody
  dsimp only
  (repeat' split) <;>
    first
      | exact Or.inl ⟨rfl, rfl, Or.inl rfl⟩
      | exact Or.inl ⟨rfl, rfl, Or.inr (Or.inl rfl)⟩
      | exact Or.inl ⟨rfl, rfl, Or.inr (Or.inr rfl)⟩
      | (refine Or.inr ⟨?_, rfl, rfl, Or.inl rfl⟩; simp_all)
      | (refine Or.inr ⟨?_, rfl, rfl, Or.inr ⟨_, rfl⟩⟩; simp_all)
      | simp_all

theorem bool_if_true {α : Sort _} (x y : α) : (if true = true then x else y) = x := rfl

theorem bool_if_false {α : Sort _} (x y : α) : (if false = true then x else y) = y := rfl

theorem selInv_nonArm_leaf (cfg cfg2 : Config) (ts1 : List Task) (i : Nat)
    (t0 t : Task) (h : SelInv cfg) (htasks : cfg2.tasks = ts1.set i t)
    (hdr2 : cfg2.didRead = cfg.didRead) (hat : cfg2.armsTook = cfg.armsTook)
    (hhr : cfg2.handlersRun = cfg.handlersRun)
    (hhc : cfg2.handlersCompleted = cfg.handlersCompleted)
    (hok : selTasksOK cfg.tasks ts1) (hg1 : ts1.get? i = some t0)
    (hA0 : Task.isArmB t0 = false) (hAt : Task.isArmB t = false) : SelInv cfg2 :=
  selInv_leaf_mono cfg cfg2 ts1 i t0 t h htasks hdr2 hat hhr hhc hok hg1
    (by rw [nonArm_stage t hAt, nonArm_stage t0 hA0])
    (by simp [nonArm_stage t hAt])
    (nonArm_variant t hAt)

/-- One scheduler step preserves the select invariant. -/
theorem selInv_step (cfg : Config) (a : Act) (h : SelInv cfg) :
    SelInv (step cfg a) := by
  cases a with
  | abortSig s =>
    show SelInv (fireAbort cfg s)
    obtain ⟨hok, f1, f2, f3, f4⟩ := fireAbort_tasks cfg s
    exact selInv_of_parts cfg _ h f1 f2 f3 f4 hok.1 hok.2.1 hok.2.2.1
      (hok.2.2.2 h.1)
  | closeChan c =>
    show SelInv (doClose cfg c)
    obtain ⟨hok, f1, f2, f3, f4⟩ := doClose_selTasks cfg c
    exact selInv_of_parts cfg _ h f1 f2 f3 f4 hok.1 hok.2.1 hok.2.2.1
      (hok.2.2.2 h.1)
  | runTask i k1 k2 =>
    show SelInv (runTaskStep cfg i k1 k2)
    cases hgt : cfg.tasks.get? i with
    | none => simp only [runTaskStep, hgt]; exact h
    | some t =>
      cases t with
      | writer c v sig st =>
        cases hch : cfg.channels.get? c with
        | none => simp only [runTaskStep, hgt, hch]; exact h
        | some ch =>
          cases st with
          | start =>
            simp only [runTaskStep, hgt, hch]
            exact selInv_nonArm_leaf cfg _
              (writerBody ch v i k1 k2 cfg.tasks).tasks i
              (Task.writer c v sig .start)
              (Task.writer c v sig (writerBody ch v i k1 k2 cfg.tasks).st)
              h rfl rfl rfl rfl rfl
              (writerBody_selOK ch v i k1 k2 cfg.tasks)
              (writerBody_fixed ch v i k1 k2 cfg.tasks i _ hgt rfl) rfl rfl
          | admitResumed b =>
            cases b with
            | true =>
              simp only [runTaskStep, hgt, hch, bool_if_true, if_true]
              exact selInv_nonArm_leaf cfg _
                (writerBody ch v i k1 k2 cfg.tasks).tasks i
                (Task.writer c v sig (.admitResumed true))
                (Task.writer c v sig (writerBody ch v i k1 k2 cfg.tasks).st)
                h rfl rfl rfl rfl rfl
                (writerBody_selOK ch v i k1 k2 cfg.tasks)
                (writerBody_fixed ch v i k1 k2 cfg.tasks i _ hgt rfl) rfl rfl
            | false =>
              simp only [runTaskStep, hgt, hch, bool_if_false, if_false]
              exact selInv_nonArm_leaf cfg _ cfg.tasks i
                (Task.writer c v sig (.admitResumed false))
                (Task.writer c v sig (.wdone (some .writeCancelledE)))
                h rfl rfl rfl rfl rfl (selTasksOK_refl _) hgt rfl rfl
          | commitResumed tt b =>
            simp only [runTaskStep, hgt, hch]
            exact selInv_nonArm_leaf cfg _
              (writerCommitResume ch v tt b i k2 cfg.tasks).tasks i
              (Task.writer c v sig (.commitResumed tt b))
              (Task.writer c v sig (writerCommitResume ch v tt b i k2 cfg.tasks).st)
              h rfl rfl rfl rfl rfl
              (writerCommitResume_selOK ch v tt b i k2 cfg.tasks)
              (writerCommitResume_fixed ch v tt b i k2 cfg.tasks i _ hgt rfl) rfl rfl
          | admitWait => simp only [runTaskStep, hgt, hch]; exact h
          | commitWait tt => simp only [runTaskStep, hgt, hch]; exact h
          | wdone r => simp only [runTaskStep, hgt, hch]; exact h
      | reader c sig st =>
        cases hch : cfg.channels.get? c with
        | none => simp only [runTaskStep, hgt, hch]; exact h
        | some ch =>
          cases st with
          | start =>
            simp only [runTaskStep, hgt, hch]
            exact selInv_nonArm_leaf cfg _
              (readerBody ch cfg.didRead cfg.armsTook .always i k1 cfg.tasks).tasks i
              (Task.reader c sig .start)
              (Task.reader c sig
                (readerBody ch cfg.didRead cfg.armsTook .always i k1 cfg.tasks).st)
              h rfl
              (readerBody_always_counters ch cfg.didRead cfg.armsTook i k1 cfg.tasks).1
              (readerBody_always_counters ch cfg.didRead cfg.armsTook i k1 cfg.tasks).2
              rfl rfl
              (readerBody_selOK ch cfg.didRead cfg.armsTook .always i k1 cfg.tasks)
              (readerBody_fixed ch cfg.didRead cfg.armsTook .always i k1 cfg.tasks i _
                hgt rfl) rfl rfl
          | resumed b =>
            cases b with
            | true =>
              simp only [runTaskStep, hgt, hch, bool_if_true, if_true]
              exact selInv_nonArm_leaf cfg _
                (readerBody ch cfg.didRead cfg.armsTook .always i k1 cfg.tasks).tasks i
                (Task.reader c sig (.resumed true))
                (Task.reader c sig
                  (readerBody ch cfg.didRead cfg.armsTook .always i k1 cfg.tasks).st)
                h rfl
                (readerBody_always_counters ch cfg.didRead cfg.armsTook i k1 cfg.tasks).1
                (readerBody_always_counters ch cfg.didRead cfg.armsTook i k1 cfg.tasks).2
                rfl rfl
                (readerBody_selOK ch cfg.didRead cfg.armsTook .always i k1 cfg.tasks)
                (readerBody_fixed ch cfg.didRead cfg.armsTook .always i k1 cfg.tasks i _
                  hgt rfl) rfl rfl
            | false =>
              simp only [runTaskStep, hgt, hch, bool_if_false, if_false]
              exact selInv_nonArm_leaf cfg _ cfg.tasks i
                (Task.reader c sig (.resumed false))
                (Task.reader c sig (.rdone (.error .readCancelledE)))
                h rfl rfl rfl rfl rfl (selTasksOK_refl _) hgt rfl rfl
          | rwait => simp only [runTaskStep, hgt, hch]; exact h
          | rdone r => simp only [runTaskStep, hgt, hch]; exact h
      | arm av c idx hs hf ast =>
        have hav : av = true := h.1 _ (List.get?_mem hgt)
        subst hav
        cases ast with
        | reading rst =>
          cases rst with
          | start =>
            cases hch : cfg.channels.get? c with
            | none => simp only [runTaskStep, hgt, hch]; exact h
            | some ch =>
              simp only [runTaskStep, hgt, hch, bool_if_true, if_true]
              rcases readerBody_flagged_cases ch cfg.didRead cfg.armsTook i k1 cfg.tasks
                with ⟨e1, e2, h3 | h3 | h3⟩ | ⟨hdro, e1, e2, h3 | ⟨r, h3⟩⟩ <;> rw [h3]
              · exact selInv_leaf_mono cfg _
                  (readerBody ch cfg.didRead cfg.armsTook .flagged i k1 cfg.tasks).tasks i
                  (Task.arm true c idx hs hf (.reading .start))
                  (Task.arm true c idx hs hf (.reading .rwait))
                  h rfl e1 e2 rfl rfl
                  (readerBody_selOK ch cfg.didRead cfg.armsTook .flagged i k1 cfg.tasks)
                  (readerBody_fixed ch cfg.didRead cfg.armsTook .flagged i k1 cfg.tasks
                    i _ hgt rfl) rfl (by simp [isArmStage, stThenPhase, stRdoneOk]) rfl
              · exact selInv_leaf_mono cfg _
                  (readerBody ch cfg.didRead cfg.armsTook .flagged i k1 cfg.tasks).tasks i
                  (Task.arm true c idx hs hf (.reading .start))
                  (Task.arm true c idx hs hf (.reading (.rdone (.error .closedE))))
                  h rfl e1 e2 rfl rfl
                  (readerBody_selOK ch cfg.didRead cfg.armsTook .flagged i k1 cfg.tasks)
                  (readerBody_fixed ch cfg.didRead cfg.armsTook .flagged i k1 cfg.tasks
                    i _ hgt rfl) rfl (by simp [isArmStage, stThenPhase, stRdoneOk]) rfl
              · exact selInv_leaf_mono cfg _
                  (readerBody ch cfg.didRead cfg.armsTook .flagged i k1 cfg.tasks).tasks i
                  (Task.arm true c idx hs hf (.reading .start))
                  (Task.arm true c idx hs hf (.reading (.rdone (.error .readCancelledE))))
                  h rfl e1 e2 rfl rfl
                  (readerBody_selOK ch cfg.didRead cfg.armsTook .flagged i k1 cfg.tasks)
                  (readerBody_fixed ch cfg.didRead cfg.armsTook .flagged i k1 cfg.tasks
                    i _ hgt rfl) rfl (by simp [isArmStage, stThenPhase, stRdoneOk]) rfl
              · exact selInv_take_leaf cfg _
                  (readerBody ch cfg.didRead cfg.armsTook .flagged i k1 cfg.tasks).tasks i
                  (Task.arm true c idx hs hf (.reading .start))
                  (Task.arm true c idx hs hf (.reading (.rdone (.error .fatalE))))
                  h rfl hdro e1 e2 rfl rfl
                  (readerBody_selOK ch cfg.didRead cfg.armsTook .flagged i k1 cfg.tasks)
                  (readerBody_fixed ch cfg.didRead cfg.armsTook .flagged i k1 cfg.tasks
                    i _ hgt rfl) rfl rfl rfl rfl rfl
              · exact selInv_take_leaf cfg _
                  (readerBody ch cfg.didRead cfg.armsTook .flagged i k1 cfg.tasks).tasks i
                  (Task.arm true c idx hs hf (.reading .start))
                  (Task.arm true c idx hs hf (.reading (.rdone (.ok r))))
                  h rfl hdro e1 e2 rfl rfl
                  (readerBody_selOK ch cfg.didRead cfg.armsTook .flagged i k1 cfg.tasks)
                  (readerBody_fixed ch cfg.didRead cfg.armsTook .flagged i k1 cfg.tasks
                    i _ hgt rfl) rfl rfl rfl rfl rfl
          | resumed b =>
            cases b with
            | true =>
              cases hch : cfg.channels.get? c with
              | none => simp only [runTaskStep, hgt, hch, bool_if_true, if_true]; exact h
              | some ch =>
                simp only [runTaskStep, hgt, hch, bool_if_true, if_true]
                rcases readerBody_flagged_cases ch cfg.didRead cfg.armsTook i k1 cfg.tasks
                  with ⟨e1, e2, h3 | h3 | h3⟩ | ⟨hdro, e1, e2, h3 | ⟨r, h3⟩⟩ <;> rw [h3]
                · exact selInv_leaf_mono cfg _
                    (readerBody ch cfg.didRead cfg.armsTook .flagged i k1 cfg.tasks).tasks i
                    (Task.arm true c idx hs hf (.reading (.resumed true)))
                    (Task.arm true c idx hs hf (.reading .rwait))
                    h rfl e1 e2 rfl rfl
                    (readerBody_selOK ch cfg.didRead cfg.armsTook .flagged i k1 cfg.tasks)
                    (readerBody_fixed ch cfg.didRead cfg.armsTook .flagged i k1 cfg.tasks
                      i _ hgt rfl) rfl (by simp [isArmStage, stThenPhase, stRdoneOk]) rfl
                · exact selInv_leaf_mono cfg _
                    (readerBody ch cfg.didRead cfg.armsTook .flagged i k1 cfg.tasks).tasks i
                    (Task.arm true c idx hs hf (.reading (.resumed true)))
                    (Task.arm true c idx hs hf (.reading (.rdone (.error .closedE))))
                    h rfl e1 e2 rfl rfl
                    (readerBody_selOK ch cfg.didRead cfg.armsTook .flagged i k1 cfg.tasks)
                    (readerBody_fixed ch cfg.didRead cfg.armsTook .flagged i k1 cfg.tasks
                      i _ hgt rfl) rfl (by simp [isArmStage, stThenPhase, stRdoneOk]) rfl
                · exact selInv_leaf_mono cfg _
                    (readerBody ch cfg.didRead cfg.armsTook .flagged i k1 cfg.tasks).tasks i
                    (Task.arm true c idx hs hf (.reading (.resumed true)))
                    (Task.arm true c idx hs hf (.reading (.rdone (.error .readCancelledE))))
                    h rfl e1 e2 rfl rfl
                    (readerBody_selOK ch cfg.didRead cfg.armsTook .flagged i k1 cfg.tasks)
                    (readerBody_fixed ch cfg.didRead cfg.armsTook .flagged i k1 cfg.tasks
                      i _ hgt rfl) rfl (by simp [isArmStage, stThenPhase, stRdoneOk]) rfl
                · exact selInv_take_leaf cfg _
                    (readerBody ch cfg.didRead cfg.armsTook .flagged i k1 cfg.tasks).tasks i
                    (Task.arm true c idx hs hf (.reading (.resumed true)))
                    (Task.arm true c idx hs hf (.reading (.rdone (.error .fatalE))))
                    h rfl hdro e1 e2 rfl rfl
                    (readerBody_selOK ch cfg.didRead cfg.armsTook .flagged i k1 cfg.tasks)
                    (readerBody_fixed ch cfg.didRead cfg.armsTook .flagged i k1 cfg.tasks
                      i _ hgt rfl) rfl rfl rfl rfl rfl
                · exact selInv_take_leaf cfg _
                    (readerBody ch cfg.didRead cfg.armsTook .flagged i k1 cfg.tasks).tasks i
                    (Task.arm true c idx hs hf (.reading (.resumed true)))
                    (Task.arm true c idx hs hf (.reading (.rdone (.ok r))))
                    h rfl hdro e1 e2 rfl rfl
                    (readerBody_selOK ch cfg.didRead cfg.armsTook .flagged i k1 cfg.tasks)
                    (readerBody_fixed ch cfg.didRead cfg.armsTook .flagged i k1 cfg.tasks
                      i _ hgt rfl) rfl rfl rfl rfl rfl
            | false =>
              simp only [runTaskStep, hgt, bool_if_false, if_false]
              exact selInv_leaf_mono cfg _ cfg.tasks i
                (Task.arm true c idx hs hf (.reading (.resumed false)))
                (Task.arm true c idx hs hf (.reading (.rdone (.error .readCancelledE))))
                h rfl rfl rfl rfl rfl (selTasksOK_refl _) hgt rfl (by simp [isArmStage, stThenPhase, stRdoneOk]) rfl
          | rwait => simp only [runTaskStep, hgt]; exact h
          | rdone r =>
            simp only [runTaskStep, hgt]
            cases r with
            | ok v =>
              exact selInv_leaf_mono cfg _ cfg.tasks i
                (Task.arm true c idx hs hf (.reading (.rdone (.ok v))))
                (Task.arm true c idx hs hf (armReadDoneNext true (.ok v)))
                h rfl rfl rfl rfl rfl (selTasksOK_refl _) hgt rfl
                (by simp [armReadDoneNext, isArmStage, stThenPhase, stRdoneOk]) rfl
            | error e =>
              have harm : armReadDoneNext true (.error e)
                  = ArmStage.armDone
                      (if e = ChanErr.readCancelledE then none else some e) := by
                by_cases he : e = ChanErr.readCancelledE <;>
                  simp [armReadDoneNext, he]
              rw [harm]
              exact selInv_leaf_mono cfg _ cfg.tasks i
                (Task.arm true c idx hs hf (.reading (.rdone (.error e))))
                (Task.arm true c idx hs hf
                  (.armDone (if e = ChanErr.readCancelledE then none else some e)))
                h rfl rfl rfl rfl rfl (selTasksOK_refl _) hgt rfl (by simp [isArmStage, stThenPhase, stRdoneOk]) rfl
        | thenPhase v =>
          simp only [runTaskStep, hgt]
          exact selInv_thenPhase_leaf cfg i true c idx hs hf v h hgt
        | handlerRun v n =>
          cases n with
          | zero =>
            simp only [runTaskStep, hgt]
            exact selInv_handlerDone_leaf cfg i true c idx hs hf v h hgt
          | succ m =>
            simp only [runTaskStep, hgt]
            exact selInv_leaf_mono cfg _ cfg.tasks i
              (Task.arm true c idx hs hf (.handlerRun v (m + 1)))
              (Task.arm true c idx hs hf (.handlerRun v m))
              h rfl rfl rfl rfl rfl (selTasksOK_refl _) hgt rfl (by simp [isArmStage, stThenPhase, stRdoneOk]) rfl
        | armDone r => simp only [runTaskStep, hgt]; exact h

/-- Any run of scheduler actions preserves the select invariant. -/
theorem selInv_run (cfg : Config) (acts : List Act) (h : SelInv cfg) :
    SelInv (run cfg acts) := by
  induction acts generalizing cfg with
  | nil => exact h
  | cons a rest ih => exact ih (step cfg a) (selInv_step cfg a h)

theorem isArmStage_imp (p q : ArmStage → Bool) (h : ∀ st, p st = true → q st = true)
    (t : Task) (hp : isArmStage p t = true) : isArmStage q t = true := by
  cases t with
  | writer c v sig st => exact Bool.noConfusion hp
  | reader c sig st => exact Bool.noConfusion hp
  | arm av c idx hs hf st => exact h st hp

theorem armCountL_cons (t : Task) (ts : List Task) (p : ArmStage → Bool) :
    armCountL (t :: ts) p
      = (if isArmStage p t = true then 1 else 0) + armCountL ts p := by
  unfold armCountL
  rw [List.filter_cons]
  cases h : isArmStage p t with
  | false => simp [h]
  | true => simp [h, Nat.add_comm]

theorem armCountL_mono (p q : ArmStage → Bool) (h : ∀ st, p st = true → q st = true)
    (ts : List Task) : armCountL ts p ≤ armCountL ts q := by
  induction ts with
  | nil => exact Nat.le_refl _
  | cons t ts ih =>
    rw [armCountL_cons, armCountL_cons]
    have key : (if isArmStage p t = true then 1 else 0)
        ≤ (if isArmStage q t = true then 1 else 0) := by
      cases hp : isArmStage p t with
      | false => simp
      | true => rw [isArmStage_imp p q h t hp]
    omega

theorem armCountL_compl (p : ArmStage → Bool) (ts : List Task) :
    armCountL ts p + armCountL ts (fun st => !(p st)) = armCountL ts stAnyArm := by
  induction ts with
  | nil => rfl
  | cons t ts ih =>
    rw [armCountL_cons, armCountL_cons, armCountL_cons]
    have key : (if isArmStage p t = true then 1 else 0)
        + (if isArmStage (fun st => !(p st)) t = true then 1 else 0)
        = (if isArmStage stAnyArm t = true then 1 else 0) := by
      cases t with
      | arm av c idx hs hf st =>
        show (if p st = true then 1 else 0) + (if (!(p st)) = true then 1 else 0)
          = (if stAnyArm st = true then 1 else 0)
        cases hp : p st <;> simp [stAnyArm]
      | writer c v sig st => rfl
      | reader c sig st => rfl
    omega

theorem stArmDoneOk_le_stArmDone (st : ArmStage) (h : stArmDoneOk st = true) :
    stArmDone st = true := by
  cases st with
  | armDone r => rfl
  | reading r => exact Bool.noConfusion h
  | thenPhase v => exact Bool.noConfusion h
  | handlerRun v n => exact Bool.noConfusion h

theorem stHandlerRun_not_ok (st : ArmStage) (h : stHandlerRun st = true) :
    (!(stArmDoneOk st)) = true := by
  cases st with
  | handlerRun v n => rfl
  | reading r => exact Bool.noConfusion h
  | thenPhase v => exact Bool.noConfusion h
  | armDone r => exact Bool.noConfusion h

/-- The select-start configuration of the early-return scenario satisfies
the select invariant. -/
theorem selInv_selectLate : SelInv selectLateCfg :=
  ⟨show ∀ t ∈ selectLateCfg.tasks, armAllVariantB t = true by decide,
   by decide, by decide, by decide, by decide⟩

/-- C3 (counterexample): `Channel.select` does not always wait for every
sibling read to finalise before returning.  In the `selectLateCfg`
scenario one channel is closed, so its arm chain rejects with
channel-closed; the `Promise.all` over the chains rejects and the `await`
in `selectInternal` rethrows — select has returned — while the sibling
read on the still-open channel is suspended and never finalised. -/
theorem select_returns_before_arms_finalised :
    selectReturned (run selectLateCfg selectLateScript) = true ∧
    allArmsFinalised (run selectLateCfg selectLateScript) = false := by
  decide

/-- C3 (amended): over any scheduler run from a configuration satisfying
the select invariant (a posed `Promise.all` select), at most one read is
claimed and at most one handler ever starts; when the `Promise.all`
resolves (no chain rejected), every started handler has completed and
every sibling chain has finalised; and a chain whose read failed with
read-cancelled finalises without error (the `.catch` swallows it) while
any other read error rejects the chain carrying that error.  The original
claim's stronger promise — select returns only after every sibling read
finalises — fails on the rejection path, see
`select_returns_before_arms_finalised`. -/
theorem select_at_most_one_handler (cfg0 : Config) (acts : List Act)
    (h0 : SelInv cfg0) :
    (run cfg0 acts).armsTook ≤ 1 ∧
    (run cfg0 acts).handlersRun ≤ 1 ∧
    (selectResolvedOk (run cfg0 acts) = true →
      (run cfg0 acts).handlersRun = (run cfg0 acts).handlersCompleted ∧
      allArmsFinalised (run cfg0 acts) = true) ∧
    armReadDoneNext true (.error .readCancelledE) = ArmStage.armDone none ∧
    (∀ e : ChanErr, e ≠ ChanErr.readCancelledE →
      armReadDoneNext true (.error e) = ArmStage.armDone (some e)) := by
  obtain ⟨hall, htook, hdr, hrun, hbound⟩ := selInv_run cfg0 acts h0
  refine ⟨htook, by omega, ?_, rfl, ?_⟩
  · intro hok
    simp only [selectResolvedOk, armCount, decide_eq_true_eq] at hok
    simp only [armCount] at hrun
    have hcompl := armCountL_compl stArmDoneOk (run cfg0 acts).tasks
    have hHRle : armCountL (run cfg0 acts).tasks stHandlerRun
        ≤ armCountL (run cfg0 acts).tasks (fun st => !(stArmDoneOk st)) :=
      armCountL_mono _ _ stHandlerRun_not_ok _
    have hOkDone : armCountL (run cfg0 acts).tasks stArmDoneOk
        ≤ armCountL (run cfg0 acts).tasks stArmDone :=
      armCountL_mono _ _ stArmDoneOk_le_stArmDone _
    have hDoneAny : armCountL (run cfg0 acts).tasks stArmDone
        ≤ armCountL (run cfg0 acts).tasks stAnyArm :=
      armCountL_mono _ _ (fun st _ => rfl) _
    constructor
    · omega
    · simp only [allArmsFinalised, armCount, decide_eq_true_eq]
      omega
  · intro e he
    simp [armReadDoneNext, he]

/-- Witness for `select_at_most_one_handler`: the select invariant holds at
the two-arm start configuration `selectLateCfg`, and the theorem applies
there. -/
theorem select_at_most_one_handler_witness :
    SelInv selectLateCfg ∧
    (run selectLateCfg selectLateScript).handlersRun ≤ 1 :=
  ⟨selInv_selectLate,
   (select_at_most_one_handler selectLateCfg selectLateScript selInv_selectLate).2.1⟩

/-- C9 (counterexample): the two `selectInternal` implementations are not
observationally equivalent.  With two channels each holding a posted write
and the same schedule, the `Promise.all`/`shouldTakeRead` variant claims
one read, runs one handler with the first value, and leaves the second
write unconsumed, while the `Promise.race` variant — whose `.catch` is
chained before `.then`, turning the losing read's
`ReadCancelledException` into the value `undefined` — runs two handlers
and consumes both writes. -/
theorem selectInternal_variants_diverge :
    (run (selectTwoPostedCfg true) selectTwoPostedScript).handlersRun = 1 ∧
    (run (selectTwoPostedCfg false) selectTwoPostedScript).handlersRun = 2 ∧
    (run (selectTwoPostedCfg true) selectTwoPostedScript).handlerValues
      = [some 15] ∧
    (run (selectTwoPostedCfg false) selectTwoPostedScript).handlerValues
      = [some 15, some 27] := by
  decide

/-- C9 (amended): in the single-option select with one successful,
uncancelled read — the case with no losing sibling — the two
`selectInternal` variants agree: each runs exactly one handler, with the
read value, and resolves. -/
theorem selectInternal_variants_agree_single :
    ((run (selectSingleCfg true) selectSingleScript).handlersRun = 1 ∧
     (run (selectSingleCfg true) selectSingleScript).handlerValues = [some 42] ∧
     selectResolvedOk (run (selectSingleCfg true) selectSingleScript) = true) ∧
    ((run (selectSingleCfg false) selectSingleScript).handlersRun = 1 ∧
     (run (selectSingleCfg false) selectSingleScript).handlerValues = [some 42] ∧
     selectResolvedOk (run (selectSingleCfg false) selectSingleScript) = true) := by
  decide

/-! Wait-set bookkeeping lemmas for the serialization invariant. -/

theorem getD_length_none (cv : List Handler) : cv.getD cv.length none = none := by
  induction cv with
  | nil => rfl
  | cons a l ih => exact ih

theorem cvEntries_set_none (cv : List Handler) (i : Nat) :
    List.Sublist (cvEntries (cv.set i none)) (cvEntries cv) := by
  induction cv generalizing i with
  | nil => exact List.Sublist.refl _
  | cons a rest ih =>
    cases i with
    | zero =>
      cases a with
      | none => exact List.Sublist.refl _
      | some x =>
        show List.Sublist (cvEntries rest) (x :: cvEntries rest)
        exact List.sublist_cons_self _ _
    | succ j =>
      cases a with
      | none => exact ih j
      | some x =>
        show List.Sublist (x :: cvEntries (rest.set j none)) (x :: cvEntries rest)
        exact List.Sublist.cons₂ x (ih j)

theorem removeFromHandlers_sublist (cv : List Handler) (h : Handler) :
    List.Sublist (cvEntries (removeFromHandlers cv h)) (cvEntries cv) := by
  unfold removeFromHandlers
  cases hf : cv.findIdx? (· == h) with
  | none => exact List.Sublist.refl _
  | some i =>
    dsimp only
    split
    · exact List.nil_sublist _
    · rw [getD_length_none]
      exact ((List.dropLast_sublist _).filterMap id).trans (cvEntries_set_none cv i)

theorem findIdx?_found {α : Type} (p : α → Bool) (l : List α) (j : Nat)
    (h : l.findIdx? p = some j) : ∃ x, l.get? j = some x ∧ p x = true := by
  induction l generalizing j with
  | nil => exact absurd h (by simp)
  | cons a rest ih =>
    rw [List.findIdx?_cons] at h
    by_cases hp : p a
    · rw [if_pos hp] at h
      cases h
      exact ⟨a, rfl, hp⟩
    · rw [if_neg hp, List.findIdx?_succ] at h
      cases hr : rest.findIdx? p with
      | none => rw [hr] at h; exact absurd h (by simp)
      | some j0 =>
        rw [hr] at h
        simp at h
        obtain ⟨x, hx, hpx⟩ := ih j0 hr
        exact ⟨x, by rw [← h]; exact hx, hpx⟩

theorem count_some_entries (cv : List Handler) (tid : Nat) :
    (cvEntries cv).count tid = cv.count (some tid) := by
  induction cv with
  | nil => rfl
  | cons a rest ih =>
    cases a with
    | none =>
      show (cvEntries rest).count tid = (none :: rest).count (some tid)
      rw [List.count_cons]
      simp [ih]
    | some x =>
      show (x :: cvEntries rest).count tid = (some x :: rest).count (some tid)
      rw [List.count_cons, List.count_cons]
      by_cases hx : tid = x
      · subst hx; simp [ih]
      · simp [ih, hx]

theorem set_none_not_mem (cv : List Handler) (j tid : Nat)
    (hj : cv.get? j = some (some tid)) (hc : cv.count (some tid) ≤ 1) :
    some tid ∉ cv.set j none := by
  induction cv generalizing j with
  | nil => exact absurd hj (by simp)
  | cons a rest ih =>
    cases j with
    | zero =>
      have ha : a = some tid := by simpa using hj
      subst ha
      rw [List.count_cons_self] at hc
      have hrest : rest.count (some tid) = 0 := by omega
      intro hm
      rcases List.mem_cons.mp hm with h1 | h1
      · exact Option.noConfusion h1
      · exact absurd (List.count_pos_iff_mem.mpr h1) (by omega)
    | succ j0 =>
      have hj0 : rest.get? j0 = some (some tid) := hj
      have hmem : some tid ∈ rest := List.get?_mem hj0
      have hrest : rest.count (some tid) ≤ 1 := by
        rw [List.count_cons] at hc
        omega
      intro hm
      rcases List.mem_cons.mp hm with h1 | h1
      · have hone : (1 : Nat) ≤ rest.count (some tid) := List.count_pos_iff_mem.mpr hmem
        have hbeq : (a == some tid) = true := by
          rw [← h1]
          exact beq_self_eq_true _
        rw [List.count_cons, if_pos hbeq] at hc
        omega
      · exact ih j0 hj0 hrest h1

theorem removeFromHandlers_not_mem (cv : List Handler) (tid : Nat)
    (hnd : (cvEntries cv).Nodup) :
    some tid ∉ removeFromHandlers cv (some tid) := by
  unfold removeFromHandlers
  cases hf : cv.findIdx? (· == some tid) with
  | none =>
    intro hm
    have := List.findIdx?_eq_none_iff.mp hf (some tid) hm
    simp at this
  | some j =>
    dsimp only
    split
    · simp
    · rw [getD_length_none]
      obtain ⟨x, hx, hpx⟩ := findIdx?_found _ _ _ hf
      have hxe : x = some tid := by simpa using hpx
      subst hxe
      have hcount : cv.count (some tid) ≤ 1 := by
        rw [← count_some_entries]
        exact List.nodup_iff_count_le_one.mp hnd tid
      intro hmem
      exact set_none_not_mem cv j tid hx hcount ((List.dropLast_sublist _).mem hmem)

theorem mem_of_getD_some (cv : List Handler) (m tid : Nat)
    (h : cv.getD m none = some tid) : some tid ∈ cv := by
  cases hg : cv.get? m with
  | none =>
    exfalso
    have : cv.getD m none = none := by
      show (cv.get? m).getD none = none
      rw [hg]
      rfl
    rw [this] at h
    exact Option.noConfusion h
  | some x =>
    have : cv.getD m none = x := by
      show (cv.get? m).getD none = x
      rw [hg]
      rfl
    rw [this] at h
    subst h
    exact List.get?_mem hg

theorem taskAt_set_ne (ts : List Task) (i tid : Nat) (t : Task) (p : Task → Bool)
    (h : tid ≠ i) : taskAt (ts.set i t) tid p = taskAt ts tid p := by
  unfold taskAt
  rw [List.get?_set_ne _ _ (fun he => h he.symm)]

theorem taskAt_set_self (ts : List Task) (i : Nat) (t t0 : Task) (p : Task → Bool)
    (hg : ts.get? i = some t0) : taskAt (ts.set i t) i p = p t := by
  have hlt : i < ts.length := by
    by_contra hge
    rw [List.get?_eq_none.mpr (Nat.le_of_not_lt hge)] at hg
    exact Option.noConfusion hg
  unfold taskAt
  rw [List.get?_set_eq_of_lt _ (by simpa using hlt)]

theorem taskAt_resolveId_ne (ts : List Task) (tid j : Nat) (b : Bool)
    (p : Task → Bool) (h : tid ≠ j) :
    taskAt (resolveId ts tid b) j p = taskAt ts j p := by
  unfold taskAt
  rw [resolveId_get_ne _ _ _ _ h]

theorem cvValidFor_of_sublist (ts : List Task) (cv cv2 : List Handler)
    (p : Task → Bool) (hsub : List.Sublist (cvEntries cv2) (cvEntries cv))
    (h : cvValidFor ts cv p) : cvValidFor ts cv2 p :=
  ⟨h.1.sublist hsub, fun tid hm => h.2 tid (hsub.mem hm)⟩

theorem cvValidFor_set_nonwaiter (ts : List Task) (cv : List Handler)
    (p : Task → Bool) (i : Nat) (t : Task) (h : cvValidFor ts cv p)
    (hni : taskAt ts i p = false) : cvValidFor (ts.set i t) cv p := by
  refine ⟨h.1, fun tid hm => ?_⟩
  have hv := h.2 tid hm
  have hne : tid ≠ i := fun he => by
    rw [he, hni] at hv
    exact Bool.noConfusion hv
  rw [taskAt_set_ne ts i tid t p hne]
  exact hv

theorem cvValidFor_resolve_notMem (ts : List Task) (cv : List Handler)
    (p : Task → Bool) (tid : Nat) (b : Bool) (h : cvValidFor ts cv p)
    (hnm : tid ∉ cvEntries cv) : cvValidFor (resolveId ts tid b) cv p := by
  refine ⟨h.1, fun j hm => ?_⟩
  have hne : tid ≠ j := fun he => hnm (he ▸ hm)
  rw [taskAt_resolveId_ne ts tid j b p hne]
  exact h.2 j hm

theorem cvEntries_append_some (cv : List Handler) (i : Nat) :
    cvEntries (cv ++ [some i]) = cvEntries cv ++ [i] := by
  simp [cvEntries]

theorem cvValidFor_append (ts : List Task) (cv : List Handler) (p : Task → Bool)
    (i : Nat) (t : Task) (h : cvValidFor ts cv p)
    (hni : taskAt ts i p = false) (hg : ts.get? i ≠ none) (hpt : p t = true) :
    cvValidFor (ts.set i t) (cv ++ [some i]) p := by
  cases hg0 : ts.get? i with
  | none => exact absurd hg0 hg
  | some t0 =>
  have hinm : i ∉ cvEntries cv := fun hm => by
    have := h.2 i hm
    rw [hni] at this
    exact Bool.noConfusion this
  constructor
  · rw [cvEntries_append_some]
    refine List.Nodup.append h.1 (List.nodup_singleton i) ?_
    intro a ha hb
    rw [List.mem_singleton] at hb
    subst hb
    exact hinm ha
  · intro tid hm
    rw [cvEntries_append_some] at hm
    rcases List.mem_append.mp hm with h1 | h1
    · have hv := h.2 tid h1
      have hne : tid ≠ i := fun he => by
        rw [he, hni] at hv
        exact Bool.noConfusion hv
      rw [taskAt_set_ne ts i tid t p hne]
      exact hv
    · rw [List.mem_singleton] at h1
      subst h1
      rw [taskAt_set_self ts tid t t0 p hg0]
      exact hpt

theorem commitOn_resumeTask_true (t : Task) (c : Nat) :
    Task.commitOn (resumeTask t true) c = Task.commitOn t c := by
  cases t with
  | writer c2 v sig st => cases st <;> rfl
  | reader c2 sig st => cases st <;> rfl
  | arm av c2 idx hs hf st =>
    cases st with
    | reading rst => cases rst <;> rfl
    | thenPhase v => rfl
    | handlerRun v n => rfl
    | armDone r => rfl

theorem committers_set_eq (ts : List Task) (i : Nat) (t0 t : Task) (c : Nat)
    (hg : ts.get? i = some t0) (he : Task.commitOn t c = Task.commitOn t0 c) :
    committers (ts.set i t) c = committers ts c := by
  induction ts generalizing i with
  | nil => rfl
  | cons a rest ih =>
    cases i with
    | zero =>
      have ha : a = t0 := by simpa using hg
      subst ha
      show committers (t :: rest) c = committers (a :: rest) c
      simp [committers, List.filterMap_cons, he]
    | succ j =>
      show committers (a :: rest.set j t) c = committers (a :: rest) c
      have hrec := ih j hg
      simp only [committers, List.filterMap_cons]
      cases Task.commitOn a c with
      | none => exact hrec
      | some x =>
        show x :: committers (rest.set j t) c = x :: committers rest c
        rw [hrec]

theorem committers_resolveId_true (ts : List Task) (tid c : Nat) :
    committers (resolveId ts tid true) c = committers ts c := by
  unfold resolveId
  cases hg : ts.get? tid with
  | none => rfl
  | some t =>
    exact committers_set_eq ts tid t (resumeTask t true) c hg
      (commitOn_resumeTask_true t c)

theorem noResumedCommit_set (ts : List Task) (i : Nat) (t : Task) (c : Nat)
    (h : noResumedCommit ts c) (ht : Task.isResumedCommitOnB t c = false) :
    noResumedCommit (ts.set i t) c := by
  intro t2 hm
  rcases List.mem_or_eq_of_mem_set hm with h1 | h1
  · exact h t2 h1
  · rw [h1]
    exact ht

theorem isResumedCommit_resumeTask (t : Task) (b : Bool) (c : Nat)
    (hcw : Task.isCommitWaitOnB t c = false)
    (h : Task.isResumedCommitOnB t c = false) :
    Task.isResumedCommitOnB (resumeTask t b) c = false := by
  cases t with
  | writer c2 v sig st =>
    cases st with
    | commitWait tt => exact hcw
    | admitWait => rfl
    | start => exact h
    | admitResumed b2 => exact h
    | commitResumed tt b2 => exact h
    | wdone r => exact h
  | reader c2 sig st => cases st <;> rfl
  | arm av c2 idx hs hf st =>
    cases st with
    | reading rst => cases rst <;> rfl
    | thenPhase v => rfl
    | handlerRun v n => rfl
    | armDone r => rfl

theorem noResumedCommit_resolveId (ts : List Task) (tid : Nat) (b : Bool) (c : Nat)
    (h : noResumedCommit ts c)
    (hcw : taskAt ts tid (Task.isCommitWaitOnB · c) = false) :
    noResumedCommit (resolveId ts tid b) c := by
  unfold resolveId
  cases hg : ts.get? tid with
  | none => exact h
  | some t =>
    refine noResumedCommit_set ts tid _ c h ?_
    refine isResumedCommit_resumeTask t b c ?_ (h t (List.get?_mem hg))
    unfold taskAt at hcw
    rw [hg] at hcw
    exact hcw

theorem resumedCommit_commitOn (t : Task) (c : Nat)
    (h : Task.isResumedCommitOnB t c = true) : ∃ x, Task.commitOn t c = some x := by
  cases t with
  | writer c2 v sig st =>
    cases st with
    | commitResumed tt b =>
      have hc : c2 = c := by simpa [Task.isResumedCommitOnB] using h
      exact ⟨(v, tt, b), by simp [Task.commitOn, hc]⟩
    | start => exact Bool.noConfusion h
    | admitWait => exact Bool.noConfusion h
    | admitResumed b => exact Bool.noConfusion h
    | commitWait tt => exact Bool.noConfusion h
    | wdone r => exact Bool.noConfusion h
  | reader c2 sig st => exact Bool.noConfusion h
  | arm av c2 idx hs hf st => exact Bool.noConfusion h

theorem noResumedCommit_of_committers_nil (ts : List Task) (c : Nat)
    (h : committers ts c = []) : noResumedCommit ts c := by
  intro t hm
  cases hr : Task.isResumedCommitOnB t c with
  | false => rfl
  | true =>
    exfalso
    obtain ⟨x, hx⟩ := resumedCommit_commitOn t c hr
    have : Task.commitOn t c = none := List.filterMap_eq_nil.mp h t hm
    rw [hx] at this
    exact Option.noConfusion this

theorem mem_committers_of (ts : List Task) (c i : Nat) (t : Task)
    (x : Val × Int × Bool) (hg : ts.get? i = some t)
    (hx : Task.commitOn t c = some x) : x ∈ committers ts c :=
  List.mem_filterMap.mpr ⟨t, List.get?_mem hg, hx⟩

theorem committers_set_drop (ts : List Task) (i : Nat) (t0 t : Task) (c : Nat)
    (x : Val × Int × Bool) (hg : ts.get? i = some t0)
    (hx : Task.commitOn t0 c = some x) (hn : Task.commitOn t c = none) :
    (committers (ts.set i t) c).length + 1 = (committers ts c).length := by
  induction ts generalizing i with
  | nil => exact absurd hg (by simp)
  | cons a rest ih =>
    cases i with
    | zero =>
      have ha : a = t0 := by simpa using hg
      subst ha
      show (committers (t :: rest) c).length + 1 = (committers (a :: rest) c).length
      simp [committers, List.filterMap_cons, hn, hx]
    | succ j =>
      have hrec := ih j hg
      show (committers (a :: rest.set j t) c).length + 1
        = (committers (a :: rest) c).length
      simp only [committers, List.filterMap_cons]
      cases Task.commitOn a c with
      | none => exact hrec
      | some y =>
        show ((y :: committers (rest.set j t) c).length) + 1
          = (y :: committers rest c).length
        simp only [List.length_cons]
        omega

theorem INV_of_INVp (cfg : Config) (h : INVp cfg.channels cfg.tasks) : INV cfg :=
  fun c hc => h c hc

theorem INVp_of_INV (cfg : Config) (h : INV cfg) : INVp cfg.channels cfg.tasks :=
  fun c hc => h c hc

theorem chPhaseCore_congr (ts1 ts2 : List Task) (c : Nat) (ch : ChanState)
    (hcom : committers ts2 c = committers ts1 c)
    (hnr : noResumedCommit ts1 c → noResumedCommit ts2 c)
    (h : chPhaseCore ts1 c ch) : chPhaseCore ts2 c ch := by
  unfold chPhaseCore at *
  rcases h with ⟨h1, h2, h3, h4, h5⟩ | ⟨h1, h2, h3, h4, h5⟩
  · exact Or.inl ⟨h1, h2, h3, h4, by rw [hcom]; exact h5⟩
  · refine Or.inr ⟨h1, h2, by rw [hcom]; exact h3, by rw [hcom]; exact h4, ?_⟩
    rcases h5 with ⟨a, b, d⟩ | hh | ⟨a, b, d⟩
    · exact Or.inl ⟨a, b, hnr d⟩
    · exact Or.inr (Or.inl hh)
    · exact Or.inr (Or.inr ⟨a, b, hnr d⟩)

theorem chPhase_congr (ts1 ts2 : List Task) (c : Nat) (ch : ChanState)
    (hcom : committers ts2 c = committers ts1 c)
    (hnr : noResumedCommit ts1 c → noResumedCommit ts2 c)
    (h : chPhase ts1 c ch) : chPhase ts2 c ch :=
  ⟨h.1, fun hcl => chPhaseCore_congr ts1 ts2 c ch hcom hnr (h.2 hcl)⟩

theorem chPhase_cv_irrel (ts : List Task) (c : Nat) (ch : ChanState)
    (rcv wrcv wwcv : List Handler) (h : chPhase ts c ch) :
    chPhase ts c { ch with readCV := rcv, writeReadCV := wrcv, writeWriteCV := wwcv } := by
  unfold chPhase chPhaseCore chTail at *
  dsimp only at *
  exact h

theorem mem_cvEntries (cv : List Handler) (tid : Nat) :
    tid ∈ cvEntries cv ↔ some tid ∈ cv := by
  unfold cvEntries
  rw [List.mem_filterMap]
  constructor
  · rintro ⟨a, ha, hae⟩
    cases a with
    | none => exact Option.noConfusion hae
    | some x =>
      have : x = tid := Option.some.inj hae
      subst this
      exact ha
  · intro h
    exact ⟨some tid, h, rfl⟩

theorem taskAt_eq (ts : List Task) (i : Nat) (t0 : Task) (p : Task → Bool)
    (hg : ts.get? i = some t0) : taskAt ts i p = p t0 := by
  unfold taskAt
  rw [hg]

theorem cvValidFor_remove_set (ts : List Task) (cv : List Handler)
    (p : Task → Bool) (i : Nat) (t : Task) (h : cvValidFor ts cv p) :
    cvValidFor (ts.set i t) (removeFromHandlers cv (some i)) p := by
  have hsub := removeFromHandlers_sublist cv (some i)
  refine ⟨h.1.sublist hsub, fun tid hm => ?_⟩
  have hm0 := hsub.mem hm
  have hne : tid ≠ i := by
    intro he
    subst he
    exact removeFromHandlers_not_mem cv tid h.1 ((mem_cvEntries _ _).mp hm)
  rw [taskAt_set_ne ts i tid t p hne]
  exact h.2 tid hm0

theorem readWait_not_commitWait (t : Task) (ca cb : Nat)
    (h : Task.isReadWaitOnB t ca = true) : Task.isCommitWaitOnB t cb = false := by
  cases t with
  | writer c2 v sig st => exact Bool.noConfusion h
  | reader c2 sig st => rfl
  | arm av c2 idx hs hf st => rfl

theorem readWait_not_admitWait (t : Task) (ca cb : Nat)
    (h : Task.isReadWaitOnB t ca = true) : Task.isAdmitWaitOnB t cb = false := by
  cases t with
  | writer c2 v sig st => exact Bool.noConfusion h
  | reader c2 sig st => rfl
  | arm av c2 idx hs hf st => rfl

theorem commitWait_not_readWait (t : Task) (ca cb : Nat)
    (h : Task.isCommitWaitOnB t ca = true) : Task.isReadWaitOnB t cb = false := by
  cases t with
  | writer c2 v sig st => cases st <;> rfl
  | reader c2 sig st => exact Bool.noConfusion h
  | arm av c2 idx hs hf st => exact Bool.noConfusion h

theorem commitWait_not_admitWait (t : Task) (ca cb : Nat)
    (h : Task.isCommitWaitOnB t ca = true) : Task.isAdmitWaitOnB t cb = false := by
  cases t with
  | writer c2 v sig st =>
    cases st with
    | commitWait tt => rfl
    | admitWait => exact Bool.noConfusion h
    | start => rfl
    | admitResumed b => rfl
    | commitResumed tt b => rfl
    | wdone r => rfl
  | reader c2 sig st => exact Bool.noConfusion h
  | arm av c2 idx hs hf st => exact Bool.noConfusion h

theorem admitWait_not_readWait (t : Task) (ca cb : Nat)
    (h : Task.isAdmitWaitOnB t ca = true) : Task.isReadWaitOnB t cb = false := by
  cases t with
  | writer c2 v sig st => cases st <;> rfl
  | reader c2 sig st => exact Bool.noConfusion h
  | arm av c2 idx hs hf st => exact Bool.noConfusion h

theorem admitWait_not_commitWait (t : Task) (ca cb : Nat)
    (h : Task.isAdmitWaitOnB t ca = true) : Task.isCommitWaitOnB t cb = false := by
  cases t with
  | writer c2 v sig st =>
    cases st with
    | admitWait => rfl
    | commitWait tt => exact Bool.noConfusion h
    | start => rfl
    | admitResumed b => rfl
    | commitResumed tt b => rfl
    | wdone r => rfl
  | reader c2 sig st => exact Bool.noConfusion h
  | arm av c2 idx hs hf st => exact Bool.noConfusion h

theorem readWait_channel_unique (t : Task) (ca cb : Nat)
    (ha : Task.isReadWaitOnB t ca = true) (hb : Task.isReadWaitOnB t cb = true) :
    ca = cb := by
  cases t with
  | writer c2 v sig st => exact Bool.noConfusion ha
  | reader c2 sig st =>
    cases st with
    | rwait =>
      have h1 : c2 = ca := by simpa [Task.isReadWaitOnB] using ha
      have h2 : c2 = cb := by simpa [Task.isReadWaitOnB] using hb
      omega
    | start => exact Bool.noConfusion ha
    | resumed b => exact Bool.noConfusion ha
    | rdone r => exact Bool.noConfusion ha
  | arm av c2 idx hs hf st =>
    cases st with
    | reading rst =>
      cases rst with
      | rwait =>
        have h1 : c2 = ca := by simpa [Task.isReadWaitOnB] using ha
        have h2 : c2 = cb := by simpa [Task.isReadWaitOnB] using hb
        omega
      | start => exact Bool.noConfusion ha
      | resumed b => exact Bool.noConfusion ha
      | rdone r => exact Bool.noConfusion ha
    | thenPhase v => exact Bool.noConfusion ha
    | handlerRun v n => exact Bool.noConfusion ha
    | armDone r => exact Bool.noConfusion ha

theorem commitWait_channel_unique (t : Task) (ca cb : Nat)
    (ha : Task.isCommitWaitOnB t ca = true) (hb : Task.isCommitWaitOnB t cb = true) :
    ca = cb := by
  cases t with
  | writer c2 v sig st =>
    cases st with
    | commitWait tt =>
      have h1 : c2 = ca := by simpa [Task.isCommitWaitOnB] using ha
      have h2 : c2 = cb := by simpa [Task.isCommitWaitOnB] using hb
      omega
    | start => exact Bool.noConfusion ha
    | admitWait => exact Bool.noConfusion ha
    | admitResumed b => exact Bool.noConfusion ha
    | commitResumed tt b => exact Bool.noConfusion ha
    | wdone r => exact Bool.noConfusion ha
  | reader c2 sig st => exact Bool.noConfusion ha
  | arm av c2 idx hs hf st => exact Bool.noConfusion ha

theorem admitWait_channel_unique (t : Task) (ca cb : Nat)
    (ha : Task.isAdmitWaitOnB t ca = true) (hb : Task.isAdmitWaitOnB t cb = true) :
    ca = cb := by
  cases t with
  | writer c2 v sig st =>
    cases st with
    | admitWait =>
      have h1 : c2 = ca := by simpa [Task.isAdmitWaitOnB] using ha
      have h2 : c2 = cb := by simpa [Task.isAdmitWaitOnB] using hb
      omega
    | start => exact Bool.noConfusion ha
    | commitWait tt => exact Bool.noConfusion ha
    | admitResumed b => exact Bool.noConfusion ha
    | commitResumed tt b => exact Bool.noConfusion ha
    | wdone r => exact Bool.noConfusion ha
  | reader c2 sig st => exact Bool.noConfusion ha
  | arm av c2 idx hs hf st => exact Bool.noConfusion ha

theorem getD_of_get? {α : Type} (l : List α) (i : Nat) (x d : α)
    (h : l.get? i = some x) : l.getD i d = x := by
  show (l.get? i).getD d = x
  rw [h]
  rfl

theorem getD_set_self {α : Type} (l : List α) (i : Nat) (x d : α)
    (h : i < l.length) : (l.set i x).getD i d = x := by
  show ((l.set i x).get? i).getD d = x
  rw [List.get?_set_eq_of_lt _ (by simpa using h)]
  rfl

theorem getD_set_other {α : Type} (l : List α) (i j : Nat) (x d : α)
    (h : i ≠ j) : (l.set i x).getD j d = l.getD j d := by
  show ((l.set i x).get? j).getD d = (l.get? j).getD d
  rw [List.get?_set_ne _ _ h]

theorem chPhase_fields (ts : List Task) (c : Nat) (ch1 ch2 : ChanState)
    (e1 : ch2.readSerial = ch1.readSerial) (e2 : ch2.writeSerial = ch1.writeSerial)
    (e3 : ch2.valueInTransit = ch1.valueInTransit) (e4 : ch2.closed = ch1.closed)
    (e5 : ch2.value = ch1.value) (e6 : ch2.readLog = ch1.readLog)
    (e7 : ch2.writeLog = ch1.writeLog) (hp : chPhase ts c ch1) : chPhase ts c ch2 := by
  unfold chPhase chPhaseCore chTail at *
  rw [e1, e2, e3, e4, e5, e6, e7]
  exact hp

theorem chanInvT_set_neutral (ts : List Task) (i : Nat) (t0 t1 : Task) (c : Nat)
    (ch : ChanState) (hg : ts.get? i = some t0)
    (hr : Task.isReadWaitOnB t0 c = true → Task.isReadWaitOnB t1 c = true)
    (hc : Task.isCommitWaitOnB t0 c = true → Task.isCommitWaitOnB t1 c = true)
    (ha : Task.isAdmitWaitOnB t0 c = true → Task.isAdmitWaitOnB t1 c = true)
    (hco : Task.commitOn t1 c = Task.commitOn t0 c)
    (hnr : Task.isResumedCommitOnB t0 c = false → Task.isResumedCommitOnB t1 c = false)
    (h : chanInvT ts c ch) : chanInvT (ts.set i t1) c ch := by
  obtain ⟨v1, v2, v3, v4⟩ := h
  have valid : ∀ (cv : List Handler) (p : Task → Bool),
      cvValidFor ts cv p → (p t0 = true → p t1 = true) →
      cvValidFor (ts.set i t1) cv p := by
    intro cv p hv himp
    refine ⟨hv.1, fun tid hm => ?_⟩
    by_cases hti : tid = i
    · subst hti
      rw [taskAt_set_self ts tid t1 t0 p hg]
      have := hv.2 tid hm
      rw [taskAt_eq ts tid t0 p hg] at this
      exact himp this
    · rw [taskAt_set_ne ts i tid t1 p hti]
      exact hv.2 tid hm
  refine ⟨valid _ _ v1 hr, valid _ _ v2 hc, valid _ _ v3 ha, ?_⟩
  exact chPhase_congr ts (ts.set i t1) c ch
    (committers_set_eq ts i t0 t1 c hg hco)
    (fun hn => noResumedCommit_set ts i t1 c hn (hnr (hn t0 (List.get?_mem hg))))
    v4

theorem inv_cancelWaiter (chs : List ChanState) (ts : List Task) (c i : Nat)
    (ch newCh : ChanState) (t0 t1 : Task) (hinv : INVp chs ts)
    (hch : chs.get? c = some ch) (hg : ts.get? i = some t0)
    (hrcv : newCh.readCV = removeFromHandlers ch.readCV (some i)
            ∨ (newCh.readCV = ch.readCV ∧ Task.isReadWaitOnB t0 c = false))
    (hwrcv : newCh.writeReadCV = removeFromHandlers ch.writeReadCV (some i)
            ∨ (newCh.writeReadCV = ch.writeReadCV ∧ Task.isCommitWaitOnB t0 c = false))
    (hwwcv : newCh.writeWriteCV = removeFromHandlers ch.writeWriteCV (some i)
            ∨ (newCh.writeWriteCV = ch.writeWriteCV ∧ Task.isAdmitWaitOnB t0 c = false))
    (hfields : newCh.readSerial = ch.readSerial ∧ newCh.writeSerial = ch.writeSerial ∧
      newCh.valueInTransit = ch.valueInTransit ∧ newCh.closed = ch.closed ∧
      newCh.value = ch.value ∧ newCh.readLog = ch.readLog ∧ newCh.writeLog = ch.writeLog)
    (hWother : ∀ x, x ≠ c → Task.isReadWaitOnB t0 x = false ∧
        Task.isCommitWaitOnB t0 x = false ∧ Task.isAdmitWaitOnB t0 x = false)
    (h1r : ∀ x, Task.isReadWaitOnB t1 x = false)
    (h1c : ∀ x, Task.isCommitWaitOnB t1 x = false)
    (h1a : ∀ x, Task.isAdmitWaitOnB t1 x = false)
    (hco0 : ∀ x, Task.commitOn t0 x = none)
    (hco1 : ∀ x, Task.commitOn t1 x = none)
    (h1nr : ∀ x, Task.isResumedCommitOnB t1 x = false) :
    INVp (chs.set c newCh) (ts.set i t1) := by
  have hclt : c < chs.length := by
    by_contra hge
    rw [List.get?_eq_none.mpr (Nat.le_of_not_lt hge)] at hch
    exact Option.noConfusion hch
  intro c2 hc2
  rw [List.length_set] at hc2
  have hbase := hinv c2 hc2
  obtain ⟨v1, v2, v3, v4⟩ := hbase
  by_cases hcc : c2 = c
  · subst hcc
    rw [getD_set_self chs c2 newCh ChanState.fresh hclt]
    have hchD : chs.getD c2 ChanState.fresh = ch := getD_of_get? _ _ _ _ hch
    rw [hchD] at v1 v2 v3 v4
    have hvalid : ∀ (cvOld cvNew : List Handler) (p : Task → Bool),
        cvValidFor ts cvOld p →
        (cvNew = removeFromHandlers cvOld (some i) ∨ (cvNew = cvOld ∧ p t0 = false)) →
        cvValidFor (ts.set i t1) cvNew p := by
      intro cvOld cvNew p hv hd
      rcases hd with hd | ⟨hd, hp0⟩
      · rw [hd]
        exact cvValidFor_remove_set ts cvOld p i t1 hv
      · rw [hd]
        refine cvValidFor_set_nonwaiter ts cvOld p i t1 hv ?_
        rw [taskAt_eq ts i t0 p hg]
        exact hp0
    refine ⟨hvalid _ _ _ v1 hrcv, hvalid _ _ _ v2 hwrcv, hvalid _ _ _ v3 hwwcv, ?_⟩
    obtain ⟨e1, e2, e3, e4, e5, e6, e7⟩ := hfields
    refine chPhase_fields (ts.set i t1) c2 ch newCh e1 e2 e3 e4 e5 e6 e7 ?_
    exact chPhase_congr ts (ts.set i t1) c2 ch
      (committers_set_eq ts i t0 t1 c2 hg (by rw [hco1, hco0]))
      (fun hn => noResumedCommit_set ts i t1 c2 hn (h1nr c2))
      v4
  · rw [getD_set_other chs c c2 newCh ChanState.fresh (fun he => hcc he.symm)]
    obtain ⟨w1, w2, w3⟩ := hWother c2 hcc
    refine chanInvT_set_neutral ts i t0 t1 c2 _ hg ?_ ?_ ?_ ?_ ?_ ⟨v1, v2, v3, v4⟩
    · intro hx; rw [w1] at hx; exact Bool.noConfusion hx
    · intro hx; rw [w2] at hx; exact Bool.noConfusion hx
    · intro hx; rw [w3] at hx; exact Bool.noConfusion hx
    · rw [hco1, hco0]
    · intro hx; exact h1nr c2

theorem resumeTask_not_commitWaitSig (t : Task) (b : Bool) (s : Nat)
    (h : Task.isCommitWaitSigB t s = false) :
    Task.isCommitWaitSigB (resumeTask t b) s = false := by
  cases t with
  | writer c v sig st => cases sig <;> cases st <;> first | rfl | exact h
  | reader c sig st => cases st <;> first | rfl | exact h
  | arm av c idx hs hf st =>
    cases st with
    | reading rst => cases rst <;> first | rfl | exact h
    | thenPhase v => exact h
    | handlerRun v n => exact h
    | armDone r => exact h

theorem abortOneTask_safe (selSig : Nat) (chs : List ChanState) (ts : List Task)
    (s i : Nat) (hsafe : ∀ t ∈ ts, Task.isCommitWaitSigB t s = false) :
    ∀ t ∈ (abortOneTask selSig chs ts s i).2, Task.isCommitWaitSigB t s = false := by
  rcases abortOneTask_shape selSig chs ts s i with heq | ⟨t0, hg, heq⟩
  · rw [heq]; exact hsafe
  · rw [heq]
    intro t ht
    rcases List.mem_or_eq_of_mem_set ht with h1 | h1
    · exact hsafe t h1
    · rw [h1]
      exact resumeTask_not_commitWaitSig t0 false s (hsafe t0 (List.get?_mem hg))

theorem inv_abortOneTask (selSig : Nat) (chs : List ChanState) (ts : List Task)
    (s i : Nat) (hinv : INVp chs ts)
    (hsafe : ∀ t ∈ ts, Task.isCommitWaitSigB t s = false) :
    INVp (abortOneTask selSig chs ts s i).1 (abortOneTask selSig chs ts s i).2 := by
  cases hg : ts.get? i with
  | none => simp only [abortOneTask, hg]; exact hinv
  | some t =>
    cases t with
    | writer c v sig st =>
      cases sig with
      | none => cases st <;> (simp only [abortOneTask, hg]; exact hinv)
      | some s2 =>
        cases st with
        | admitWait =>
          simp only [abortOneTask, hg]
          split
          · next hs2 =>
            cases hch : chs.get? c with
            | none => simp only [hch]; exact hinv
            | some ch =>
              simp only [hch]
              exact inv_cancelWaiter chs ts c i ch _ _ _ hinv hch hg
                (Or.inr ⟨rfl, rfl⟩) (Or.inr ⟨rfl, rfl⟩) (Or.inl rfl)
                ⟨rfl, rfl, rfl, rfl, rfl, rfl, rfl⟩
                (fun x hx => ⟨rfl, rfl, by simp [Task.isAdmitWaitOnB]; omega⟩)
                (fun x => rfl) (fun x => rfl) (fun x => rfl)
                (fun x => rfl) (fun x => rfl) (fun x => rfl)
          · exact hinv
        | commitWait tt =>
          simp only [abortOneTask, hg]
          split
          · next hs2 =>
            exfalso
            have hbad := hsafe _ (List.get?_mem hg)
            rw [hs2] at hbad
            simp [Task.isCommitWaitSigB] at hbad
          · exact hinv
        | start => simp only [abortOneTask, hg]; exact hinv
        | admitResumed b => simp only [abortOneTask, hg]; exact hinv
        | commitResumed tt b => simp only [abortOneTask, hg]; exact hinv
        | wdone r => simp only [abortOneTask, hg]; exact hinv
    | reader c sig st =>
      cases sig with
      | none => cases st <;> (simp only [abortOneTask, hg]; exact hinv)
      | some s2 =>
        cases st with
        | rwait =>
          simp only [abortOneTask, hg]
          split
          · next hs2 =>
            cases hch : chs.get? c with
            | none => simp only [hch]; exact hinv
            | some ch =>
              simp only [hch]
              exact inv_cancelWaiter chs ts c i ch _ _ _ hinv hch hg
                (Or.inl rfl) (Or.inr ⟨rfl, rfl⟩) (Or.inr ⟨rfl, rfl⟩)
                ⟨rfl, rfl, rfl, rfl, rfl, rfl, rfl⟩
                (fun x hx => ⟨by simp [Task.isReadWaitOnB]; omega, rfl, rfl⟩)
                (fun x => rfl) (fun x => rfl) (fun x => rfl)
                (fun x => rfl) (fun x => rfl) (fun x => rfl)
          · exact hinv
        | start => simp only [abortOneTask, hg]; exact hinv
        | resumed b => simp only [abortOneTask, hg]; exact hinv
        | rdone r => simp only [abortOneTask, hg]; exact hinv
    | arm av c idx hs2 hf st =>
      cases st with
      | reading rst =>
        cases rst with
        | rwait =>
          simp only [abortOneTask, hg]
          split
          · next hs2eq =>
            cases hch : chs.get? c with
            | none => simp only [hch]; exact hinv
            | some ch =>
              simp only [hch]
              exact inv_cancelWaiter chs ts c i ch _ _ _ hinv hch hg
                (Or.inl rfl) (Or.inr ⟨rfl, rfl⟩) (Or.inr ⟨rfl, rfl⟩)
                ⟨rfl, rfl, rfl, rfl, rfl, rfl, rfl⟩
                (fun x hx => ⟨by simp [Task.isReadWaitOnB]; omega, rfl, rfl⟩)
                (fun x => rfl) (fun x => rfl) (fun x => rfl)
                (fun x => rfl) (fun x => rfl) (fun x => rfl)
          · exact hinv
        | start => simp only [abortOneTask, hg]; exact hinv
        | resumed b => simp only [abortOneTask, hg]; exact hinv
        | rdone r => simp only [abortOneTask, hg]; exact hinv
      | thenPhase v => simp only [abortOneTask, hg]; exact hinv
      | handlerRun v n => simp only [abortOneTask, hg]; exact hinv
      | armDone r => simp only [abortOneTask, hg]; exact hinv

theorem inv_abortFold (selSig s : Nat) (l : List Nat)
    (st : List ChanState × List Task) (hinv : INVp st.1 st.2)
    (hsafe : ∀ t ∈ st.2, Task.isCommitWaitSigB t s = false) :
    INVp (l.foldl (fun acc i => abortOneTask selSig acc.1 acc.2 s i) st).1
         (l.foldl (fun acc i => abortOneTask selSig acc.1 acc.2 s i) st).2 := by
  induction l generalizing st with
  | nil => exact hinv
  | cons a rest ih =>
    exact ih (abortOneTask selSig st.1 st.2 s a)
      (inv_abortOneTask selSig st.1 st.2 s a hinv hsafe)
      (abortOneTask_safe selSig st.1 st.2 s a hsafe)

theorem inv_fireAbort (cfg : Config) (s : Nat) (hinv : INV cfg)
    (hsafe : abortSafeB cfg.tasks s = true) : INV (fireAbort cfg s) := by
  unfold fireAbort
  split
  · exact hinv
  · refine INV_of_INVp _ ?_
    have hsafe2 : ∀ t ∈ cfg.tasks, Task.isCommitWaitSigB t s = false := by
      intro t ht
      have := List.all_eq_true.mp hsafe t ht
      simpa using this
    exact inv_abortFold cfg.selSig s (List.range cfg.tasks.length)
      (cfg.channels, cfg.tasks) (INVp_of_INV cfg hinv) hsafe2

theorem cvValidFor_nil (ts : List Task) (p : Task → Bool) : cvValidFor ts [] p :=
  ⟨List.nodup_nil, fun tid hm => absurd hm (List.not_mem_nil tid)⟩

theorem commitWait_resumeTask_false (t : Task) (b : Bool) (c : Nat)
    (h : Task.isCommitWaitOnB t c = false) :
    Task.isCommitWaitOnB (resumeTask t b) c = false := by
  cases t with
  | writer c2 v sig st =>
    cases st with
    | commitWait tt => rfl
    | admitWait => rfl
    | start => exact h
    | admitResumed b2 => exact h
    | commitResumed tt b2 => exact h
    | wdone r => exact h
  | reader c2 sig st => cases st <;> rfl
  | arm av c2 idx hs hf st =>
    cases st with
    | reading rst => cases rst <;> rfl
    | thenPhase v => rfl
    | handlerRun v n => rfl
    | armDone r => rfl

theorem notifyAll_get_or (l : List Handler) (ts : List Task) (j : Nat) :
    (notifyAllRun l ts).1.get? j = ts.get? j ∨
    (∃ t0, ts.get? j = some t0 ∧
      (notifyAllRun l ts).1.get? j = some (resumeTask t0 true) ∧ some j ∈ l) := by
  induction l generalizing ts with
  | nil => exact Or.inl rfl
  | cons a rest ih =>
    cases a with
    | none => exact Or.inl rfl
    | some tid =>
      rw [show notifyAllRun (some tid :: rest) ts
            = notifyAllRun rest (resolveId ts tid true) from rfl]
      by_cases hji : j = tid
      · subst hji
        cases hg : ts.get? j with
        | none =>
          rcases ih (resolveId ts j true) with he | ⟨t0, h0, he, hm⟩
          · left
            rw [he]
            have : resolveId ts j true = ts := by
              unfold resolveId
              rw [hg]
            rw [this]
            exact hg
          · exfalso
            have h0b : ts.get? j = some t0 := by
              have : resolveId ts j true = ts := by
                unfold resolveId
                rw [hg]
              rw [this] at h0
              exact h0
            rw [hg] at h0b
            exact Option.noConfusion h0b
        | some t0 =>
          rcases ih (resolveId ts j true) with he | ⟨t1, h1, he, hm⟩
          · right
            refine ⟨t0, rfl, ?_, List.mem_cons_self _ _⟩
            rw [he]
            exact resolveId_get_self ts j true t0 hg
          · right
            refine ⟨t0, rfl, ?_, List.mem_cons_self _ _⟩
            have h2 : t1 = resumeTask t0 true := by
              rw [resolveId_get_self ts j true t0 hg] at h1
              exact (Option.some.inj h1).symm
            rw [he, h2, resumeTask_idem]
      · rcases ih (resolveId ts tid true) with he | ⟨t0, h0, he, hm⟩
        · left
          rw [he]
          exact resolveId_get_ne ts tid j true (fun hh => hji hh.symm)
        · right
          rw [resolveId_get_ne ts tid j true (fun hh => hji hh.symm)] at h0
          exact ⟨t0, h0, he, List.mem_cons_of_mem _ hm⟩

theorem cvValid_after_notifyAll (l : List Handler) (ts : List Task)
    (cv : List Handler) (p : Task → Bool) (hv : cvValidFor ts cv p)
    (hdisj : ∀ tid, tid ∈ cvEntries cv → some tid ∈ l → False) :
    cvValidFor (notifyAllRun l ts).1 cv p := by
  refine ⟨hv.1, fun tid hm => ?_⟩
  rcases notifyAll_get_or l ts tid with he | ⟨t0, h0, he, hmem⟩
  · unfold taskAt
    rw [he]
    exact hv.2 tid hm
  · exact absurd hmem (fun hx => hdisj tid hm hx)

theorem committers_notifyAll (l : List Handler) (ts : List Task) (c : Nat) :
    committers (notifyAllRun l ts).1 c = committers ts c := by
  induction l generalizing ts with
  | nil => rfl
  | cons a rest ih =>
    cases a with
    | none => rfl
    | some tid =>
      rw [show notifyAllRun (some tid :: rest) ts
            = notifyAllRun rest (resolveId ts tid true) from rfl,
          ih (resolveId ts tid true), committers_resolveId_true]

theorem noResumedCommit_notifyAll (l : List Handler) (ts : List Task) (c : Nat)
    (hn : noResumedCommit ts c)
    (hsafe : ∀ tid, some tid ∈ l → taskAt ts tid (Task.isCommitWaitOnB · c) = false) :
    noResumedCommit (notifyAllRun l ts).1 c := by
  induction l generalizing ts with
  | nil => exact hn
  | cons a rest ih =>
    cases a with
    | none => exact hn
    | some tid =>
      rw [show notifyAllRun (some tid :: rest) ts
            = notifyAllRun rest (resolveId ts tid true) from rfl]
      refine ih (resolveId ts tid true)
        (noResumedCommit_resolveId ts tid true c hn
          (hsafe tid (List.mem_cons_self _ _))) ?_
      intro tid2 hm2
      by_cases ht : tid2 = tid
      · subst ht
        unfold resolveId
        cases hg : ts.get? tid2 with
        | none =>
          unfold taskAt
          rw [hg]
        | some t0 =>
          rw [taskAt_set_self ts tid2 (resumeTask t0 true) t0 _ hg]
          refine commitWait_resumeTask_false t0 true c ?_
          have := hsafe tid2 (List.mem_cons_self _ _)
          rw [taskAt_eq ts tid2 t0 _ hg] at this
          exact this
      · rw [taskAt_resolveId_ne ts tid tid2 true _ (fun hh => ht hh.symm)]
        exact hsafe tid2 (List.mem_cons_of_mem _ hm2)

theorem cvDisj (ts : List Task) (cv1 cv2 : List Handler) (p1 p2 : Task → Bool)
    (hv1 : cvValidFor ts cv1 p1) (hv2 : cvValidFor ts cv2 p2)
    (hx : ∀ t, p1 t = true → p2 t = false) :
    ∀ tid, tid ∈ cvEntries cv2 → some tid ∈ cv1 → False := by
  intro tid h2 h1
  have a1 := hv1.2 tid ((mem_cvEntries _ _).mpr h1)
  have a2 := hv2.2 tid h2
  cases hg : ts.get? tid with
  | none =>
    unfold taskAt at a1
    rw [hg] at a1
    exact Bool.noConfusion a1
  | some t =>
    rw [taskAt_eq ts tid t p1 hg] at a1
    rw [taskAt_eq ts tid t p2 hg] at a2
    rw [hx t a1] at a2
    exact Bool.noConfusion a2

theorem waiters_safe_for (ts : List Task) (cv : List Handler) (p : Task → Bool)
    (q : Task → Bool) (hv : cvValidFor ts cv p)
    (hx : ∀ t, p t = true → q t = false) :
    ∀ tid, some tid ∈ cv → taskAt ts tid q = false := by
  intro tid hm
  have a1 := hv.2 tid ((mem_cvEntries _ _).mpr hm)
  unfold taskAt at a1 ⊢
  cases hg : ts.get? tid with
  | none => rfl
  | some t =>
    rw [hg] at a1
    exact hx t a1

theorem inv_doClose (cfg : Config) (c : Nat) (hinv : INV cfg) : INV (doClose cfg c) := by
  unfold doClose
  cases hch : cfg.channels.get? c with
  | none => exact hinv
  | some ch =>
    dsimp only
    by_cases hcl : ch.closed = true
    · rw [if_pos hcl]
      exact hinv
    · rw [if_neg hcl]
      have hclt : c < cfg.channels.length := by
        by_contra hge
        rw [List.get?_eq_none.mpr (Nat.le_of_not_lt hge)] at hch
        exact Option.noConfusion hch
      have hchD : cfg.channels.getD c ChanState.fresh = ch := getD_of_get? _ _ _ _ hch
      obtain ⟨v1, v2, v3, v4⟩ := hinv c hclt
      rw [hchD] at v1 v2 v3 v4
      cases hn1 : notifyAllRun ch.readCV cfg.tasks with
      | mk tasks1 crash1 =>
        have S1 : ∀ (cv : List Handler) (p : Task → Bool), cvValidFor cfg.tasks cv p →
            (∀ t, Task.isReadWaitOnB t c = true → p t = false) →
            cvValidFor tasks1 cv p := by
          intro cv p hv hx
          have h := cvValid_after_notifyAll ch.readCV cfg.tasks cv p hv
            (cvDisj cfg.tasks ch.readCV cv (Task.isReadWaitOnB · c) p v1 hv hx)
          rw [hn1] at h
          exact h
        have S1com : ∀ x, committers tasks1 x = committers cfg.tasks x := by
          intro x
          have h := committers_notifyAll ch.readCV cfg.tasks x
          rw [hn1] at h
          exact h
        have S1nr : ∀ x, noResumedCommit cfg.tasks x → noResumedCommit tasks1 x := by
          intro x hn
          have h := noResumedCommit_notifyAll ch.readCV cfg.tasks x hn
            (waiters_safe_for cfg.tasks ch.readCV (Task.isReadWaitOnB · c) _ v1
              (fun t ht => readWait_not_commitWait t c x ht))
          rw [hn1] at h
          exact h
        have w2' : cvValidFor tasks1 ch.writeReadCV (Task.isCommitWaitOnB · c) :=
          S1 _ _ v2 (fun t ht => readWait_not_commitWait t c c ht)
        have w3' : cvValidFor tasks1 ch.writeWriteCV (Task.isAdmitWaitOnB · c) :=
          S1 _ _ v3 (fun t ht => readWait_not_admitWait t c c ht)
        have otherOK1 : ∀ c2, c2 ≠ c → c2 < cfg.channels.length →
            chanInvT tasks1 c2 (cfg.channels.getD c2 ChanState.fresh) := by
          intro c2 hne hlt2
          obtain ⟨u1, u2, u3, u4⟩ := hinv c2 hlt2
          refine ⟨?_, ?_, ?_, ?_⟩
          · refine S1 _ _ u1 ?_
            intro t ht
            cases hb : Task.isReadWaitOnB t c2 with
            | false => rfl
            | true => exact absurd (readWait_channel_unique t c c2 ht hb).symm hne
          · exact S1 _ _ u2 (fun t ht => readWait_not_commitWait t c c2 ht)
          · exact S1 _ _ u3 (fun t ht => readWait_not_admitWait t c c2 ht)
          · exact chPhase_congr cfg.tasks tasks1 c2 _ (S1com c2) (S1nr c2) u4
        dsimp only
        cases crash1 with
        | true =>
          rw [bool_if_true]
          intro c2 hc2
          have hc2' : c2 < cfg.channels.length := by
            simpa [setCh] using hc2
          by_cases hcc : c2 = c
          · subst hcc
            show chanInvT tasks1 c2
              ((cfg.channels.set c2 _).getD c2 ChanState.fresh)
            rw [getD_set_self cfg.channels c2 _ ChanState.fresh hclt]
            refine ⟨cvValidFor_nil _ _, w2', w3', ?_, ?_⟩
            · exact v4.1
            · intro hcl2
              exact absurd hcl2 (by simp)
          · show chanInvT tasks1 c2
              ((cfg.channels.set c _).getD c2 ChanState.fresh)
            rw [getD_set_other cfg.channels c c2 _ ChanState.fresh
              (fun he => hcc he.symm)]
            exact otherOK1 c2 hcc hc2'
        | false =>
          rw [bool_if_false]
          cases hn2 : notifyAllRun ch.writeReadCV tasks1 with
          | mk tasks2 crash2 =>
            have S2 : ∀ (cv : List Handler) (p : Task → Bool), cvValidFor tasks1 cv p →
                (∀ t, Task.isCommitWaitOnB t c = true → p t = false) →
                cvValidFor tasks2 cv p := by
              intro cv p hv hx
              have h := cvValid_after_notifyAll ch.writeReadCV tasks1 cv p hv
                (cvDisj tasks1 ch.writeReadCV cv (Task.isCommitWaitOnB · c) p w2' hv hx)
              rw [hn2] at h
              exact h
            have S2com : ∀ x, committers tasks2 x = committers tasks1 x := by
              intro x
              have h := committers_notifyAll ch.writeReadCV tasks1 x
              rw [hn2] at h
              exact h
            have S2nr : ∀ x, x ≠ c → noResumedCommit tasks1 x → noResumedCommit tasks2 x := by
              intro x hne hn
              have h := noResumedCommit_notifyAll ch.writeReadCV tasks1 x hn
                (waiters_safe_for tasks1 ch.writeReadCV (Task.isCommitWaitOnB · c) _ w2'
                  (fun t ht => by
                    cases hb : Task.isCommitWaitOnB t x with
                    | false => rfl
                    | true => exact absurd (commitWait_channel_unique t c x ht hb).symm hne))
              rw [hn2] at h
              exact h
            have w3x : cvValidFor tasks2 ch.writeWriteCV (Task.isAdmitWaitOnB · c) :=
              S2 _ _ w3' (fun t ht => commitWait_not_admitWait t c c ht)
            have otherOK2 : ∀ c2, c2 ≠ c → c2 < cfg.channels.length →
                chanInvT tasks2 c2 (cfg.channels.getD c2 ChanState.fresh) := by
              intro c2 hne hlt2
              obtain ⟨u1, u2, u3, u4⟩ := otherOK1 c2 hne hlt2
              refine ⟨?_, ?_, ?_, ?_⟩
              · exact S2 _ _ u1 (fun t ht => commitWait_not_readWait t c c2 ht)
              · refine S2 _ _ u2 ?_
                intro t ht
                cases hb : Task.isCommitWaitOnB t c2 with
                | false => rfl
                | true => exact absurd (commitWait_channel_unique t c c2 ht hb).symm hne
              · exact S2 _ _ u3 (fun t ht => commitWait_not_admitWait t c c2 ht)
              · exact chPhase_congr tasks1 tasks2 c2 _ (S2com c2) (S2nr c2 hne) u4
            dsimp only
            cases crash2 with
            | true =>
              rw [bool_if_true]
              intro c2 hc2
              have hc2' : c2 < cfg.channels.length := by
                simpa [setCh] using hc2
              by_cases hcc : c2 = c
              · subst hcc
                show chanInvT tasks2 c2
                  ((cfg.channels.set c2 _).getD c2 ChanState.fresh)
                rw [getD_set_self cfg.channels c2 _ ChanState.fresh hclt]
                refine ⟨cvValidFor_nil _ _, cvValidFor_nil _ _, w3x, ?_, ?_⟩
                · exact v4.1
                · intro hcl2
                  exact absurd hcl2 (by simp)
              · show chanInvT tasks2 c2
                  ((cfg.channels.set c _).getD c2 ChanState.fresh)
                rw [getD_set_other cfg.channels c c2 _ ChanState.fresh
                  (fun he => hcc he.symm)]
                exact otherOK2 c2 hcc hc2'
            | false =>
              rw [bool_if_false]
              cases hn3 : notifyAllRun ch.writeWriteCV tasks2 with
              | mk tasks3 crash3 =>
                have S3 : ∀ (cv : List Handler) (p : Task → Bool), cvValidFor tasks2 cv p →
                    (∀ t, Task.isAdmitWaitOnB t c = true → p t = false) →
                    cvValidFor tasks3 cv p := by
                  intro cv p hv hx
                  have h := cvValid_after_notifyAll ch.writeWriteCV tasks2 cv p hv
                    (cvDisj tasks2 ch.writeWriteCV cv (Task.isAdmitWaitOnB · c) p w3x hv hx)
                  rw [hn3] at h
                  exact h
                have S3com : ∀ x, committers tasks3 x = committers tasks2 x := by
                  intro x
                  have h := committers_notifyAll ch.writeWriteCV tasks2 x
                  rw [hn3] at h
                  exact h
                have S3nr : ∀ x, noResumedCommit tasks2 x → noResumedCommit tasks3 x := by
                  intro x hn
                  have h := noResumedCommit_notifyAll ch.writeWriteCV tasks2 x hn
                    (waiters_safe_for tasks2 ch.writeWriteCV (Task.isAdmitWaitOnB · c) _ w3x
                      (fun t ht => admitWait_not_commitWait t c x ht))
                  rw [hn3] at h
                  exact h
                have otherOK3 : ∀ c2, c2 ≠ c → c2 < cfg.channels.length →
                    chanInvT tasks3 c2 (cfg.channels.getD c2 ChanState.fresh) := by
                  intro c2 hne hlt2
                  obtain ⟨u1, u2, u3, u4⟩ := otherOK2 c2 hne hlt2
                  refine ⟨?_, ?_, ?_, ?_⟩
                  · exact S3 _ _ u1 (fun t ht => admitWait_not_readWait t c c2 ht)
                  · exact S3 _ _ u2 (fun t ht => admitWait_not_commitWait t c c2 ht)
                  · refine S3 _ _ u3 ?_
                    intro t ht
                    cases hb : Task.isAdmitWaitOnB t c2 with
                    | false => rfl
                    | true => exact absurd (admitWait_channel_unique t c c2 ht hb).symm hne
                  · exact chPhase_congr tasks2 tasks3 c2 _ (S3com c2) (S3nr c2) u4
                have mainC : ∀ ch9 : ChanState,
                    ch9.readCV = [] → ch9.writeReadCV = [] → ch9.writeWriteCV = [] →
                    ch9.closed = true → ch9.readLog = ch.readLog →
                    ch9.writeLog = ch.writeLog →
                    chanInvT tasks3 c ch9 := by
                  intro ch9 e1 e2 e3 e4 e5 e6
                  refine ⟨?_, ?_, ?_, ?_, ?_⟩
                  · rw [e1]; exact cvValidFor_nil _ _
                  · rw [e2]; exact cvValidFor_nil _ _
                  · rw [e3]; exact cvValidFor_nil _ _
                  · rw [e5, e6]; exact v4.1
                  · intro hcl2
                    rw [e4] at hcl2
                    exact Bool.noConfusion hcl2
                dsimp only
                cases crash3 with
                | true =>
                  rw [bool_if_true]
                  intro c2 hc2
                  have hc2' : c2 < cfg.channels.length := by
                    simpa [setCh] using hc2
                  by_cases hcc : c2 = c
                  · subst hcc
                    show chanInvT tasks3 c2
                      ((cfg.channels.set c2 _).getD c2 ChanState.fresh)
                    rw [getD_set_self cfg.channels c2 _ ChanState.fresh hclt]
                    exact mainC _ rfl rfl rfl rfl rfl rfl
                  · show chanInvT tasks3 c2
                      ((cfg.channels.set c _).getD c2 ChanState.fresh)
                    rw [getD_set_other cfg.channels c c2 _ ChanState.fresh
                      (fun he => hcc he.symm)]
                    exact otherOK3 c2 hcc hc2'
                | false =>
                  rw [bool_if_false]
                  intro c2 hc2
                  have hc2' : c2 < cfg.channels.length := by
                    simpa [setCh] using hc2
                  by_cases hcc : c2 = c
                  · subst hcc
                    show chanInvT tasks3 c2
                      ((cfg.channels.set c2 _).getD c2 ChanState.fresh)
                    rw [getD_set_self cfg.channels c2 _ ChanState.fresh hclt]
                    exact mainC _ rfl rfl rfl rfl rfl rfl
                  · show chanInvT tasks3 c2
                      ((cfg.channels.set c _).getD c2 ChanState.fresh)
                    rw [getD_set_other cfg.channels c c2 _ ChanState.fresh
                      (fun he => hcc he.symm)]
                    exact otherOK3 c2 hcc hc2'

theorem resolveId_eq_set (ts : List Task) (tid : Nat) (b : Bool) (t0 : Task)
    (hg : ts.get? tid = some t0) :
    resolveId ts tid b = ts.set tid (resumeTask t0 b) := by
  unfold resolveId
  rw [hg]

theorem resolveId_eq_self (ts : List Task) (tid : Nat) (b : Bool)
    (hg : ts.get? tid = none) : resolveId ts tid b = ts := by
  unfold resolveId
  rw [hg]

theorem notifyOneRun_spec (cv : List Handler) (k : Nat) (ts : List Task)
    (p : Task → Bool) (hv : cvValidFor ts cv p) :
    (notifyOneRun cv k ts = (cv, ts, false) ∧ cv = []) ∨
    ((notifyOneRun cv k ts).2.2 = true ∧ (notifyOneRun cv k ts).2.1 = ts ∧
      List.Sublist (cvEntries (notifyOneRun cv k ts).1) (cvEntries cv)) ∨
    (∃ tid t0, ts.get? tid = some t0 ∧ p t0 = true ∧
      (notifyOneRun cv k ts).1 = removeFromHandlers cv (some tid) ∧
      (notifyOneRun cv k ts).2.1 = resolveId ts tid true ∧
      (notifyOneRun cv k ts).2.2 = false ∧
      tid ∉ cvEntries (notifyOneRun cv k ts).1 ∧
      List.Sublist (cvEntries (notifyOneRun cv k ts).1) (cvEntries cv)) := by
  unfold notifyOneRun
  split
  · next hlen =>
    left
    refine ⟨rfl, ?_⟩
    cases cv with
    | nil => rfl
    | cons a rest => exact absurd hlen (by simp)
  · next hlen =>
    dsimp only
    cases hpick : cv.getD (k % cv.length) none with
    | none =>
      right; left
      exact ⟨rfl, rfl, removeFromHandlers_sublist cv none⟩
    | some tid =>
      right; right
      have hmem : some tid ∈ cv := mem_of_getD_some cv _ tid hpick
      have hval := hv.2 tid ((mem_cvEntries _ _).mpr hmem)
      cases hg : ts.get? tid with
      | none =>
        exfalso
        unfold taskAt at hval
        rw [hg] at hval
        exact Bool.noConfusion hval
      | some t0 =>
        rw [taskAt_eq ts tid t0 p hg] at hval
        refine ⟨tid, t0, hg, hval, rfl, rfl, rfl, ?_, removeFromHandlers_sublist cv _⟩
        intro hm
        exact removeFromHandlers_not_mem cv tid hv.1 ((mem_cvEntries _ _).mp hm)

theorem readWait_shape (t : Task) (c : Nat) (h : Task.isReadWaitOnB t c = true) :
    (∃ sig, t = Task.reader c sig .rwait) ∨
    (∃ av idx hs hf, t = Task.arm av c idx hs hf (.reading .rwait)) := by
  cases t with
  | writer c2 v sig st => exact Bool.noConfusion h
  | reader c2 sig st =>
    cases st with
    | rwait =>
      have hc : c2 = c := by simpa [Task.isReadWaitOnB] using h
      subst hc
      exact Or.inl ⟨sig, rfl⟩
    | start => exact Bool.noConfusion h
    | resumed b => exact Bool.noConfusion h
    | rdone r => exact Bool.noConfusion h
  | arm av c2 idx hs hf st =>
    cases st with
    | reading rst =>
      cases rst with
      | rwait =>
        have hc : c2 = c := by simpa [Task.isReadWaitOnB] using h
        subst hc
        exact Or.inr ⟨av, idx, hs, hf, rfl⟩
      | start => exact Bool.noConfusion h
      | resumed b => exact Bool.noConfusion h
      | rdone r => exact Bool.noConfusion h
    | thenPhase v => exact Bool.noConfusion h
    | handlerRun v n => exact Bool.noConfusion h
    | armDone r => exact Bool.noConfusion h

theorem commitWait_shape (t : Task) (c : Nat) (h : Task.isCommitWaitOnB t c = true) :
    ∃ v sig tt, t = Task.writer c v sig (.commitWait tt) := by
  cases t with
  | writer c2 v sig st =>
    cases st with
    | commitWait tt =>
      have hc : c2 = c := by simpa [Task.isCommitWaitOnB] using h
      subst hc
      exact ⟨v, sig, tt, rfl⟩
    | start => exact Bool.noConfusion h
    | admitWait => exact Bool.noConfusion h
    | admitResumed b => exact Bool.noConfusion h
    | commitResumed tt b => exact Bool.noConfusion h
    | wdone r => exact Bool.noConfusion h
  | reader c2 sig st => exact Bool.noConfusion h
  | arm av c2 idx hs hf st => exact Bool.noConfusion h

theorem admitWait_shape (t : Task) (c : Nat) (h : Task.isAdmitWaitOnB t c = true) :
    ∃ v sig, t = Task.writer c v sig .admitWait := by
  cases t with
  | writer c2 v sig st =>
    cases st with
    | admitWait =>
      have hc : c2 = c := by simpa [Task.isAdmitWaitOnB] using h
      subst hc
      exact ⟨v, sig, rfl⟩
    | start => exact Bool.noConfusion h
    | commitWait tt => exact Bool.noConfusion h
    | admitResumed b => exact Bool.noConfusion h
    | commitResumed tt b => exact Bool.noConfusion h
    | wdone r => exact Bool.noConfusion h
  | reader c2 sig st => exact Bool.noConfusion h
  | arm av c2 idx hs hf st => exact Bool.noConfusion h

theorem logs_eq_of_tail_nil (ch : ChanState)
    (hpre : ch.readLog.take ch.writeLog.length = ch.writeLog.map some)
    (htail : chTail ch = []) : ch.readLog = ch.writeLog.map some := by
  unfold chTail at htail
  have hlen : ch.readLog.length ≤ ch.writeLog.length := by
    by_contra hgt
    have : ch.readLog.drop ch.writeLog.length ≠ [] := by
      intro hnil
      have := List.drop_eq_nil_iff_le.mp hnil
      omega
    exact this htail
  calc ch.readLog = ch.readLog.take ch.writeLog.length := by
        rw [List.take_of_length_le hlen]
    _ = ch.writeLog.map some := hpre

theorem cvValidFor_notify_self (ts : List Task) (cv : List Handler)
    (p : Task → Bool) (tid : Nat) (b : Bool) (hv : cvValidFor ts cv p) :
    cvValidFor (resolveId ts tid b) (removeFromHandlers cv (some tid)) p := by
  have hsub := removeFromHandlers_sublist cv (some tid)
  refine ⟨hv.1.sublist hsub, fun tid2 hm => ?_⟩
  have hne : tid2 ≠ tid := by
    intro he
    subst he
    exact removeFromHandlers_not_mem cv tid2 hv.1 ((mem_cvEntries _ _).mp hm)
  rw [taskAt_resolveId_ne ts tid tid2 b p (fun hh => hne hh.symm)]
  exact hv.2 tid2 (hsub.mem hm)

theorem notMem_entries_of_excl (ts : List Task) (cv : List Handler)
    (p q : Task → Bool) (tid : Nat) (t : Task) (hv : cvValidFor ts cv p)
    (hg : ts.get? tid = some t) (hq : q t = true)
    (hx : ∀ t2, q t2 = true → p t2 = false) : tid ∉ cvEntries cv := by
  intro hm
  have := hv.2 tid hm
  rw [taskAt_eq ts tid t p hg] at this
  rw [hx t hq] at this
  exact Bool.noConfusion this

theorem chanInvT_resolve_other (ts : List Task) (tid : Nat) (c c2 : Nat)
    (ch2 : ChanState) (hne : c2 ≠ c) (t0 : Task) (hg : ts.get? tid = some t0)
    (hw : Task.isReadWaitOnB t0 c = true ∨ Task.isCommitWaitOnB t0 c = true ∨
          Task.isAdmitWaitOnB t0 c = true)
    (h : chanInvT ts c2 ch2) : chanInvT (resolveId ts tid true) c2 ch2 := by
  rw [resolveId_eq_set ts tid true t0 hg]
  rcases hw with hw | hw | hw
  · rcases readWait_shape t0 c hw with ⟨sig, rfl⟩ | ⟨av, idx, hs, hf, rfl⟩
    · refine chanInvT_set_neutral ts tid _ _ c2 ch2 hg ?_ ?_ ?_ rfl (fun hx => rfl) h
      · intro hx
        have hcc : c = c2 := by simpa [Task.isReadWaitOnB] using hx
        exact absurd hcc.symm hne
      · intro hx
        exact Bool.noConfusion hx
      · intro hx
        exact Bool.noConfusion hx
    · refine chanInvT_set_neutral ts tid _ _ c2 ch2 hg ?_ ?_ ?_ rfl (fun hx => rfl) h
      · intro hx
        have hcc : c = c2 := by simpa [Task.isReadWaitOnB] using hx
        exact absurd hcc.symm hne
      · intro hx
        exact Bool.noConfusion hx
      · intro hx
        exact Bool.noConfusion hx
  · obtain ⟨v, sig, tt, rfl⟩ := commitWait_shape t0 c hw
    refine chanInvT_set_neutral ts tid _ _ c2 ch2 hg ?_ ?_ ?_
      (commitOn_resumeTask_true _ c2) ?_ h
    · intro hx
      exact Bool.noConfusion hx
    · intro hx
      have hcc : c = c2 := by simpa [Task.isCommitWaitOnB] using hx
      exact absurd hcc.symm hne
    · intro hx
      exact Bool.noConfusion hx
    · intro hx
      show Task.isResumedCommitOnB (Task.writer c v sig (.commitResumed tt true)) c2 = false
      simp [Task.isResumedCommitOnB]
      omega
  · obtain ⟨v, sig, rfl⟩ := admitWait_shape t0 c hw
    refine chanInvT_set_neutral ts tid _ _ c2 ch2 hg ?_ ?_ ?_ rfl (fun hx => rfl) h
    · intro hx
      exact Bool.noConfusion hx
    · intro hx
      exact Bool.noConfusion hx
    · intro hx
      have hcc : c = c2 := by simpa [Task.isAdmitWaitOnB] using hx
      exact absurd hcc.symm hne

theorem inv_neutralTasks (cfg : Config) (i : Nat) (t0 t1 : Task) (hinv : INV cfg)
    (hg : cfg.tasks.get? i = some t0)
    (h0r : ∀ x, Task.isReadWaitOnB t0 x = false)
    (h0c : ∀ x, Task.isCommitWaitOnB t0 x = false)
    (h0a : ∀ x, Task.isAdmitWaitOnB t0 x = false)
    (h0co : ∀ x, Task.commitOn t0 x = none)
    (h1co : ∀ x, Task.commitOn t1 x = none)
    (h1nr : ∀ x, Task.isResumedCommitOnB t1 x = false) :
    INVp cfg.channels (cfg.tasks.set i t1) := by
  intro c2 hc2
  exact chanInvT_set_neutral cfg.tasks i t0 t1 c2 _ hg
    (fun hx => by rw [h0r c2] at hx; exact Bool.noConfusion hx)
    (fun hx => by rw [h0c c2] at hx; exact Bool.noConfusion hx)
    (fun hx => by rw [h0a c2] at hx; exact Bool.noConfusion hx)
    (by rw [h1co c2, h0co c2])
    (fun hx => h1nr c2) (hinv c2 hc2)

theorem inv_neutralSet (cfg : Config) (c i : Nat) (ch : ChanState) (t0 t1 : Task)
    (hinv : INV cfg) (hch : cfg.channels.get? c = some ch)
    (hg : cfg.tasks.get? i = some t0)
    (h0r : ∀ x, Task.isReadWaitOnB t0 x = false)
    (h0c : ∀ x, Task.isCommitWaitOnB t0 x = false)
    (h0a : ∀ x, Task.isAdmitWaitOnB t0 x = false)
    (h0co : ∀ x, Task.commitOn t0 x = none)
    (h1co : ∀ x, Task.commitOn t1 x = none)
    (h1nr : ∀ x, Task.isResumedCommitOnB t1 x = false) :
    INVp (cfg.channels.set c ch) (cfg.tasks.set i t1) := by
  have hclt : c < cfg.channels.length := by
    by_contra hge
    rw [List.get?_eq_none.mpr (Nat.le_of_not_lt hge)] at hch
    exact Option.noConfusion hch
  intro c2 hc2
  rw [List.length_set] at hc2
  have hneut := chanInvT_set_neutral cfg.tasks i t0 t1 c2 _ hg
    (fun hx => by rw [h0r c2] at hx; exact Bool.noConfusion hx)
    (fun hx => by rw [h0c c2] at hx; exact Bool.noConfusion hx)
    (fun hx => by rw [h0a c2] at hx; exact Bool.noConfusion hx)
    (by rw [h1co c2, h0co c2])
    (fun hx => h1nr c2) (hinv c2 hc2)
  by_cases hcc : c2 = c
  · subst hcc
    rw [getD_set_self _ _ _ _ hclt]
    rw [getD_of_get? _ _ _ _ hch] at hneut
    exact hneut
  · rw [getD_set_other _ _ _ _ _ (fun he => hcc he.symm)]
    exact hneut

theorem inv_readerRegister (cfg : Config) (c i : Nat) (ch : ChanState)
    (t0 t1 : Task) (hinv : INV cfg) (hch : cfg.channels.get? c = some ch)
    (hg : cfg.tasks.get? i = some t0)
    (h0r : ∀ x, Task.isReadWaitOnB t0 x = false)
    (h0c : ∀ x, Task.isCommitWaitOnB t0 x = false)
    (h0a : ∀ x, Task.isAdmitWaitOnB t0 x = false)
    (h0co : ∀ x, Task.commitOn t0 x = none)
    (h1rc : Task.isReadWaitOnB t1 c = true)
    (h1ro : ∀ x, x ≠ c → Task.isReadWaitOnB t1 x = false)
    (h1c : ∀ x, Task.isCommitWaitOnB t1 x = false)
    (h1a : ∀ x, Task.isAdmitWaitOnB t1 x = false)
    (h1co : ∀ x, Task.commitOn t1 x = none)
    (h1nr : ∀ x, Task.isResumedCommitOnB t1 x = false) :
    INVp (cfg.channels.set c { ch with readCV := ch.readCV ++ [some i] })
      (cfg.tasks.set i t1) := by
  have hclt : c < cfg.channels.length := by
    by_contra hge
    rw [List.get?_eq_none.mpr (Nat.le_of_not_lt hge)] at hch
    exact Option.noConfusion hch
  intro c2 hc2
  rw [List.length_set] at hc2
  by_cases hcc : c2 = c
  · subst hcc
    rw [getD_set_self _ _ _ _ hclt]
    obtain ⟨v1, v2, v3, v4⟩ := hinv c2 hc2
    rw [getD_of_get? _ _ _ _ hch] at v1 v2 v3 v4
    refine ⟨?_, ?_, ?_, ?_⟩
    · exact cvValidFor_append cfg.tasks ch.readCV _ i t1 v1
        (by rw [taskAt_eq cfg.tasks i t0 _ hg]; exact h0r c2)
        (by rw [hg]; exact fun hx => Option.noConfusion hx) h1rc
    · exact cvValidFor_set_nonwaiter cfg.tasks ch.writeReadCV _ i t1 v2
        (by rw [taskAt_eq cfg.tasks i t0 _ hg]; exact h0c c2)
    · exact cvValidFor_set_nonwaiter cfg.tasks ch.writeWriteCV _ i t1 v3
        (by rw [taskAt_eq cfg.tasks i t0 _ hg]; exact h0a c2)
    · refine chPhase_fields _ _ ch _ rfl rfl rfl rfl rfl rfl rfl ?_
      exact chPhase_congr cfg.tasks _ c2 ch
        (committers_set_eq cfg.tasks i t0 t1 c2 hg (by rw [h1co c2, h0co c2]))
        (fun hn => noResumedCommit_set _ _ _ _ hn (h1nr c2)) v4
  · rw [getD_set_other _ _ _ _ _ (fun he => hcc he.symm)]
    exact chanInvT_set_neutral cfg.tasks i t0 t1 c2 _ hg
      (fun hx => by rw [h0r c2] at hx; exact Bool.noConfusion hx)
      (fun hx => by rw [h0c c2] at hx; exact Bool.noConfusion hx)
      (fun hx => by rw [h0a c2] at hx; exact Bool.noConfusion hx)
      (by rw [h1co c2, h0co c2])
      (fun hx => h1nr c2) (hinv c2 hc2)

theorem inv_readerConsumeCrash (cfg : Config) (c i : Nat) (ch : ChanState)
    (k : Nat) (t0 t1 : Task) (hinv : INV cfg) (hch : cfg.channels.get? c = some ch)
    (hg : cfg.tasks.get? i = some t0)
    (h0r : ∀ x, Task.isReadWaitOnB t0 x = false)
    (h0c : ∀ x, Task.isCommitWaitOnB t0 x = false)
    (h0a : ∀ x, Task.isAdmitWaitOnB t0 x = false)
    (h0co : ∀ x, Task.commitOn t0 x = none)
    (h1r : ∀ x, Task.isReadWaitOnB t1 x = false)
    (h1c : ∀ x, Task.isCommitWaitOnB t1 x = false)
    (h1a : ∀ x, Task.isAdmitWaitOnB t1 x = false)
    (h1co : ∀ x, Task.commitOn t1 x = none)
    (h1nr : ∀ x, Task.isResumedCommitOnB t1 x = false)
    (hcl : ch.closed = false) (hlt : ch.readSerial < ch.writeSerial)
    (hcr : (notifyOneRun ch.writeReadCV k cfg.tasks).2.2 = true) :
    INVp (cfg.channels.set c
        { ch with
          readSerial := ch.readSerial + 1
          writeReadCV := (notifyOneRun ch.writeReadCV k cfg.tasks).1 })
      (((notifyOneRun ch.writeReadCV k cfg.tasks).2.1).set i t1) := by
  have hclt : c < cfg.channels.length := by
    by_contra hge
    rw [List.get?_eq_none.mpr (Nat.le_of_not_lt hge)] at hch
    exact Option.noConfusion hch
  obtain ⟨v1, v2, v3, v4⟩ := hinv c hclt
  rw [getD_of_get? _ _ _ _ hch] at v1 v2 v3 v4
  rcases notifyOneRun_spec ch.writeReadCV k cfg.tasks _ v2 with
    ⟨heq, hcv⟩ | ⟨hcr2, hts, hsub⟩ | ⟨tid, tw, hgw, hpw, hcv1, hts1, hcr2, hnm, hsub⟩
  · rw [heq] at hcr
    exact absurd hcr (by simp)
  · rw [hts]
    have hopen := v4.2 hcl
    rcases hopen with ⟨p1, p2, p3, p4, p5⟩ | ⟨q1, q2, q3, q4, sub⟩
    · exact absurd p3 (by omega)
    rcases sub with ⟨s1, s2, s3⟩ | ⟨s1, s2⟩ | ⟨s1, s2, s3⟩
    · intro c2 hc2
      rw [List.length_set] at hc2
      by_cases hcc : c2 = c
      · subst hcc
        rw [getD_set_self _ _ _ _ hclt]
        refine ⟨?_, ?_, ?_, ?_, ?_⟩
        · exact cvValidFor_set_nonwaiter cfg.tasks ch.readCV _ i t1 v1
            (by rw [taskAt_eq cfg.tasks i t0 _ hg]; exact h0r c2)
        · exact cvValidFor_set_nonwaiter cfg.tasks _ _ i t1
            (cvValidFor_of_sublist cfg.tasks ch.writeReadCV _ _ hsub v2)
            (by rw [taskAt_eq cfg.tasks i t0 _ hg]; exact h0c c2)
        · exact cvValidFor_set_nonwaiter cfg.tasks ch.writeWriteCV _ i t1 v3
            (by rw [taskAt_eq cfg.tasks i t0 _ hg]; exact h0a c2)
        · exact v4.1
        · intro hcl2
          have hcomm : committers (cfg.tasks.set i t1) c2 = committers cfg.tasks c2 :=
            committers_set_eq cfg.tasks i t0 t1 c2 hg (by rw [h1co c2, h0co c2])
          refine Or.inr ⟨q1, q2, ?_, ?_, Or.inr (Or.inr ⟨by dsimp only; omega, ?_, ?_⟩)⟩
          · rw [hcomm]
            exact q3
          · rw [hcomm]
            exact q4
          · exact s2
          · exact noResumedCommit_set _ _ _ _ s3 (h1nr c2)
      · rw [getD_set_other _ _ _ _ _ (fun he => hcc he.symm)]
        exact chanInvT_set_neutral cfg.tasks i t0 t1 c2 _ hg
          (fun hx => by rw [h0r c2] at hx; exact Bool.noConfusion hx)
          (fun hx => by rw [h0c c2] at hx; exact Bool.noConfusion hx)
          (fun hx => by rw [h0a c2] at hx; exact Bool.noConfusion hx)
          (by rw [h1co c2, h0co c2])
          (fun hx => h1nr c2) (hinv c2 hc2)
    · exact absurd s1 (by omega)
    · exact absurd s1 (by omega)
  · rw [hcr2] at hcr
    exact absurd hcr (by simp)

theorem inv_readerConsumeOk (cfg : Config) (c i : Nat) (ch : ChanState)
    (k : Nat) (t0 t1 : Task) (hinv : INV cfg) (hch : cfg.channels.get? c = some ch)
    (hg : cfg.tasks.get? i = some t0)
    (h0r : ∀ x, Task.isReadWaitOnB t0 x = false)
    (h0c : ∀ x, Task.isCommitWaitOnB t0 x = false)
    (h0a : ∀ x, Task.isAdmitWaitOnB t0 x = false)
    (h0co : ∀ x, Task.commitOn t0 x = none)
    (h1r : ∀ x, Task.isReadWaitOnB t1 x = false)
    (h1c : ∀ x, Task.isCommitWaitOnB t1 x = false)
    (h1a : ∀ x, Task.isAdmitWaitOnB t1 x = false)
    (h1co : ∀ x, Task.commitOn t1 x = none)
    (h1nr : ∀ x, Task.isResumedCommitOnB t1 x = false)
    (hcl : ch.closed = false) (hlt : ch.readSerial < ch.writeSerial) :
    INVp (cfg.channels.set c
        { ch with
          readSerial := ch.readSerial + 1
          writeReadCV := (notifyOneRun ch.writeReadCV k cfg.tasks).1
          readLog := ch.readLog ++ [ch.value] })
      (((notifyOneRun ch.writeReadCV k cfg.tasks).2.1).set i t1) := by
  have hclt : c < cfg.channels.length := by
    by_contra hge
    rw [List.get?_eq_none.mpr (Nat.le_of_not_lt hge)] at hch
    exact Option.noConfusion hch
  obtain ⟨v1, v2, v3, v4⟩ := hinv c hclt
  rw [getD_of_get? _ _ _ _ hch] at v1 v2 v3 v4
  have hopen := v4.2 hcl
  rcases hopen with ⟨p1, p2, p3, p4, p5⟩ | ⟨q1, q2, q3, q4, sub⟩
  · exact absurd p3 (by omega)
  rcases sub with ⟨s1, s2, s3⟩ | ⟨s1, s2⟩ | ⟨s1, s2, s3⟩
  swap
  · exact absurd s1 (by omega)
  swap
  · exact absurd s1 (by omega)
  have hlogs : ch.readLog = ch.writeLog.map some := logs_eq_of_tail_nil ch v4.1 s2
  have hlenEq : ch.readLog.length = ch.writeLog.length := by
    rw [hlogs, List.length_map]
  have hprefix2 : (ch.readLog ++ [ch.value]).take ch.writeLog.length
      = ch.writeLog.map some := by
    rw [hlogs]
    exact List.take_left' (by rw [List.length_map])
  have htail2 : (ch.readLog ++ [ch.value]).drop ch.writeLog.length = [ch.value] := by
    rw [hlogs]
    exact List.drop_left' (by rw [List.length_map])
  rcases notifyOneRun_spec ch.writeReadCV k cfg.tasks _ v2 with
    ⟨heq, hcv⟩ | ⟨hcr2, hts, hsub⟩ | ⟨tid, tw, hgw, hpw, hcv1, hts1, hcr2, hnm, hsub⟩
  · -- empty write-completion wait set: nothing resolved
    rw [heq]
    intro c2 hc2
    rw [List.length_set] at hc2
    by_cases hcc : c2 = c
    · subst hcc
      rw [getD_set_self _ _ _ _ hclt]
      refine ⟨?_, ?_, ?_, ?_, ?_⟩
      · exact cvValidFor_set_nonwaiter cfg.tasks ch.readCV _ i t1 v1
          (by rw [taskAt_eq cfg.tasks i t0 _ hg]; exact h0r c2)
      · rw [hcv]
        exact cvValidFor_nil _ _
      · exact cvValidFor_set_nonwaiter cfg.tasks ch.writeWriteCV _ i t1 v3
          (by rw [taskAt_eq cfg.tasks i t0 _ hg]; exact h0a c2)
      · exact hprefix2
      · intro hcl2
        have hcomm : committers (cfg.tasks.set i t1) c2 = committers cfg.tasks c2 :=
          committers_set_eq cfg.tasks i t0 t1 c2 hg (by rw [h1co c2, h0co c2])
        refine Or.inr ⟨q1, q2, ?_, ?_, Or.inr (Or.inl ⟨by dsimp only; omega, htail2⟩)⟩
        · rw [hcomm]
          exact q3
        · rw [hcomm]
          exact q4
    · rw [getD_set_other _ _ _ _ _ (fun he => hcc he.symm)]
      exact chanInvT_set_neutral cfg.tasks i t0 t1 c2 _ hg
        (fun hx => by rw [h0r c2] at hx; exact Bool.noConfusion hx)
        (fun hx => by rw [h0c c2] at hx; exact Bool.noConfusion hx)
        (fun hx => by rw [h0a c2] at hx; exact Bool.noConfusion hx)
        (by rw [h1co c2, h0co c2])
        (fun hx => h1nr c2) (hinv c2 hc2)
  · -- the picked entry was undefined: TypeError inside notifyOne, but the
    -- reader has already consumed; the logs invariant is insensitive to it
    rw [hts]
    intro c2 hc2
    rw [List.length_set] at hc2
    by_cases hcc : c2 = c
    · subst hcc
      rw [getD_set_self _ _ _ _ hclt]
      refine ⟨?_, ?_, ?_, ?_, ?_⟩
      · exact cvValidFor_set_nonwaiter cfg.tasks ch.readCV _ i t1 v1
          (by rw [taskAt_eq cfg.tasks i t0 _ hg]; exact h0r c2)
      · exact cvValidFor_set_nonwaiter cfg.tasks _ _ i t1
          (cvValidFor_of_sublist cfg.tasks ch.writeReadCV _ _ hsub v2)
          (by rw [taskAt_eq cfg.tasks i t0 _ hg]; exact h0c c2)
      · exact cvValidFor_set_nonwaiter cfg.tasks ch.writeWriteCV _ i t1 v3
          (by rw [taskAt_eq cfg.tasks i t0 _ hg]; exact h0a c2)
      · exact hprefix2
      · intro hcl2
        have hcomm : committers (cfg.tasks.set i t1) c2 = committers cfg.tasks c2 :=
          committers_set_eq cfg.tasks i t0 t1 c2 hg (by rw [h1co c2, h0co c2])
        refine Or.inr ⟨q1, q2, ?_, ?_, Or.inr (Or.inl ⟨by dsimp only; omega, htail2⟩)⟩
        · rw [hcomm]
          exact q3
        · rw [hcomm]
          exact q4
    · rw [getD_set_other _ _ _ _ _ (fun he => hcc he.symm)]
      exact chanInvT_set_neutral cfg.tasks i t0 t1 c2 _ hg
        (fun hx => by rw [h0r c2] at hx; exact Bool.noConfusion hx)
        (fun hx => by rw [h0c c2] at hx; exact Bool.noConfusion hx)
        (fun hx => by rw [h0a c2] at hx; exact Bool.noConfusion hx)
        (by rw [h1co c2, h0co c2])
        (fun hx => h1nr c2) (hinv c2 hc2)
  · -- a commit-waiting writer was resolved with true
    have hneti : tid ≠ i := by
      intro he
      subst he
      rw [hg] at hgw
      have := Option.some.inj hgw
      subst this
      rw [h0c c] at hpw
      exact Bool.noConfusion hpw
    rw [hts1, hcv1]
    intro c2 hc2
    rw [List.length_set] at hc2
    have hgres : (resolveId cfg.tasks tid true).get? i = some t0 := by
      rw [resolveId_get_ne cfg.tasks tid i true hneti]
      exact hg
    by_cases hcc : c2 = c
    · subst hcc
      rw [getD_set_self _ _ _ _ hclt]
      refine ⟨?_, ?_, ?_, ?_, ?_⟩
      · refine cvValidFor_set_nonwaiter _ ch.readCV _ i t1 ?_
          (by rw [taskAt_eq _ i t0 _ hgres]; exact h0r c2)
        refine cvValidFor_resolve_notMem cfg.tasks ch.readCV _ tid true v1 ?_
        exact notMem_entries_of_excl cfg.tasks ch.readCV _ _ tid tw v1 hgw hpw
          (fun t2 hq => commitWait_not_readWait t2 c2 c2 hq)
      · refine cvValidFor_set_nonwaiter _ _ _ i t1 ?_
          (by rw [taskAt_eq _ i t0 _ hgres]; exact h0c c2)
        exact cvValidFor_notify_self cfg.tasks ch.writeReadCV _ tid true v2
      · refine cvValidFor_set_nonwaiter _ ch.writeWriteCV _ i t1 ?_
          (by rw [taskAt_eq _ i t0 _ hgres]; exact h0a c2)
        refine cvValidFor_resolve_notMem cfg.tasks ch.writeWriteCV _ tid true v3 ?_
        exact notMem_entries_of_excl cfg.tasks ch.writeWriteCV _ _ tid tw v3 hgw hpw
          (fun t2 hq => commitWait_not_admitWait t2 c2 c2 hq)
      · exact hprefix2
      · intro hcl2
        have hcomm : committers ((resolveId cfg.tasks tid true).set i t1) c2
            = committers cfg.tasks c2 := by
          rw [committers_set_eq _ i t0 t1 c2 hgres (by rw [h1co c2, h0co c2]),
            committers_resolveId_true]
        refine Or.inr ⟨q1, q2, ?_, ?_, Or.inr (Or.inl ⟨by dsimp only; omega, htail2⟩)⟩
        · rw [hcomm]
          exact q3
        · rw [hcomm]
          exact q4
    · rw [getD_set_other _ _ _ _ _ (fun he => hcc he.symm)]
      refine chanInvT_set_neutral _ i t0 t1 c2 _ hgres
        (fun hx => by rw [h0r c2] at hx; exact Bool.noConfusion hx)
        (fun hx => by rw [h0c c2] at hx; exact Bool.noConfusion hx)
        (fun hx => by rw [h0a c2] at hx; exact Bool.noConfusion hx)
        (by rw [h1co c2, h0co c2])
        (fun hx => h1nr c2) ?_
      exact chanInvT_resolve_other cfg.tasks tid c c2 _ hcc tw hgw
        (Or.inr (Or.inl hpw)) (hinv c2 hc2)

theorem inv_readerStep (cfg : Config) (c i : Nat) (ch : ChanState)
    (take : TakeKind) (k : Nat) (t0 : Task) (newT : RStage → Task)
    (hinv : INV cfg) (hch : cfg.channels.get? c = some ch)
    (hg : cfg.tasks.get? i = some t0)
    (h0r : ∀ x, Task.isReadWaitOnB t0 x = false)
    (h0c : ∀ x, Task.isCommitWaitOnB t0 x = false)
    (h0a : ∀ x, Task.isAdmitWaitOnB t0 x = false)
    (h0co : ∀ x, Task.commitOn t0 x = none)
    (hA : ∀ st x, st ≠ RStage.rwait → Task.isReadWaitOnB (newT st) x = false)
    (hB : ∀ x, x ≠ c → Task.isReadWaitOnB (newT .rwait) x = false)
    (hC : Task.isReadWaitOnB (newT .rwait) c = true)
    (hnC : ∀ st x, Task.isCommitWaitOnB (newT st) x = false)
    (hnA : ∀ st x, Task.isAdmitWaitOnB (newT st) x = false)
    (hnCO : ∀ st x, Task.commitOn (newT st) x = none)
    (hnNR : ∀ st x, Task.isResumedCommitOnB (newT st) x = false) :
    INVp (cfg.channels.set c
        (readerBody ch cfg.didRead cfg.armsTook take i k cfg.tasks).ch)
      ((readerBody ch cfg.didRead cfg.armsTook take i k cfg.tasks).tasks.set i
        (newT (readerBody ch cfg.didRead cfg.armsTook take i k cfg.tasks).st)) := by
  unfold readerBody
  dsimp only
  split
  · exact inv_readerRegister cfg c i ch t0 (newT .rwait) hinv hch hg h0r h0c h0a h0co
      hC hB (hnC _) (hnA _) (hnCO _) (hnNR _)
  · next hcond =>
    split
    · exact inv_neutralSet cfg c i ch t0 (newT (.rdone (.error .closedE))) hinv hch hg
        h0r h0c h0a h0co (hnCO _) (hnNR _)
    · next hcl2 =>
      have hclF : ch.closed = false := by
        cases hb : ch.closed
        · rfl
        · exact absurd hb hcl2
      have hlt : ch.readSerial < ch.writeSerial := by
        by_contra hge
        exact hcond ⟨by omega, hclF⟩
      cases take with
      | always =>
        dsimp only
        split
        · next hfalse => exact absurd hfalse (by simp)
        · split
          · next hcr =>
            exact inv_readerConsumeCrash cfg c i ch k t0
              (newT (.rdone (.error .fatalE))) hinv hch hg h0r h0c h0a h0co
              (fun x => hA _ x (by simp)) (hnC _) (hnA _) (hnCO _) (hnNR _)
              hclF hlt hcr
          · exact inv_readerConsumeOk cfg c i ch k t0
              (newT (.rdone (.ok ch.value))) hinv hch hg h0r h0c h0a h0co
              (fun x => hA _ x (by simp)) (hnC _) (hnA _) (hnCO _) (hnNR _)
              hclF hlt
      | flagged =>
        dsimp only
        by_cases hdr : cfg.didRead = true
        · rw [if_pos hdr]
          dsimp only
          split
          · exact inv_neutralSet cfg c i ch t0
              (newT (.rdone (.error .readCancelledE))) hinv hch hg
              h0r h0c h0a h0co (hnCO _) (hnNR _)
          · next hfalse => exact absurd rfl hfalse
        · rw [if_neg hdr]
          dsimp only
          split
          · next hfalse => exact absurd hfalse (by simp)
          · split
            · next hcr =>
              exact inv_readerConsumeCrash cfg c i ch k t0
                (newT (.rdone (.error .fatalE))) hinv hch hg h0r h0c h0a h0co
                (fun x => hA _ x (by simp)) (hnC _) (hnA _) (hnCO _) (hnNR _)
                hclF hlt hcr
            · exact inv_readerConsumeOk cfg c i ch k t0
                (newT (.rdone (.ok ch.value))) hinv hch hg h0r h0c h0a h0co
                (fun x => hA _ x (by simp)) (hnC _) (hnA _) (hnCO _) (hnNR _)
                hclF hlt

theorem inv_writerRegisterAdmit (cfg : Config) (c i : Nat) (ch : ChanState)
    (t0 t1 : Task) (hinv : INV cfg) (hch : cfg.channels.get? c = some ch)
    (hg : cfg.tasks.get? i = some t0)
    (h0r : ∀ x, Task.isReadWaitOnB t0 x = false)
    (h0c : ∀ x, Task.isCommitWaitOnB t0 x = false)
    (h0a : ∀ x, Task.isAdmitWaitOnB t0 x = false)
    (h0co : ∀ x, Task.commitOn t0 x = none)
    (h1ac : Task.isAdmitWaitOnB t1 c = true)
    (h1ao : ∀ x, x ≠ c → Task.isAdmitWaitOnB t1 x = false)
    (h1r : ∀ x, Task.isReadWaitOnB t1 x = false)
    (h1c : ∀ x, Task.isCommitWaitOnB t1 x = false)
    (h1co : ∀ x, Task.commitOn t1 x = none)
    (h1nr : ∀ x, Task.isResumedCommitOnB t1 x = false) :
    INVp (cfg.channels.set c { ch with writeWriteCV := ch.writeWriteCV ++ [some i] })
      (cfg.tasks.set i t1) := by
  have hclt : c < cfg.channels.length := by
    by_contra hge
    rw [List.get?_eq_none.mpr (Nat.le_of_not_lt hge)] at hch
    exact Option.noConfusion hch
  intro c2 hc2
  rw [List.length_set] at hc2
  by_cases hcc : c2 = c
  · subst hcc
    rw [getD_set_self _ _ _ _ hclt]
    obtain ⟨v1, v2, v3, v4⟩ := hinv c2 hc2
    rw [getD_of_get? _ _ _ _ hch] at v1 v2 v3 v4
    refine ⟨?_, ?_, ?_, ?_⟩
    · exact cvValidFor_set_nonwaiter cfg.tasks ch.readCV _ i t1 v1
        (by rw [taskAt_eq cfg.tasks i t0 _ hg]; exact h0r c2)
    · exact cvValidFor_set_nonwaiter cfg.tasks ch.writeReadCV _ i t1 v2
        (by rw [taskAt_eq cfg.tasks i t0 _ hg]; exact h0c c2)
    · exact cvValidFor_append cfg.tasks ch.writeWriteCV _ i t1 v3
        (by rw [taskAt_eq cfg.tasks i t0 _ hg]; exact h0a c2)
        (by rw [hg]; exact fun hx => Option.noConfusion hx) h1ac
    · refine chPhase_fields _ _ ch _ rfl rfl rfl rfl rfl rfl rfl ?_
      exact chPhase_congr cfg.tasks _ c2 ch
        (committers_set_eq cfg.tasks i t0 t1 c2 hg (by rw [h1co c2, h0co c2]))
        (fun hn => noResumedCommit_set _ _ _ _ hn (h1nr c2)) v4
  · rw [getD_set_other _ _ _ _ _ (fun he => hcc he.symm)]
    exact chanInvT_set_neutral cfg.tasks i t0 t1 c2 _ hg
      (fun hx => by rw [h0r c2] at hx; exact Bool.noConfusion hx)
      (fun hx => by rw [h0c c2] at hx; exact Bool.noConfusion hx)
      (fun hx => by rw [h0a c2] at hx; exact Bool.noConfusion hx)
      (by rw [h1co c2, h0co c2])
      (fun hx => h1nr c2) (hinv c2 hc2)

theorem committers_set_of_nil (ts : List Task) (i : Nat) (t0 t1 : Task) (c : Nat)
    (x : Val × Int × Bool) (hg : ts.get? i = some t0)
    (hnil : committers ts c = []) (hx : Task.commitOn t1 c = some x) :
    committers (ts.set i t1) c = [x] := by
  induction ts generalizing i with
  | nil => exact absurd hg (by simp)
  | cons a rest ih =>
    have hfm := List.filterMap_eq_nil.mp hnil
    have hha : Task.commitOn a c = none := hfm a (List.mem_cons_self _ _)
    have hrest : committers rest c = [] := by
      unfold committers
      rw [List.filterMap_eq_nil]
      intro t2 ht2
      exact hfm t2 (List.mem_cons_of_mem _ ht2)
    cases i with
    | zero =>
      show committers (t1 :: rest) c = [x]
      unfold committers
      rw [List.filterMap_cons]
      rw [hx]
      show x :: committers rest c = [x]
      rw [hrest]
    | succ j =>
      have hgj : rest.get? j = some t0 := hg
      show committers (a :: rest.set j t1) c = [x]
      unfold committers
      rw [List.filterMap_cons, hha]
      exact ih j hgj hrest

theorem notifyOneRun_noCrash_of_pick (cv : List Handler) (k : Nat) (ts : List Task)
    (hsafe : (decide (cv = []) ||
      !(cv.getD (k % cv.length) none == none)) = true) :
    (notifyOneRun cv k ts).2.2 = false := by
  unfold notifyOneRun
  split
  · rfl
  · next hlen =>
    dsimp only
    cases hpick : cv.getD (k % cv.length) none with
    | none =>
      exfalso
      rcases (Bool.or_eq_true _ _).mp hsafe with h | h
      · exact hlen (by rw [of_decide_eq_true h]; simp)
      · rw [hpick] at h
        simp at h
    | some tid => rfl

theorem inv_writerPublishCrash (cfg : Config) (c i : Nat) (ch : ChanState)
    (v : Val) (k1 : Nat) (t0 t1 : Task) (hinv : INV cfg)
    (hch : cfg.channels.get? c = some ch) (hg : cfg.tasks.get? i = some t0)
    (h0r : ∀ x, Task.isReadWaitOnB t0 x = false)
    (h0c : ∀ x, Task.isCommitWaitOnB t0 x = false)
    (h0a : ∀ x, Task.isAdmitWaitOnB t0 x = false)
    (h0co : ∀ x, Task.commitOn t0 x = none)
    (h1co : ∀ x, Task.commitOn t1 x = none)
    (h1nr : ∀ x, Task.isResumedCommitOnB t1 x = false)
    (hcl : ch.closed = false) (htr : ch.valueInTransit = false) :
    INVp (cfg.channels.set c
        { ch with
          valueInTransit := true
          value := some v
          writeSerial := ch.writeSerial + 1
          readCV := (notifyOneRun ch.readCV k1 cfg.tasks).1 })
      (((notifyOneRun ch.readCV k1 cfg.tasks).2.1).set i t1) := by
  have hclt : c < cfg.channels.length := by
    by_contra hge
    rw [List.get?_eq_none.mpr (Nat.le_of_not_lt hge)] at hch
    exact Option.noConfusion hch
  obtain ⟨v1, v2, v3, v4⟩ := hinv c hclt
  rw [getD_of_get? _ _ _ _ hch] at v1 v2 v3 v4
  rcases v4.2 hcl with ⟨p1, p2, p3, p4, p5⟩ | ⟨q1, q2, q3, q4, sub⟩
  swap
  · rw [htr] at q1
    exact absurd q1 (by simp)
  have hmainPhase : ∀ (ts2 : List Task),
      committers ts2 c = [] → noResumedCommit ts2 c →
      chPhase ts2 c
        { ch with
          valueInTransit := true
          value := some v
          writeSerial := ch.writeSerial + 1
          readCV := (notifyOneRun ch.readCV k1 cfg.tasks).1 } := by
    intro ts2 hcm hnr2
    refine ⟨v4.1, fun hcl2 => Or.inr ⟨rfl, rfl, ?_, ?_, Or.inl ⟨by dsimp only; omega, p4, hnr2⟩⟩⟩
    · rw [hcm]
      intro x hx
      exact absurd hx (List.not_mem_nil _)
    · rw [hcm]
      simp
  rcases notifyOneRun_spec ch.readCV k1 cfg.tasks _ v1 with
    ⟨heq, hcv⟩ | ⟨hcr2, hts, hsub⟩ | ⟨tid, tw, hgw, hpw, hcv1, hts1, hcr2, hnm, hsub⟩
  · rw [heq]
    intro c2 hc2
    rw [List.length_set] at hc2
    by_cases hcc : c2 = c
    · subst hcc
      rw [getD_set_self _ _ _ _ hclt]
      have hcm : committers (cfg.tasks.set i t1) c2 = [] := by
        rw [committers_set_eq cfg.tasks i t0 t1 c2 hg (by rw [h1co c2, h0co c2])]
        exact p5
      refine ⟨?_, ?_, ?_, hmainPhase _ hcm (noResumedCommit_of_committers_nil _ _ hcm)⟩
      · rw [hcv]
        exact cvValidFor_nil _ _
      · exact cvValidFor_set_nonwaiter cfg.tasks ch.writeReadCV _ i t1 v2
          (by rw [taskAt_eq cfg.tasks i t0 _ hg]; exact h0c c2)
      · exact cvValidFor_set_nonwaiter cfg.tasks ch.writeWriteCV _ i t1 v3
          (by rw [taskAt_eq cfg.tasks i t0 _ hg]; exact h0a c2)
    · rw [getD_set_other _ _ _ _ _ (fun he => hcc he.symm)]
      exact chanInvT_set_neutral cfg.tasks i t0 t1 c2 _ hg
        (fun hx => by rw [h0r c2] at hx; exact Bool.noConfusion hx)
        (fun hx => by rw [h0c c2] at hx; exact Bool.noConfusion hx)
        (fun hx => by rw [h0a c2] at hx; exact Bool.noConfusion hx)
        (by rw [h1co c2, h0co c2])
        (fun hx => h1nr c2) (hinv c2 hc2)
  · rw [hts]
    intro c2 hc2
    rw [List.length_set] at hc2
    by_cases hcc : c2 = c
    · subst hcc
      rw [getD_set_self _ _ _ _ hclt]
      have hcm : committers (cfg.tasks.set i t1) c2 = [] := by
        rw [committers_set_eq cfg.tasks i t0 t1 c2 hg (by rw [h1co c2, h0co c2])]
        exact p5
      refine ⟨?_, ?_, ?_, hmainPhase _ hcm (noResumedCommit_of_committers_nil _ _ hcm)⟩
      · exact cvValidFor_set_nonwaiter cfg.tasks _ _ i t1
          (cvValidFor_of_sublist cfg.tasks ch.readCV _ _ hsub v1)
          (by rw [taskAt_eq cfg.tasks i t0 _ hg]; exact h0r c2)
      · exact cvValidFor_set_nonwaiter cfg.tasks ch.writeReadCV _ i t1 v2
          (by rw [taskAt_eq cfg.tasks i t0 _ hg]; exact h0c c2)
      · exact cvValidFor_set_nonwaiter cfg.tasks ch.writeWriteCV _ i t1 v3
          (by rw [taskAt_eq cfg.tasks i t0 _ hg]; exact h0a c2)
    · rw [getD_set_other _ _ _ _ _ (fun he => hcc he.symm)]
      exact chanInvT_set_neutral cfg.tasks i t0 t1 c2 _ hg
        (fun hx => by rw [h0r c2] at hx; exact Bool.noConfusion hx)
        (fun hx => by rw [h0c c2] at hx; exact Bool.noConfusion hx)
        (fun hx => by rw [h0a c2] at hx; exact Bool.noConfusion hx)
        (by rw [h1co c2, h0co c2])
        (fun hx => h1nr c2) (hinv c2 hc2)
  · have hneti : tid ≠ i := by
      intro he
      subst he
      rw [hg] at hgw
      have := Option.some.inj hgw
      subst this
      rw [h0r c] at hpw
      exact Bool.noConfusion hpw
    rw [hts1, hcv1]
    intro c2 hc2
    rw [List.length_set] at hc2
    have hgres : (resolveId cfg.tasks tid true).get? i = some t0 := by
      rw [resolveId_get_ne cfg.tasks tid i true hneti]
      exact hg
    by_cases hcc : c2 = c
    · subst hcc
      rw [getD_set_self _ _ _ _ hclt]
      have hcm : committers ((resolveId cfg.tasks tid true).set i t1) c2 = [] := by
        rw [committers_set_eq _ i t0 t1 c2 hgres (by rw [h1co c2, h0co c2]),
          committers_resolveId_true]
        exact p5
      refine ⟨?_, ?_, ?_, hmainPhase _ hcm (noResumedCommit_of_committers_nil _ _ hcm)⟩
      · refine cvValidFor_set_nonwaiter _ _ _ i t1 ?_
          (by rw [taskAt_eq _ i t0 _ hgres]; exact h0r c2)
        exact cvValidFor_notify_self cfg.tasks ch.readCV _ tid true v1
      · refine cvValidFor_set_nonwaiter _ ch.writeReadCV _ i t1 ?_
          (by rw [taskAt_eq _ i t0 _ hgres]; exact h0c c2)
        refine cvValidFor_resolve_notMem cfg.tasks ch.writeReadCV _ tid true v2 ?_
        exact notMem_entries_of_excl cfg.tasks ch.writeReadCV _ _ tid tw v2 hgw hpw
          (fun t2 hq => readWait_not_commitWait t2 c2 c2 hq)
      · refine cvValidFor_set_nonwaiter _ ch.writeWriteCV _ i t1 ?_
          (by rw [taskAt_eq _ i t0 _ hgres]; exact h0a c2)
        refine cvValidFor_resolve_notMem cfg.tasks ch.writeWriteCV _ tid true v3 ?_
        exact notMem_entries_of_excl cfg.tasks ch.writeWriteCV _ _ tid tw v3 hgw hpw
          (fun t2 hq => readWait_not_admitWait t2 c2 c2 hq)
    · rw [getD_set_other _ _ _ _ _ (fun he => hcc he.symm)]
      refine chanInvT_set_neutral _ i t0 t1 c2 _ hgres
        (fun hx => by rw [h0r c2] at hx; exact Bool.noConfusion hx)
        (fun hx => by rw [h0c c2] at hx; exact Bool.noConfusion hx)
        (fun hx => by rw [h0a c2] at hx; exact Bool.noConfusion hx)
        (by rw [h1co c2, h0co c2])
        (fun hx => h1nr c2) ?_
      exact chanInvT_resolve_other cfg.tasks tid c c2 _ hcc tw hgw
        (Or.inl hpw) (hinv c2 hc2)

theorem inv_writerPublishCommit (cfg : Config) (c i : Nat) (ch : ChanState)
    (v : Val) (sig : Option Nat) (k1 : Nat) (t0 : Task) (hinv : INV cfg)
    (hch : cfg.channels.get? c = some ch) (hg : cfg.tasks.get? i = some t0)
    (h0r : ∀ x, Task.isReadWaitOnB t0 x = false)
    (h0c : ∀ x, Task.isCommitWaitOnB t0 x = false)
    (h0a : ∀ x, Task.isAdmitWaitOnB t0 x = false)
    (h0co : ∀ x, Task.commitOn t0 x = none)
    (hcl : ch.closed = false) (htr : ch.valueInTransit = false) :
    INVp (cfg.channels.set c
        { ch with
          valueInTransit := true
          value := some v
          writeSerial := ch.writeSerial + 1
          readCV := (notifyOneRun ch.readCV k1 cfg.tasks).1
          writeReadCV := ch.writeReadCV ++ [some i] })
      (((notifyOneRun ch.readCV k1 cfg.tasks).2.1).set i
        (Task.writer c v sig (.commitWait (ch.writeSerial + 1)))) := by
  have hclt : c < cfg.channels.length := by
    by_contra hge
    rw [List.get?_eq_none.mpr (Nat.le_of_not_lt hge)] at hch
    exact Option.noConfusion hch
  obtain ⟨v1, v2, v3, v4⟩ := hinv c hclt
  rw [getD_of_get? _ _ _ _ hch] at v1 v2 v3 v4
  rcases v4.2 hcl with ⟨p1, p2, p3, p4, p5⟩ | ⟨q1, q2, q3, q4, sub⟩
  swap
  · rw [htr] at q1
    exact absurd q1 (by simp)
  set t1 : Task := Task.writer c v sig (.commitWait (ch.writeSerial + 1)) with ht1
  have h1co : Task.commitOn t1 c = some (v, ch.writeSerial + 1, true) := by
    simp [ht1, Task.commitOn]
  have h1coO : ∀ x, x ≠ c → Task.commitOn t1 x = none := by
    intro x hx
    simp [ht1, Task.commitOn]
    omega
  have h1cw : Task.isCommitWaitOnB t1 c = true := by
    rw [ht1]
    simp [Task.isCommitWaitOnB]
  have hmainPhase : ∀ (ts2 : List Task),
      committers ts2 c = [(v, ch.writeSerial + 1, true)] →
      noResumedCommit ts2 c →
      chPhase ts2 c
        { ch with
          valueInTransit := true
          value := some v
          writeSerial := ch.writeSerial + 1
          readCV := (notifyOneRun ch.readCV k1 cfg.tasks).1
          writeReadCV := ch.writeReadCV ++ [some i] } := by
    intro ts2 hcm hnr2
    refine ⟨v4.1, fun hcl2 => Or.inr ⟨rfl, rfl, ?_, ?_,
      Or.inl ⟨by dsimp only; omega, p4, hnr2⟩⟩⟩
    · rw [hcm]
      intro x hx
      rw [List.mem_singleton] at hx
      subst hx
      exact ⟨rfl, rfl, rfl⟩
    · rw [hcm]
      simp
  rcases notifyOneRun_spec ch.readCV k1 cfg.tasks _ v1 with
    ⟨heq, hcv⟩ | ⟨hcr2, hts, hsub⟩ | ⟨tid, tw, hgw, hpw, hcv1, hts1, hcr2, hnm, hsub⟩
  · rw [heq]
    intro c2 hc2
    rw [List.length_set] at hc2
    by_cases hcc : c2 = c
    · subst hcc
      rw [getD_set_self _ _ _ _ hclt]
      have hcm : committers (cfg.tasks.set i t1) c2 = [(v, ch.writeSerial + 1, true)] :=
        committers_set_of_nil cfg.tasks i t0 t1 c2 _ hg p5 h1co
      refine ⟨?_, ?_, ?_, hmainPhase _ hcm ?_⟩
      · rw [hcv]
        exact cvValidFor_nil _ _
      · exact cvValidFor_append cfg.tasks ch.writeReadCV _ i t1 v2
          (by rw [taskAt_eq cfg.tasks i t0 _ hg]; exact h0c c2)
          (by rw [hg]; exact fun hx => Option.noConfusion hx) h1cw
      · exact cvValidFor_set_nonwaiter cfg.tasks ch.writeWriteCV _ i t1 v3
          (by rw [taskAt_eq cfg.tasks i t0 _ hg]; exact h0a c2)
      · refine noResumedCommit_set _ _ _ _ (noResumedCommit_of_committers_nil _ _ p5) ?_
        rw [ht1]
        rfl
    · rw [getD_set_other _ _ _ _ _ (fun he => hcc he.symm)]
      exact chanInvT_set_neutral cfg.tasks i t0 t1 c2 _ hg
        (fun hx => by rw [h0r c2] at hx; exact Bool.noConfusion hx)
        (fun hx => by rw [h0c c2] at hx; exact Bool.noConfusion hx)
        (fun hx => by rw [h0a c2] at hx; exact Bool.noConfusion hx)
        (by rw [h1coO c2 hcc, h0co c2])
        (fun hx => by rw [ht1]; rfl) (hinv c2 hc2)
  · rw [hts]
    intro c2 hc2
    rw [List.length_set] at hc2
    by_cases hcc : c2 = c
    · subst hcc
      rw [getD_set_self _ _ _ _ hclt]
      have hcm : committers (cfg.tasks.set i t1) c2 = [(v, ch.writeSerial + 1, true)] :=
        committers_set_of_nil cfg.tasks i t0 t1 c2 _ hg p5 h1co
      refine ⟨?_, ?_, ?_, hmainPhase _ hcm ?_⟩
      · exact cvValidFor_set_nonwaiter cfg.tasks _ _ i t1
          (cvValidFor_of_sublist cfg.tasks ch.readCV _ _ hsub v1)
          (by rw [taskAt_eq cfg.tasks i t0 _ hg]; exact h0r c2)
      · exact cvValidFor_append cfg.tasks ch.writeReadCV _ i t1 v2
          (by rw [taskAt_eq cfg.tasks i t0 _ hg]; exact h0c c2)
          (by rw [hg]; exact fun hx => Option.noConfusion hx) h1cw
      · exact cvValidFor_set_nonwaiter cfg.tasks ch.writeWriteCV _ i t1 v3
          (by rw [taskAt_eq cfg.tasks i t0 _ hg]; exact h0a c2)
      · refine noResumedCommit_set _ _ _ _ (noResumedCommit_of_committers_nil _ _ p5) ?_
        rw [ht1]
        rfl
    · rw [getD_set_other _ _ _ _ _ (fun he => hcc he.symm)]
      exact chanInvT_set_neutral cfg.tasks i t0 t1 c2 _ hg
        (fun hx => by rw [h0r c2] at hx; exact Bool.noConfusion hx)
        (fun hx => by rw [h0c c2] at hx; exact Bool.noConfusion hx)
        (fun hx => by rw [h0a c2] at hx; exact Bool.noConfusion hx)
        (by rw [h1coO c2 hcc, h0co c2])
        (fun hx => by rw [ht1]; rfl) (hinv c2 hc2)
  · have hneti : tid ≠ i := by
      intro he
      subst he
      rw [hg] at hgw
      have := Option.some.inj hgw
      subst this
      rw [h0r c] at hpw
      exact Bool.noConfusion hpw
    rw [hts1, hcv1]
    intro c2 hc2
    rw [List.length_set] at hc2
    have hgres : (resolveId cfg.tasks tid true).get? i = some t0 := by
      rw [resolveId_get_ne cfg.tasks tid i true hneti]
      exact hg
    by_cases hcc : c2 = c
    · subst hcc
      rw [getD_set_self _ _ _ _ hclt]
      have hp5r : committers (resolveId cfg.tasks tid true) c2 = [] := by
        rw [committers_resolveId_true]
        exact p5
      have hcm : committers ((resolveId cfg.tasks tid true).set i t1) c2
          = [(v, ch.writeSerial + 1, true)] :=
        committers_set_of_nil _ i t0 t1 c2 _ hgres hp5r h1co
      refine ⟨?_, ?_, ?_, hmainPhase _ hcm ?_⟩
      · refine cvValidFor_set_nonwaiter _ _ _ i t1 ?_
          (by rw [taskAt_eq _ i t0 _ hgres]; exact h0r c2)
        exact cvValidFor_notify_self cfg.tasks ch.readCV _ tid true v1
      · refine cvValidFor_append _ ch.writeReadCV _ i t1 ?_
          (by rw [taskAt_eq _ i t0 _ hgres]; exact h0c c2)
          (by rw [hgres]; exact fun hx => Option.noConfusion hx) h1cw
        refine cvValidFor_resolve_notMem cfg.tasks ch.writeReadCV _ tid true v2 ?_
        exact notMem_entries_of_excl cfg.tasks ch.writeReadCV _ _ tid tw v2 hgw hpw
          (fun t2 hq => readWait_not_commitWait t2 c2 c2 hq)
      · refine cvValidFor_set_nonwaiter _ ch.writeWriteCV _ i t1 ?_
          (by rw [taskAt_eq _ i t0 _ hgres]; exact h0a c2)
        refine cvValidFor_resolve_notMem cfg.tasks ch.writeWriteCV _ tid true v3 ?_
        exact notMem_entries_of_excl cfg.tasks ch.writeWriteCV _ _ tid tw v3 hgw hpw
          (fun t2 hq => readWait_not_admitWait t2 c2 c2 hq)
      · refine noResumedCommit_set _ _ _ _
          (noResumedCommit_of_committers_nil _ _ hp5r) ?_
        rw [ht1]
        rfl
    · rw [getD_set_other _ _ _ _ _ (fun he => hcc he.symm)]
      refine chanInvT_set_neutral _ i t0 t1 c2 _ hgres
        (fun hx => by rw [h0r c2] at hx; exact Bool.noConfusion hx)
        (fun hx => by rw [h0c c2] at hx; exact Bool.noConfusion hx)
        (fun hx => by rw [h0a c2] at hx; exact Bool.noConfusion hx)
        (by rw [h1coO c2 hcc, h0co c2])
        (fun hx => by rw [ht1]; rfl) ?_
      exact chanInvT_resolve_other cfg.tasks tid c c2 _ hcc tw hgw
        (Or.inl hpw) (hinv c2 hc2)

theorem commitResumed_phase (cfg : Config) (c i : Nat) (ch : ChanState)
    (v : Val) (sig : Option Nat) (tt : Int) (b : Bool)
    (hinv : INV cfg) (hch : cfg.channels.get? c = some ch)
    (hg : cfg.tasks.get? i = some (Task.writer c v sig (.commitResumed tt b)))
    (hcl : ch.closed = false) :
    b = true ∧ tt = ch.writeSerial ∧ ch.readSerial = ch.writeSerial ∧
    ch.valueInTransit = true ∧ ch.value = some v ∧ chTail ch = [ch.value] ∧
    (committers cfg.tasks c).length ≤ 1 := by
  have hclt : c < cfg.channels.length := by
    by_contra hge
    rw [List.get?_eq_none.mpr (Nat.le_of_not_lt hge)] at hch
    exact Option.noConfusion hch
  obtain ⟨v1, v2, v3, v4⟩ := hinv c hclt
  rw [getD_of_get? _ _ _ _ hch] at v1 v2 v3 v4
  have hx : Task.commitOn (Task.writer c v sig (.commitResumed tt b)) c
      = some (v, tt, b) := by
    simp [Task.commitOn]
  have hmem : (v, tt, b) ∈ committers cfg.tasks c :=
    mem_committers_of cfg.tasks c i _ _ hg hx
  have hres : Task.isResumedCommitOnB (Task.writer c v sig (.commitResumed tt b)) c
      = true := by
    simp [Task.isResumedCommitOnB]
  rcases v4.2 hcl with ⟨p1, p2, p3, p4, p5⟩ | ⟨q1, q2, q3, q4, sub⟩
  · rw [p5] at hmem
    exact absurd hmem (List.not_mem_nil _)
  obtain ⟨hv1, hv2, hv3⟩ := q3 _ hmem
  rcases sub with ⟨s1, s2, s3⟩ | ⟨s1, s2⟩ | ⟨s1, s2, s3⟩
  · rw [s3 _ (List.get?_mem hg)] at hres
    exact Bool.noConfusion hres
  · exact ⟨hv3, hv2, s1, q1, hv1.symm, s2, q4⟩
  · rw [s3 _ (List.get?_mem hg)] at hres
    exact Bool.noConfusion hres

theorem epiloguePick_extract (cfg : Config) (c i : Nat) (ch : ChanState) (v : Val)
    (sig : Option Nat) (tt : Int) (b : Bool) (k2 : Nat)
    (hg : cfg.tasks.get? i = some (Task.writer c v sig (.commitResumed tt b)))
    (hch : cfg.channels.get? c = some ch)
    (hcond : ¬(ch.readSerial < tt ∧ ch.closed = false ∧ b = true))
    (hsafe : epiloguePickSafeB cfg i k2 = true) :
    (notifyOneRun ch.writeWriteCV k2 cfg.tasks).2.2 = false := by
  unfold epiloguePickSafeB at hsafe
  simp only [hg, hch] at hsafe
  rw [if_neg hcond] at hsafe
  exact notifyOneRun_noCrash_of_pick _ _ _ hsafe

theorem commitOn_wdone_eq (c : Nat) (v : Val) (sig : Option Nat) (tt : Int)
    (b : Bool) (r : Option ChanErr) (c2 : Nat) (hne : c2 ≠ c) :
    Task.commitOn (Task.writer c v sig (.wdone r)) c2
      = Task.commitOn (Task.writer c v sig (.commitResumed tt b)) c2 := by
  have h2 : Task.commitOn (Task.writer c v sig (.commitResumed tt b)) c2 = none := by
    simp [Task.commitOn]
    omega
  rw [h2]
  rfl

theorem inv_writerCompleteOpen (cfg : Config) (c i : Nat) (ch : ChanState)
    (v : Val) (sig : Option Nat) (tt : Int) (k2 : Nat) (hinv : INV cfg)
    (hch : cfg.channels.get? c = some ch)
    (hg : cfg.tasks.get? i = some (Task.writer c v sig (.commitResumed tt true)))
    (hcl : ch.closed = false) :
    INVp (cfg.channels.set c
        { ch with
          valueInTransit := false
          value := none
          writeWriteCV := (notifyOneRun ch.writeWriteCV k2 cfg.tasks).1
          writeLog := ch.writeLog ++ [v] })
      (((notifyOneRun ch.writeWriteCV k2 cfg.tasks).2.1).set i
        (Task.writer c v sig (.wdone none))) := by
  obtain ⟨hb, htt, hrw, htr, hval, htail, hlen1⟩ :=
    commitResumed_phase cfg c i ch v sig tt true hinv hch hg hcl
  have hclt : c < cfg.channels.length := by
    by_contra hge
    rw [List.get?_eq_none.mpr (Nat.le_of_not_lt hge)] at hch
    exact Option.noConfusion hch
  obtain ⟨v1, v2, v3, v4⟩ := hinv c hclt
  rw [getD_of_get? _ _ _ _ hch] at v1 v2 v3 v4
  set t0 : Task := Task.writer c v sig (.commitResumed tt true) with ht0
  set t1 : Task := Task.writer c v sig (.wdone none) with ht1
  have h0r : ∀ x, Task.isReadWaitOnB t0 x = false := fun x => rfl
  have h0c : ∀ x, Task.isCommitWaitOnB t0 x = false := fun x => rfl
  have h0a : ∀ x, Task.isAdmitWaitOnB t0 x = false := fun x => rfl
  have h0x : Task.commitOn t0 c = some (v, tt, true) := by
    simp [ht0, Task.commitOn]
  have hlog : ch.readLog = ch.writeLog.map some ++ [ch.value] := by
    conv_lhs => rw [← List.take_append_drop ch.writeLog.length ch.readLog]
    rw [v4.1]
    rw [show ch.readLog.drop ch.writeLog.length = [ch.value] from htail]
  have hpref2 : ch.readLog.take (ch.writeLog ++ [v]).length
      = (ch.writeLog ++ [v]).map some := by
    rw [hlog, hval, List.map_append]
    refine List.take_of_length_le ?_
    simp
  have htail2 : ch.readLog.drop (ch.writeLog ++ [v]).length = [] := by
    refine List.drop_eq_nil_iff_le.mpr ?_
    rw [hlog]
    simp
  have hmainPhase : ∀ (ts2 : List Task), committers ts2 c = [] →
      chPhase ts2 c
        { ch with
          valueInTransit := false
          value := none
          writeWriteCV := (notifyOneRun ch.writeWriteCV k2 cfg.tasks).1
          writeLog := ch.writeLog ++ [v] } := by
    intro ts2 hcm
    exact ⟨hpref2, fun hcl2 => Or.inl ⟨rfl, rfl, by dsimp only; omega, htail2, hcm⟩⟩
  rcases notifyOneRun_spec ch.writeWriteCV k2 cfg.tasks _ v3 with
    ⟨heq, hcv⟩ | ⟨hcr2, hts, hsub⟩ | ⟨tid, tw, hgw, hpw, hcv1, hts1, hcr2, hnm, hsub⟩
  · rw [heq]
    intro c2 hc2
    rw [List.length_set] at hc2
    by_cases hcc : c2 = c
    · subst hcc
      rw [getD_set_self _ _ _ _ hclt]
      have hdrop := committers_set_drop cfg.tasks i t0 t1 c2 _ hg h0x rfl
      have hcm : committers (cfg.tasks.set i t1) c2 = [] := by
        rw [← List.length_eq_zero]
        omega
      refine ⟨?_, ?_, ?_, hmainPhase _ hcm⟩
      · exact cvValidFor_set_nonwaiter cfg.tasks ch.readCV _ i t1 v1
          (by rw [taskAt_eq cfg.tasks i t0 _ hg]; exact h0r c2)
      · exact cvValidFor_set_nonwaiter cfg.tasks ch.writeReadCV _ i t1 v2
          (by rw [taskAt_eq cfg.tasks i t0 _ hg]; exact h0c c2)
      · rw [hcv]
        exact cvValidFor_nil _ _
    · rw [getD_set_other _ _ _ _ _ (fun he => hcc he.symm)]
      exact chanInvT_set_neutral cfg.tasks i t0 t1 c2 _ hg
        (fun hx => by rw [h0r c2] at hx; exact Bool.noConfusion hx)
        (fun hx => by rw [h0c c2] at hx; exact Bool.noConfusion hx)
        (fun hx => by rw [h0a c2] at hx; exact Bool.noConfusion hx)
        (commitOn_wdone_eq c v sig tt true none c2 hcc)
        (fun hx => rfl) (hinv c2 hc2)
  · rw [hts]
    intro c2 hc2
    rw [List.length_set] at hc2
    by_cases hcc : c2 = c
    · subst hcc
      rw [getD_set_self _ _ _ _ hclt]
      have hdrop := committers_set_drop cfg.tasks i t0 t1 c2 _ hg h0x rfl
      have hcm : committers (cfg.tasks.set i t1) c2 = [] := by
        rw [← List.length_eq_zero]
        omega
      refine ⟨?_, ?_, ?_, hmainPhase _ hcm⟩
      · exact cvValidFor_set_nonwaiter cfg.tasks ch.readCV _ i t1 v1
          (by rw [taskAt_eq cfg.tasks i t0 _ hg]; exact h0r c2)
      · exact cvValidFor_set_nonwaiter cfg.tasks ch.writeReadCV _ i t1 v2
          (by rw [taskAt_eq cfg.tasks i t0 _ hg]; exact h0c c2)
      · exact cvValidFor_set_nonwaiter cfg.tasks _ _ i t1
          (cvValidFor_of_sublist cfg.tasks ch.writeWriteCV _ _ hsub v3)
          (by rw [taskAt_eq cfg.tasks i t0 _ hg]; exact h0a c2)
    · rw [getD_set_other _ _ _ _ _ (fun he => hcc he.symm)]
      exact chanInvT_set_neutral cfg.tasks i t0 t1 c2 _ hg
        (fun hx => by rw [h0r c2] at hx; exact Bool.noConfusion hx)
        (fun hx => by rw [h0c c2] at hx; exact Bool.noConfusion hx)
        (fun hx => by rw [h0a c2] at hx; exact Bool.noConfusion hx)
        (commitOn_wdone_eq c v sig tt true none c2 hcc)
        (fun hx => rfl) (hinv c2 hc2)
  · have hneti : tid ≠ i := by
      intro he
      subst he
      rw [hg] at hgw
      have := Option.some.inj hgw
      subst this
      exact Bool.noConfusion hpw
    rw [hts1, hcv1]
    intro c2 hc2
    rw [List.length_set] at hc2
    have hgres : (resolveId cfg.tasks tid true).get? i = some t0 := by
      rw [resolveId_get_ne cfg.tasks tid i true hneti]
      exact hg
    by_cases hcc : c2 = c
    · subst hcc
      rw [getD_set_self _ _ _ _ hclt]
      have hcomr : committers (resolveId cfg.tasks tid true) c2
          = committers cfg.tasks c2 := committers_resolveId_true _ _ _
      have hdrop := committers_set_drop (resolveId cfg.tasks tid true) i t0 t1 c2 _
        hgres h0x rfl
      have hcm : committers ((resolveId cfg.tasks tid true).set i t1) c2 = [] := by
        rw [← List.length_eq_zero]
        rw [hcomr] at hdrop
        omega
      refine ⟨?_, ?_, ?_, hmainPhase _ hcm⟩
      · refine cvValidFor_set_nonwaiter _ ch.readCV _ i t1 ?_
          (by rw [taskAt_eq _ i t0 _ hgres]; exact h0r c2)
        refine cvValidFor_resolve_notMem cfg.tasks ch.readCV _ tid true v1 ?_
        exact notMem_entries_of_excl cfg.tasks ch.readCV _ _ tid tw v1 hgw hpw
          (fun t2 hq => admitWait_not_readWait t2 c2 c2 hq)
      · refine cvValidFor_set_nonwaiter _ ch.writeReadCV _ i t1 ?_
          (by rw [taskAt_eq _ i t0 _ hgres]; exact h0c c2)
        refine cvValidFor_resolve_notMem cfg.tasks ch.writeReadCV _ tid true v2 ?_
        exact notMem_entries_of_excl cfg.tasks ch.writeReadCV _ _ tid tw v2 hgw hpw
          (fun t2 hq => admitWait_not_commitWait t2 c2 c2 hq)
      · refine cvValidFor_set_nonwaiter _ _ _ i t1 ?_
          (by rw [taskAt_eq _ i t0 _ hgres]; exact h0a c2)
        exact cvValidFor_notify_self cfg.tasks ch.writeWriteCV _ tid true v3
    · rw [getD_set_other _ _ _ _ _ (fun he => hcc he.symm)]
      refine chanInvT_set_neutral _ i t0 t1 c2 _ hgres
        (fun hx => by rw [h0r c2] at hx; exact Bool.noConfusion hx)
        (fun hx => by rw [h0c c2] at hx; exact Bool.noConfusion hx)
        (fun hx => by rw [h0a c2] at hx; exact Bool.noConfusion hx)
        (commitOn_wdone_eq c v sig tt true none c2 hcc)
        (fun hx => rfl) ?_
      exact chanInvT_resolve_other cfg.tasks tid c c2 _ hcc tw hgw
        (Or.inr (Or.inr hpw)) (hinv c2 hc2)

theorem inv_writerEpilogueClosed (cfg : Config) (c i : Nat) (ch : ChanState)
    (v : Val) (sig : Option Nat) (tt : Int) (b : Bool) (r : Option ChanErr)
    (k2 : Nat) (newRS : Int) (hinv : INV cfg)
    (hch : cfg.channels.get? c = some ch)
    (hg : cfg.tasks.get? i = some (Task.writer c v sig (.commitResumed tt b)))
    (hclT : ch.closed = true) :
    INVp (cfg.channels.set c
        { ch with
          readSerial := newRS
          valueInTransit := false
          value := none
          writeWriteCV := (notifyOneRun ch.writeWriteCV k2 cfg.tasks).1 })
      (((notifyOneRun ch.writeWriteCV k2 cfg.tasks).2.1).set i
        (Task.writer c v sig (.wdone r))) := by
  have hclt : c < cfg.channels.length := by
    by_contra hge
    rw [List.get?_eq_none.mpr (Nat.le_of_not_lt hge)] at hch
    exact Option.noConfusion hch
  obtain ⟨v1, v2, v3, v4⟩ := hinv c hclt
  rw [getD_of_get? _ _ _ _ hch] at v1 v2 v3 v4
  set t0 : Task := Task.writer c v sig (.commitResumed tt b) with ht0
  set t1 : Task := Task.writer c v sig (.wdone r) with ht1
  have h0r : ∀ x, Task.isReadWaitOnB t0 x = false := fun x => rfl
  have h0c : ∀ x, Task.isCommitWaitOnB t0 x = false := fun x => rfl
  have h0a : ∀ x, Task.isAdmitWaitOnB t0 x = false := fun x => rfl
  have hmainPhase : ∀ (ts2 : List Task),
      chPhase ts2 c
        { ch with
          readSerial := newRS
          valueInTransit := false
          value := none
          writeWriteCV := (notifyOneRun ch.writeWriteCV k2 cfg.tasks).1 } := by
    intro ts2
    refine ⟨v4.1, fun hcl2 => ?_⟩
    have hq : ch.closed = false := hcl2
    rw [hclT] at hq
    exact Bool.noConfusion hq
  rcases notifyOneRun_spec ch.writeWriteCV k2 cfg.tasks _ v3 with
    ⟨heq, hcv⟩ | ⟨hcr2, hts, hsub⟩ | ⟨tid, tw, hgw, hpw, hcv1, hts1, hcr2, hnm, hsub⟩
  · rw [heq]
    intro c2 hc2
    rw [List.length_set] at hc2
    by_cases hcc : c2 = c
    · subst hcc
      rw [getD_set_self _ _ _ _ hclt]
      refine ⟨?_, ?_, ?_, hmainPhase _⟩
      · exact cvValidFor_set_nonwaiter cfg.tasks ch.readCV _ i t1 v1
          (by rw [taskAt_eq cfg.tasks i t0 _ hg]; exact h0r c2)
      · exact cvValidFor_set_nonwaiter cfg.tasks ch.writeReadCV _ i t1 v2
          (by rw [taskAt_eq cfg.tasks i t0 _ hg]; exact h0c c2)
      · rw [hcv]
        exact cvValidFor_nil _ _
    · rw [getD_set_other _ _ _ _ _ (fun he => hcc he.symm)]
      exact chanInvT_set_neutral cfg.tasks i t0 t1 c2 _ hg
        (fun hx => by rw [h0r c2] at hx; exact Bool.noConfusion hx)
        (fun hx => by rw [h0c c2] at hx; exact Bool.noConfusion hx)
        (fun hx => by rw [h0a c2] at hx; exact Bool.noConfusion hx)
        (commitOn_wdone_eq c v sig tt b r c2 hcc)
        (fun hx => rfl) (hinv c2 hc2)
  · rw [hts]
    intro c2 hc2
    rw [List.length_set] at hc2
    by_cases hcc : c2 = c
    · subst hcc
      rw [getD_set_self _ _ _ _ hclt]
      refine ⟨?_, ?_, ?_, hmainPhase _⟩
      · exact cvValidFor_set_nonwaiter cfg.tasks ch.readCV _ i t1 v1
          (by rw [taskAt_eq cfg.tasks i t0 _ hg]; exact h0r c2)
      · exact cvValidFor_set_nonwaiter cfg.tasks ch.writeReadCV _ i t1 v2
          (by rw [taskAt_eq cfg.tasks i t0 _ hg]; exact h0c c2)
      · exact cvValidFor_set_nonwaiter cfg.tasks _ _ i t1
          (cvValidFor_of_sublist cfg.tasks ch.writeWriteCV _ _ hsub v3)
          (by rw [taskAt_eq cfg.tasks i t0 _ hg]; exact h0a c2)
    · rw [getD_set_other _ _ _ _ _ (fun he => hcc he.symm)]
      exact chanInvT_set_neutral cfg.tasks i t0 t1 c2 _ hg
        (fun hx => by rw [h0r c2] at hx; exact Bool.noConfusion hx)
        (fun hx => by rw [h0c c2] at hx; exact Bool.noConfusion hx)
        (fun hx => by rw [h0a c2] at hx; exact Bool.noConfusion hx)
        (commitOn_wdone_eq c v sig tt b r c2 hcc)
        (fun hx => rfl) (hinv c2 hc2)
  · have hneti : tid ≠ i := by
      intro he
      subst he
      rw [hg] at hgw
      have := Option.some.inj hgw
      subst this
      exact Bool.noConfusion hpw
    rw [hts1, hcv1]
    intro c2 hc2
    rw [List.length_set] at hc2
    have hgres : (resolveId cfg.tasks tid true).get? i = some t0 := by
      rw [resolveId_get_ne cfg.tasks tid i true hneti]
      exact hg
    by_cases hcc : c2 = c
    · subst hcc
      rw [getD_set_self _ _ _ _ hclt]
      refine ⟨?_, ?_, ?_, hmainPhase _⟩
      · refine cvValidFor_set_nonwaiter _ ch.readCV _ i t1 ?_
          (by rw [taskAt_eq _ i t0 _ hgres]; exact h0r c2)
        refine cvValidFor_resolve_notMem cfg.tasks ch.readCV _ tid true v1 ?_
        exact notMem_entries_of_excl cfg.tasks ch.readCV _ _ tid tw v1 hgw hpw
          (fun t2 hq => admitWait_not_readWait t2 c2 c2 hq)
      · refine cvValidFor_set_nonwaiter _ ch.writeReadCV _ i t1 ?_
          (by rw [taskAt_eq _ i t0 _ hgres]; exact h0c c2)
        refine cvValidFor_resolve_notMem cfg.tasks ch.writeReadCV _ tid true v2 ?_
        exact notMem_entries_of_excl cfg.tasks ch.writeReadCV _ _ tid tw v2 hgw hpw
          (fun t2 hq => admitWait_not_commitWait t2 c2 c2 hq)
      · refine cvValidFor_set_nonwaiter _ _ _ i t1 ?_
          (by rw [taskAt_eq _ i t0 _ hgres]; exact h0a c2)
        exact cvValidFor_notify_self cfg.tasks ch.writeWriteCV _ tid true v3
    · rw [getD_set_other _ _ _ _ _ (fun he => hcc he.symm)]
      refine chanInvT_set_neutral _ i t0 t1 c2 _ hgres
        (fun hx => by rw [h0r c2] at hx; exact Bool.noConfusion hx)
        (fun hx => by rw [h0c c2] at hx; exact Bool.noConfusion hx)
        (fun hx => by rw [h0a c2] at hx; exact Bool.noConfusion hx)
        (commitOn_wdone_eq c v sig tt b r c2 hcc)
        (fun hx => rfl) ?_
      exact chanInvT_resolve_other cfg.tasks tid c c2 _ hcc tw hgw
        (Or.inr (Or.inr hpw)) (hinv c2 hc2)

theorem inv_writerBody (cfg : Config) (c i : Nat) (ch : ChanState)
    (v : Val) (sig : Option Nat) (k1 k2 : Nat) (t0 : Task) (hinv : INV cfg)
    (hch : cfg.channels.get? c = some ch)
    (hg : cfg.tasks.get? i = some t0)
    (h0r : ∀ x, Task.isReadWaitOnB t0 x = false)
    (h0c : ∀ x, Task.isCommitWaitOnB t0 x = false)
    (h0a : ∀ x, Task.isAdmitWaitOnB t0 x = false)
    (h0co : ∀ x, Task.commitOn t0 x = none) :
    INVp (cfg.channels.set c (writerBody ch v i k1 k2 cfg.tasks).ch)
      ((writerBody ch v i k1 k2 cfg.tasks).tasks.set i
        (Task.writer c v sig (writerBody ch v i k1 k2 cfg.tasks).st)) := by
  unfold writerBody
  dsimp only
  split
  · exact inv_writerRegisterAdmit cfg c i ch t0 (Task.writer c v sig .admitWait)
      hinv hch hg h0r h0c h0a h0co
      (by simp [Task.isAdmitWaitOnB])
      (fun x hx => by simp [Task.isAdmitWaitOnB]; omega)
      (fun x => rfl) (fun x => rfl) (fun x => rfl) (fun x => rfl)
  · next hA =>
    split
    · exact inv_neutralSet cfg c i ch t0 (Task.writer c v sig (.wdone (some .closedE)))
        hinv hch hg h0r h0c h0a h0co (fun x => rfl) (fun x => rfl)
    · next hcl2 =>
      have hclF : ch.closed = false := by
        cases hb : ch.closed
        · rfl
        · exact absurd hb hcl2
      have htrF : ch.valueInTransit = false := by
        cases hb : ch.valueInTransit
        · rfl
        · exact absurd ⟨hb, hclF⟩ hA
      split
      · next hcr =>
        exact inv_writerPublishCrash cfg c i ch v k1 t0
          (Task.writer c v sig (.wdone (some .fatalE))) hinv hch hg
          h0r h0c h0a h0co (fun x => rfl) (fun x => rfl) hclF htrF
      · split
        · exact inv_writerPublishCommit cfg c i ch v sig k1 t0 hinv hch hg
            h0r h0c h0a h0co hclF htrF
        · next hlt =>
          exfalso
          have hclt : c < cfg.channels.length := by
            by_contra hge
            rw [List.get?_eq_none.mpr (Nat.le_of_not_lt hge)] at hch
            exact Option.noConfusion hch
          obtain ⟨v1, v2, v3, v4⟩ := hinv c hclt
          rw [getD_of_get? _ _ _ _ hch] at v4
          rcases v4.2 hclF with ⟨p1, p2, p3, p4, p5⟩ | ⟨q1, q2, q3, q4, sub⟩
          · exact hlt ⟨by show ch.readSerial < ch.writeSerial + 1; omega, hclF⟩
          · rw [htrF] at q1
            exact absurd q1 (by simp)

theorem inv_writerCommitResume (cfg : Config) (c i : Nat) (ch : ChanState)
    (v : Val) (sig : Option Nat) (tt : Int) (b : Bool) (k2 : Nat)
    (hinv : INV cfg) (hch : cfg.channels.get? c = some ch)
    (hg : cfg.tasks.get? i = some (Task.writer c v sig (.commitResumed tt b)))
    (hsafe : epiloguePickSafeB cfg i k2 = true) :
    INVp (cfg.channels.set c (writerCommitResume ch v tt b i k2 cfg.tasks).ch)
      ((writerCommitResume ch v tt b i k2 cfg.tasks).tasks.set i
        (Task.writer c v sig (writerCommitResume ch v tt b i k2 cfg.tasks).st)) := by
  unfold writerCommitResume
  split
  · next hcond =>
    exfalso
    obtain ⟨hb, htt, hrw, _⟩ :=
      commitResumed_phase cfg c i ch v sig tt b hinv hch hg hcond.2.1
    have hlt := hcond.1
    omega
  · next hcond =>
    have hnc : (notifyOneRun ch.writeWriteCV k2 cfg.tasks).2.2 = false :=
      epiloguePick_extract cfg c i ch v sig tt b k2 hg hch hcond hsafe
    have hncP : ¬((notifyOneRun ch.writeWriteCV k2 cfg.tasks).2.2 = true) := by
      rw [hnc]
      exact fun h => Bool.noConfusion h
    unfold writerEpilogue
    cases b with
    | false =>
      by_cases hcl : ch.closed = true
      · dsimp only
        simp only [reduceIte]
        rw [if_neg hncP]
        exact inv_writerEpilogueClosed cfg c i ch v sig tt false
          (some .writeCancelledE) k2 (ch.readSerial + 1) hinv hch hg hcl
      · exfalso
        have hclF : ch.closed = false := by
          cases hq : ch.closed
          · rfl
          · exact absurd hq hcl
        obtain ⟨hb, _⟩ :=
          commitResumed_phase cfg c i ch v sig tt false hinv hch hg hclF
        exact Bool.noConfusion hb
    | true =>
      by_cases hcl : ch.closed = true
      · dsimp only
        rw [if_neg (fun h => Bool.noConfusion h : ¬((true : Bool) = false))]
        rw [if_neg hncP, if_pos hcl]
        exact inv_writerEpilogueClosed cfg c i ch v sig tt true
          (some .closedE) k2 ch.readSerial hinv hch hg hcl
      · have hclF : ch.closed = false := by
          cases hq : ch.closed
          · rfl
          · exact absurd hq hcl
        dsimp only
        rw [if_neg (fun h => Bool.noConfusion h : ¬((true : Bool) = false))]
        rw [if_neg hncP, if_neg hcl]
        exact inv_writerCompleteOpen cfg c i ch v sig tt k2 hinv hch hg hclF

theorem inv_step (cfg : Config) (a : Act) (hinv : INV cfg)
    (hsafe : safeActB cfg a = true) : INV (step cfg a) := by
  cases a with
  | abortSig s =>
    show INV (fireAbort cfg s)
    exact inv_fireAbort cfg s hinv hsafe
  | closeChan c =>
    show INV (doClose cfg c)
    exact inv_doClose cfg c hinv
  | runTask i k1 k2 =>
    show INV (runTaskStep cfg i k1 k2)
    have hs2 : (epiloguePickSafeB cfg i k2 && armThenAbortSafeB cfg i) = true := hsafe
    obtain ⟨hep, harm⟩ := (Bool.and_eq_true _ _).mp hs2
    cases hgt : cfg.tasks.get? i with
    | none => simp only [runTaskStep, hgt]; exact hinv
    | some t =>
      cases t with
      | writer c v sig st =>
        cases hch : cfg.channels.get? c with
        | none => simp only [runTaskStep, hgt, hch]; exact hinv
        | some ch =>
          cases st with
          | start =>
            simp only [runTaskStep, hgt, hch]
            exact INV_of_INVp _ (inv_writerBody cfg c i ch v sig k1 k2
              (Task.writer c v sig .start) hinv hch hgt
              (fun x => rfl) (fun x => rfl) (fun x => rfl) (fun x => rfl))
          | admitResumed b =>
            cases b with
            | true =>
              simp only [runTaskStep, hgt, hch, bool_if_true, if_true]
              exact INV_of_INVp _ (inv_writerBody cfg c i ch v sig k1 k2
                (Task.writer c v sig (.admitResumed true)) hinv hch hgt
                (fun x => rfl) (fun x => rfl) (fun x => rfl) (fun x => rfl))
            | false =>
              simp only [runTaskStep, hgt, hch, bool_if_false, if_false]
              exact INV_of_INVp _ (inv_neutralTasks cfg i
                (Task.writer c v sig (.admitResumed false))
                (Task.writer c v sig (.wdone (some .writeCancelledE))) hinv hgt
                (fun x => rfl) (fun x => rfl) (fun x => rfl) (fun x => rfl)
                (fun x => rfl) (fun x => rfl))
          | commitResumed tt b =>
            simp only [runTaskStep, hgt, hch]
            exact INV_of_INVp _
              (inv_writerCommitResume cfg c i ch v sig tt b k2 hinv hch hgt hep)
          | admitWait => simp only [runTaskStep, hgt, hch]; exact hinv
          | commitWait tt => simp only [runTaskStep, hgt, hch]; exact hinv
          | wdone r => simp only [runTaskStep, hgt, hch]; exact hinv
      | reader c sig st =>
        cases hch : cfg.channels.get? c with
        | none => simp only [runTaskStep, hgt, hch]; exact hinv
        | some ch =>
          cases st with
          | start =>
            simp only [runTaskStep, hgt, hch]
            exact INV_of_INVp _ (inv_readerStep cfg c i ch .always k1
              (Task.reader c sig .start) (Task.reader c sig) hinv hch hgt
              (fun x => rfl) (fun x => rfl) (fun x => rfl) (fun x => rfl)
              (fun st x hst => by
                cases st
                case rwait => exact absurd rfl hst
                all_goals rfl)
              (fun x hx => by simp [Task.isReadWaitOnB]; omega)
              (by simp [Task.isReadWaitOnB])
              (fun st x => rfl) (fun st x => rfl) (fun st x => rfl)
              (fun st x => rfl))
          | resumed b =>
            cases b with
            | true =>
              simp only [runTaskStep, hgt, hch, bool_if_true, if_true]
              exact INV_of_INVp _ (inv_readerStep cfg c i ch .always k1
                (Task.reader c sig (.resumed true)) (Task.reader c sig) hinv hch hgt
                (fun x => rfl) (fun x => rfl) (fun x => rfl) (fun x => rfl)
                (fun st x hst => by
                  cases st
                  case rwait => exact absurd rfl hst
                  all_goals rfl)
                (fun x hx => by simp [Task.isReadWaitOnB]; omega)
                (by simp [Task.isReadWaitOnB])
                (fun st x => rfl) (fun st x => rfl) (fun st x => rfl)
                (fun st x => rfl))
            | false =>
              simp only [runTaskStep, hgt, hch, bool_if_false, if_false]
              exact INV_of_INVp _ (inv_neutralTasks cfg i
                (Task.reader c sig (.resumed false))
                (Task.reader c sig (.rdone (.error .readCancelledE))) hinv hgt
                (fun x => rfl) (fun x => rfl) (fun x => rfl) (fun x => rfl)
                (fun x => rfl) (fun x => rfl))
          | rwait => simp only [runTaskStep, hgt, hch]; exact hinv
          | rdone r => simp only [runTaskStep, hgt, hch]; exact hinv
      | arm av c idx nhs nhf ast =>
        cases ast with
        | reading rst =>
          cases rst with
          | start =>
            cases hch : cfg.channels.get? c with
            | none => simp only [runTaskStep, hgt, hch]; exact hinv
            | some ch =>
              cases av with
              | true =>
                simp only [runTaskStep, hgt, hch, bool_if_true, if_true]
                exact INV_of_INVp _ (inv_readerStep cfg c i ch .flagged k1
                  (Task.arm true c idx nhs nhf (.reading .start))
                  (fun st => Task.arm true c idx nhs nhf (.reading st)) hinv hch hgt
                  (fun x => rfl) (fun x => rfl) (fun x => rfl) (fun x => rfl)
                  (fun st x hst => by
                    cases st
                    case rwait => exact absurd rfl hst
                    all_goals rfl)
                  (fun x hx => by simp [Task.isReadWaitOnB]; omega)
                  (by simp [Task.isReadWaitOnB])
                  (fun st x => rfl) (fun st x => rfl) (fun st x => rfl)
                  (fun st x => rfl))
              | false =>
                simp only [runTaskStep, hgt, hch, bool_if_false, if_false]
                exact INV_of_INVp _ (inv_readerStep cfg c i ch .always k1
                  (Task.arm false c idx nhs nhf (.reading .start))
                  (fun st => Task.arm false c idx nhs nhf (.reading st)) hinv hch hgt
                  (fun x => rfl) (fun x => rfl) (fun x => rfl) (fun x => rfl)
                  (fun st x hst => by
                    cases st
                    case rwait => exact absurd rfl hst
                    all_goals rfl)
                  (fun x hx => by simp [Task.isReadWaitOnB]; omega)
                  (by simp [Task.isReadWaitOnB])
                  (fun st x => rfl) (fun st x => rfl) (fun st x => rfl)
                  (fun st x => rfl))
          | resumed b =>
            cases b with
            | true =>
              cases hch : cfg.channels.get? c with
              | none => simp only [runTaskStep, hgt, hch, bool_if_true, if_true]; exact hinv
              | some ch =>
                cases av with
                | true =>
                  simp only [runTaskStep, hgt, hch, bool_if_true, if_true]
                  exact INV_of_INVp _ (inv_readerStep cfg c i ch .flagged k1
                    (Task.arm true c idx nhs nhf (.reading (.resumed true)))
                    (fun st => Task.arm true c idx nhs nhf (.reading st)) hinv hch hgt
                    (fun x => rfl) (fun x => rfl) (fun x => rfl) (fun x => rfl)
                    (fun st x hst => by
                      cases st
                      case rwait => exact absurd rfl hst
                      all_goals rfl)
                    (fun x hx => by simp [Task.isReadWaitOnB]; omega)
                    (by simp [Task.isReadWaitOnB])
                    (fun st x => rfl) (fun st x => rfl) (fun st x => rfl)
                    (fun st x => rfl))
                | false =>
                  simp only [runTaskStep, hgt, hch, bool_if_true, if_true, bool_if_false,
                    if_false]
                  exact INV_of_INVp _ (inv_readerStep cfg c i ch .always k1
                    (Task.arm false c idx nhs nhf (.reading (.resumed true)))
                    (fun st => Task.arm false c idx nhs nhf (.reading st)) hinv hch hgt
                    (fun x => rfl) (fun x => rfl) (fun x => rfl) (fun x => rfl)
                    (fun st x hst => by
                      cases st
                      case rwait => exact absurd rfl hst
                      all_goals rfl)
                    (fun x hx => by simp [Task.isReadWaitOnB]; omega)
                    (by simp [Task.isReadWaitOnB])
                    (fun st x => rfl) (fun st x => rfl) (fun st x => rfl)
                    (fun st x => rfl))
            | false =>
              simp only [runTaskStep, hgt, bool_if_false, if_false]
              exact INV_of_INVp _ (inv_neutralTasks cfg i
                (Task.arm av c idx nhs nhf (.reading (.resumed false)))
                (Task.arm av c idx nhs nhf (.reading (.rdone (.error .readCancelledE))))
                hinv hgt
                (fun x => rfl) (fun x => rfl) (fun x => rfl) (fun x => rfl)
                (fun x => rfl) (fun x => rfl))
          | rwait => simp only [runTaskStep, hgt]; exact hinv
          | rdone r =>
            simp only [runTaskStep, hgt]
            exact INV_of_INVp _ (inv_neutralTasks cfg i
              (Task.arm av c idx nhs nhf (.reading (.rdone r)))
              (Task.arm av c idx nhs nhf (armReadDoneNext av r)) hinv hgt
              (fun x => rfl) (fun x => rfl) (fun x => rfl) (fun x => rfl)
              (fun x => rfl) (fun x => rfl))
        | thenPhase v =>
          simp only [runTaskStep, hgt]
          have habort : abortSafeB cfg.tasks cfg.selSig = true := by
            unfold armThenAbortSafeB at harm
            simp only [hgt] at harm
            exact harm
          have hinv2 : INV (fireAbort cfg cfg.selSig) :=
            inv_fireAbort cfg cfg.selSig hinv habort
          have hg2 : (fireAbort cfg cfg.selSig).tasks.get? i
              = some (Task.arm av c idx nhs nhf (.thenPhase v)) :=
            fireAbort_get_fixed cfg cfg.selSig i _ hgt rfl
          exact INV_of_INVp _ (inv_neutralTasks (fireAbort cfg cfg.selSig) i
            (Task.arm av c idx nhs nhf (.thenPhase v))
            (Task.arm av c idx nhs nhf (.handlerRun v nhs)) hinv2 hg2
            (fun x => rfl) (fun x => rfl) (fun x => rfl) (fun x => rfl)
            (fun x => rfl) (fun x => rfl))
        | handlerRun v n =>
          cases n with
          | zero =>
            simp only [runTaskStep, hgt]
            exact INV_of_INVp _ (inv_neutralTasks cfg i
              (Task.arm av c idx nhs nhf (.handlerRun v 0))
              (Task.arm av c idx nhs nhf (armHandlerOutcome av nhf)) hinv hgt
              (fun x => rfl) (fun x => rfl) (fun x => rfl) (fun x => rfl)
              (fun x => rfl) (fun x => rfl))
          | succ m =>
            simp only [runTaskStep, hgt]
            exact INV_of_INVp _ (inv_neutralTasks cfg i
              (Task.arm av c idx nhs nhf (.handlerRun v (m + 1)))
              (Task.arm av c idx nhs nhf (.handlerRun v m)) hinv hgt
              (fun x => rfl) (fun x => rfl) (fun x => rfl) (fun x => rfl)
              (fun x => rfl) (fun x => rfl))
        | armDone r => simp only [runTaskStep, hgt]; exact hinv

/-- Any serialization-safe run of scheduler actions preserves the machine
invariant. -/
theorem inv_run (cfg : Config) (acts : List Act) (hinv : INV cfg)
    (hsafe : safeRunB cfg acts = true) : INV (run cfg acts) := by
  induction acts generalizing cfg with
  | nil => exact hinv
  | cons a rest ih =>
    have hs2 : (safeActB cfg a && safeRunB (step cfg a) rest) = true := hsafe
    obtain ⟨h1, h2⟩ := (Bool.and_eq_true _ _).mp hs2
    exact ih (step cfg a) (inv_step cfg a hinv h1) h2

theorem plainRendezvous_INV : INV plainRendezvousCfg := by
  intro c hc
  have hc0 : c = 0 := Nat.lt_one_iff.mp hc
  subst hc0
  exact ⟨cvValidFor_nil _ _, cvValidFor_nil _ _, cvValidFor_nil _ _, rfl,
    fun hcl => Or.inl ⟨rfl, rfl, rfl, rfl, rfl⟩⟩

/-- Cancelling a write between its publication and its completion breaks
serial pairing: the write of 5 is cancelled after a reader consumed its
value, its epilogue bumps `readSerial` a second time, and the write of 6
then completes successfully without any matching read — the first read
that completed successfully returned 5 while the first write that completed
successfully wrote 6. -/
theorem channel_serialization_cancellation_breaks :
    ((run serializationCfg serializationScript).channels.getD 0 ChanState.fresh).readLog
        = [some 5, some 7] ∧
    ((run serializationCfg serializationScript).channels.getD 0 ChanState.fresh).writeLog
        = [6, 7] ∧
    (run serializationCfg serializationScript).tasks.get? 3
        = some (Task.reader 0 none (.rdone (.ok (some 5)))) ∧
    (run serializationCfg serializationScript).tasks.get? 1
        = some (Task.writer 0 6 none (.wdone none)) ∧
    ¬(((run serializationCfg serializationScript).channels.getD 0
          ChanState.fresh).readLog.take
        ((run serializationCfg serializationScript).channels.getD 0
          ChanState.fresh).writeLog.length
      = ((run serializationCfg serializationScript).channels.getD 0
          ChanState.fresh).writeLog.map some) := by
  decide

/-- C2 (amended): starting from any configuration satisfying the machine
invariant, after any serialization-safe interleaving — no abort signal
cancels a completion-phase write and no write-epilogue `notifyOne` invokes
a corrupted wait-set entry — every channel shows serial pairing: the
successful reads, in completion order, extend the successful writes, so the
value of the i-th write that completed successfully equals the value
returned by the i-th read that completed successfully.  The unamended claim
(any interleaving, cancellation mid-protocol included) is refuted by
`channel_serialization_cancellation_breaks`. -/
theorem channel_serialization_safe (cfg0 : Config) (acts : List Act) (c : Nat)
    (ch : ChanState) (hinv : INV cfg0) (hsafe : safeRunB cfg0 acts = true)
    (hch : (run cfg0 acts).channels.get? c = some ch) :
    ch.readLog.take ch.writeLog.length = ch.writeLog.map some ∧
    ∀ i w, ch.writeLog.get? i = some w → ch.readLog.get? i = some (some w) := by
  have hinvR : INV (run cfg0 acts) := inv_run cfg0 acts hinv hsafe
  have hclt : c < (run cfg0 acts).channels.length := by
    by_contra hge
    rw [List.get?_eq_none.mpr (Nat.le_of_not_lt hge)] at hch
    exact Option.noConfusion hch
  have hcinv := hinvR c hclt
  rw [getD_of_get? _ _ _ _ hch] at hcinv
  have hpre := hcinv.2.2.2.1
  refine ⟨hpre, ?_⟩
  intro i w hw
  have hlt : i < ch.writeLog.length := by
    by_contra hge
    rw [List.get?_eq_none.mpr (Nat.le_of_not_lt hge)] at hw
    exact Option.noConfusion hw
  have h1 : (ch.readLog.take ch.writeLog.length).get? i
      = (ch.writeLog.map some).get? i := by
    rw [hpre]
  rw [List.get?_take hlt, List.get?_map, hw] at h1
  exact h1

theorem channel_serialization_safe_witness :
    INV plainRendezvousCfg ∧ safeRunB plainRendezvousCfg plainRendezvousScript = true ∧
    ∃ ch, (run plainRendezvousCfg plainRendezvousScript).channels.get? 0 = some ch ∧
      (ch.readLog.take ch.writeLog.length = ch.writeLog.map some ∧
       ∀ i w, ch.writeLog.get? i = some w → ch.readLog.get? i = some (some w)) :=
  ⟨plainRendezvous_INV, by decide,
   ⟨_, rfl, channel_serialization_safe plainRendezvousCfg plainRendezvousScript 0 _
      plainRendezvous_INV (by decide) rfl⟩⟩

end TsConc
